import Mathlib

/-!
# Verification of the CPU-Rasterizer entity store and rasterization pipeline

Shallow embedding, in Lean 4, of the parts of the `Niffoxic/CPU-Rasterizer`
repository that the specification's testable properties talk about:

* the 64-bit packed entity handle (`fecs::entity`, `src/assignment/include/optimized/fecs.h`);
* the entity manager with its generation counters and free list
  (`fecs::entity_manager`);
* the archetype table storage, entity locations and the public `fecs::world`
  operations (`create_entity`, `destroy_entity`, `add_component`,
  `remove_component`, `try_get_component`, `get_location`);
* the versioned render cache (`fecs::render_cache`);
* the scanline slice partition (`optimized_renderer_core::compute_slice_ranges`,
  `src/assignment/src/optimized_renderer.cpp`);
* the scalar triangle rasterization loop of
  `optimized_renderer_core::draw_world_slice` together with `make_svtx`
  (screen mapping and depth), flat lighting and the depth test.

Machine integers are modelled as `Nat`/`Int`; the C++ `float` pipeline of the
rasterizer is modelled over `ℚ` (exact arithmetic; the spec states its
geometric properties at this level and declares the scalar path authoritative).
`sqrtf`-based vector normalisation is kept abstract (a section parameter),
since none of the verified properties depend on the numeric value of a
normalised vector.
-/

namespace fecs

/-! ## Entity handle packing (`fecs::entity`, fecs.h lines 46-63)

The C++ `entity` stores a single `std::uint64_t` `value`; `make` packs a
32-bit slot index into the high half and a 32-bit generation into the low
half.  We model the 64-bit value as a `Nat` (for `make`'s in-range inputs the
C++ arithmetic never overflows 2^64, and the `static_cast<fecs_id>` narrowing
in `index`/`generation` is the explicit `% 2^32`). -/

def INVALID_ENTITY : Nat := 2 ^ 64 - 1

namespace entity

/-- `entity::make`: `(u64(index) << 32) | u64(generation)`. -/
def make (index generation : Nat) : Nat := (index <<< 32) ||| generation

/-- `entity::index`: `static_cast<fecs_id>(value >> 32)`. -/
def index (value : Nat) : Nat := (value >>> 32) % 2 ^ 32

/-- `entity::generation`: `static_cast<fecs_id>(value)`. -/
def generation (value : Nat) : Nat := value % 2 ^ 32

/-- `entity::valid`: `value != INVALID_ENTITY`. -/
def valid (value : Nat) : Bool := value != INVALID_ENTITY

end entity

/-- Splitting lemma for the handle packing: when the low word is in range,
the shift-or is plain place-value arithmetic. -/
theorem shiftLeft_lor_eq_mul_add (a b : Nat) (hb : b < 2 ^ 32) :
    (a <<< 32) ||| b = a * 2 ^ 32 + b := by
  rw [Nat.shiftLeft_eq]
  apply Nat.eq_of_testBit_eq
  intro j
  have hcomm : a * 2 ^ 32 = 2 ^ 32 * a := Nat.mul_comm _ _
  rw [Nat.testBit_lor, hcomm, Nat.testBit_mul_pow_two,
    Nat.testBit_mul_pow_two_add a hb]
  by_cases h : j < 32
  · simp [h, Nat.not_le.mpr h]
  · have hj : 32 ≤ j := Nat.not_lt.mp h
    have hb2 : b < 2 ^ j := lt_of_lt_of_le hb (Nat.pow_le_pow_right (by norm_num) hj)
    simp [h, hj, Nat.testBit_lt_two_pow hb2]

/-- C10 (confirmed): packing a 32-bit index and a 32-bit generation into the
64-bit handle round-trips exactly through `entity::index` and
`entity::generation`, and the packed handle is `valid()` unless it is the
all-ones `INVALID_ENTITY` pattern, i.e. unless both halves are `0xFFFFFFFF`. -/
theorem C10_entity_make_roundtrip (i g : Nat) (hi : i < 2 ^ 32) (hg : g < 2 ^ 32) :
    entity.index (entity.make i g) = i ∧
    entity.generation (entity.make i g) = g ∧
    (entity.valid (entity.make i g) = true ↔ ¬(i = 2 ^ 32 - 1 ∧ g = 2 ^ 32 - 1)) := by
  have hsplit : entity.make i g = i * 2 ^ 32 + g := shiftLeft_lor_eq_mul_add i g hg
  refine ⟨?_, ?_, ?_⟩
  · rw [entity.index, hsplit, Nat.shiftRight_eq_div_pow]
    omega
  · rw [entity.generation, hsplit]
    omega
  · rw [entity.valid, hsplit]
    simp only [bne_iff_ne, ne_eq, INVALID_ENTITY]
    constructor
    · intro hne ⟨h1, h2⟩
      subst h1; subst h2
      omega
    · intro hne heq
      exact hne (by constructor <;> omega)

/-- Witness for C10 at `i = 5`, `g = 7`. -/
theorem C10_entity_make_roundtrip_witness :
    (5 < 2 ^ 32 ∧ 7 < 2 ^ 32) ∧
    (entity.index (entity.make 5 7) = 5 ∧
     entity.generation (entity.make 5 7) = 7 ∧
     (entity.valid (entity.make 5 7) = true ↔ ¬(5 = 2 ^ 32 - 1 ∧ 7 = 2 ^ 32 - 1))) :=
  ⟨⟨by norm_num, by norm_num⟩,
   C10_entity_make_roundtrip 5 7 (by norm_num) (by norm_num)⟩

/-! ## The entity store (`fecs::world` and its parts, fecs.h)

The world model is parameterized by a type `V` of component values: the C++
store is type-erased (raw byte columns plus a `{default-construct, destroy,
move-construct}` capability triple per component), which a value model
renders as: a column holds `Option V` cells (`none` = raw uninitialized
storage), a registered component contributes its default value (the
`default_ctor`), move-construction copies the value and destruction drops
it.  Entity handles are modelled by their unpacked `(index, generation)`
pair; theorem `C10_entity_make_roundtrip` shows the 64-bit packing used by
the C++ code is lossless, so nothing is abstracted away. -/

/-- `fecs::entity`, unpacked.  (The C++ handle is the 64-bit packed `value`;
see the `entity` namespace above for the bit-level model.) -/
structure ent where
  index : Nat
  generation : Nat
deriving DecidableEq, Repr

/-- `entity::valid` on the unpacked handle: the packed value differs from
`INVALID_ENTITY` unless both halves are all-ones. -/
def ent.valid (e : ent) : Bool :=
  !(e.index == 2 ^ 32 - 1 && e.generation == 2 ^ 32 - 1)

/-- `fecs::location` (fecs.h lines 750-755): `tid == INVALID_TABLE` is
modelled as `none`. -/
structure location where
  tid : Option Nat
  row : Nat
deriving DecidableEq, Repr

instance : Inhabited location := ⟨⟨none, 0⟩⟩

/-- `location::valid`: `tid != INVALID_TABLE`. -/
def location.valid (l : location) : Bool := l.tid.isSome

/-- `fecs::entity_manager` (fecs.h lines 65-114): `generations_` (one
counter per slot), `fragment_` (free list of recycled slot indices, used
LIFO from the back), `alive_count_`. -/
structure entity_manager where
  generations : List Nat
  fragment : List Nat
  alive_count : Nat
deriving DecidableEq, Repr

namespace entity_manager

def init : entity_manager := ⟨[], [], 0⟩

/-- `entity_manager::alive`. -/
def alive (m : entity_manager) (e : ent) : Bool :=
  e.valid && decide (e.index < m.generations.length) &&
    (m.generations.getD e.index 0 == e.generation)

/-- `entity_manager::create_entity`: pop a recycled index off the back of
the free list if one exists, else grow `generations_` with a fresh slot
whose index is `static_cast<fecs_id>(generations_.size())` — a `uint32`
cast, i.e. the size modulo `2 ^ 32` — and then read the generation stored
at that index (`0` for a genuinely fresh slot).  `++alive_count_` is a
`std::uint32_t` increment, wrapping at `2 ^ 32`. -/
def create_entity (m : entity_manager) : ent × entity_manager :=
  match m.fragment.getLast? with
  | some idx =>
    (⟨idx, m.generations.getD idx 0⟩,
      { m with fragment := m.fragment.dropLast,
               alive_count := (m.alive_count + 1) % 2 ^ 32 })
  | none =>
    (⟨m.generations.length % 2 ^ 32,
      (m.generations ++ [0]).getD (m.generations.length % 2 ^ 32) 0⟩,
      { generations := m.generations ++ [0], fragment := m.fragment,
        alive_count := (m.alive_count + 1) % 2 ^ 32 })

/-- `entity_manager::destroy_entity`: no-op unless alive; otherwise
`++generations_[index]` — an increment of a `std::uint32_t` counter, which
wraps to `0` at `2 ^ 32` — push the index on the free list and decrement
the `uint32` `alive_count_` (wrapping subtraction). -/
def destroy_entity (m : entity_manager) (e : ent) : entity_manager :=
  if m.alive e then
    { m with
      generations := m.generations.set e.index
        ((m.generations.getD e.index 0 + 1) % 2 ^ 32),
      fragment := m.fragment ++ [e.index],
      alive_count := (m.alive_count + (2 ^ 32 - 1)) % 2 ^ 32 }
  else m

end entity_manager

/-- `archetype_key::canonicalise`: sort, then drop adjacent duplicates
(`std::ranges::unique` on a sorted list removes exactly all duplicates). -/
def canonicalise (ids : List Nat) : List Nat :=
  (List.insertionSort (· ≤ ·) ids).dedup

/-- A `fecs::column` (fecs.h lines 260-411): the capability triple reduces
to the component's default value, the byte buffer to a list of cells
(`none` = uninitialized memory).  Capacity/growth is not modelled: `grow_to`
move-relocates every element, preserving contents. -/
structure column (V : Type) where
  default : V
  data : List (Option V)
deriving DecidableEq, Repr

namespace column

variable {V : Type}

/-- `column::push_defaults` (growth elided: it preserves contents). -/
def push_defaults (c : column V) : column V :=
  { c with data := c.data ++ [some c.default] }

/-- The per-column body of `table::add_row_uninitialized`: grow if needed
and `++size` without constructing. -/
def push_uninit (c : column V) : column V :=
  { c with data := c.data ++ [none] }

/-- `column::remove_swap`: destroy the cell at `row`, move the last cell
into it (unless `row` is last) and pop.  When `row` is the last index the
`set` rewrites the dropped cell, so one formula covers both branches. -/
def remove_swap (c : column V) (row : Nat) : column V :=
  { c with data := (c.data.set row (c.data.getD (c.data.length - 1) none)).dropLast }

/-- `column::remove_swap_nodestroy`: `memcpy` of the last cell over `row`
then pop; identical to `remove_swap` at the value level. -/
def remove_swap_nodestroy (c : column V) (row : Nat) : column V :=
  { c with data := (c.data.set row (c.data.getD (c.data.length - 1) none)).dropLast }

/-- Reading `ptr_at_unsafe(row)`. -/
def cell (c : column V) (row : Nat) : Option V := c.data.getD row none

end column

/-- `fecs::table` (fecs.h lines 417-666): the dense entity array in parallel
with one column per component of the archetype key.  `columns[i]` stores the
component `key[i]` (`create_table` builds them in key order); the
open-addressed `lookup_keys_/lookup_vals_` fast path computes the same
index. -/
structure table (V : Type) where
  id : Nat
  key : List Nat
  entities : List ent
  columns : List (column V)
deriving DecidableEq, Repr

namespace table

variable {V : Type}

/-- `table::size`. -/
def size (t : table V) : Nat := t.entities.length

/-- `table::has` (binary search in the sorted key). -/
def has (t : table V) (cid : Nat) : Bool := t.key.contains cid

/-- `table::column_index`: `lower_bound` in the sorted, duplicate-free key;
for a present id this is its position. -/
def column_index (t : table V) (cid : Nat) : Nat := t.key.indexOf cid

/-- Reading `get_component_ptr(row, cid)`. -/
def cell (t : table V) (row cid : Nat) : Option V :=
  match t.columns.get? (t.column_index cid) with
  | some c => c.cell row
  | none => none

/-- Writing through `get_column(cid).ptr_at_unsafe(row)` (the move target in
`migrate_entity_to_table`). -/
def set_cell (t : table V) (row cid : Nat) (v : Option V) : table V :=
  match t.columns.get? (t.column_index cid) with
  | some c =>
    { t with columns := t.columns.set (t.column_index cid) { c with data := c.data.set row v } }
  | none => t

/-- `table::default_construct_at`. -/
def default_construct_at (t : table V) (row cid : Nat) : table V :=
  match t.columns.get? (t.column_index cid) with
  | some c =>
    { t with columns :=
        t.columns.set (t.column_index cid) { c with data := c.data.set row (some c.default) } }
  | none => t

/-- `table::copy_construct_at<T>`. -/
def copy_construct_at (t : table V) (row cid : Nat) (v : V) : table V :=
  t.set_cell row cid (some v)

/-- `table::add_row`: append the entity and default-construct one cell in
every column; returns the new row index. -/
def add_row (t : table V) (e : ent) : Nat × table V :=
  (t.entities.length,
    { t with entities := t.entities ++ [e], columns := t.columns.map column.push_defaults })

/-- `table::add_row_uninitialized`: append the entity and raw-extend every
column by one uninitialized cell. -/
def add_row_uninitialized (t : table V) (e : ent) : Nat × table V :=
  (t.entities.length,
    { t with entities := t.entities ++ [e], columns := t.columns.map column.push_uninit })

/-- `table::remove_row_swap`: move the last row over `row` (if distinct),
pop, destroy per column; returns the entity that was swapped in
(`INVALID_ENTITY`, i.e. `none`, when `row` was last). -/
def remove_row_swap (t : table V) (row : Nat) : Option ent × table V :=
  let last_index := t.entities.length - 1
  ((if row ≠ last_index then t.entities.get? last_index else none),
    { t with
      entities := (t.entities.set row (t.entities.getD last_index ⟨0, 0⟩)).dropLast,
      columns := t.columns.map (fun c => c.remove_swap row) })

/-- `table::remove_row_swap_nodestroy`: same shape with `memcpy` columns. -/
def remove_row_swap_nodestroy (t : table V) (row : Nat) : Option ent × table V :=
  let last_index := t.entities.length - 1
  ((if row ≠ last_index then t.entities.get? last_index else none),
    { t with
      entities := (t.entities.set row (t.entities.getD last_index ⟨0, 0⟩)).dropLast,
      columns := t.columns.map (fun c => c.remove_swap_nodestroy row) })

end table

/-- The loop body of `world::intersect_sorted_ids` (fecs.h lines 956-968):
two-pointer walk over two sorted id lists, visiting the common ids in
order.  Each `while (a != ae && b != be)` iteration advances at least one
pointer, so the sum of the list lengths bounds the iteration count; the
bound is passed as explicit fuel to keep the recursion structural. -/
def intersect_go : Nat → List Nat → List Nat → List Nat
  | 0, _, _ => []
  | _ + 1, [], _ => []
  | _ + 1, _ :: _, [] => []
  | fuel + 1, a :: as, b :: bs =>
    if a = b then a :: intersect_go fuel as bs
    else if a < b then intersect_go fuel as (b :: bs)
    else intersect_go fuel (a :: as) bs

def intersect_sorted_ids (a b : List Nat) : List Nat :=
  intersect_go (a.length + b.length) a b

/-- `fecs::world_storage` (fecs.h lines 668-746).  The `key_tables_` hash
map always holds exactly the `(key, id)` pairs of `tables_`, so lookup by
key is modelled by searching the table list. -/
structure world_storage (V : Type) where
  schema_version : Nat
  tables : List (table V)
deriving DecidableEq, Repr

namespace world_storage

variable {V : Type}

/-- Lookup helper for `find_table`: index of the first table with the given
key. -/
def find_table_aux (key : List Nat) : List (table V) → Option Nat
  | [] => none
  | t :: ts => if t.key = key then some 0 else (find_table_aux key ts).map (· + 1)

/-- `world_storage::find_table` via the `key_tables_` map, which always
holds exactly the `(key, id)` pairs of `tables_`. -/
def find_table (st : world_storage V) (key : List Nat) : Option Nat :=
  find_table_aux key st.tables

/-- `world_storage::get_table` (asserts `id < tables_.size()`). -/
def get_table (st : world_storage V) (tid : Nat) : table V :=
  st.tables.getD tid { id := 0, key := [], entities := [], columns := [] }

/-- Writing a table back (the C++ mutates `tables_[tid]` in place). -/
def set_table (st : world_storage V) (tid : Nat) (t : table V) : world_storage V :=
  { st with tables := st.tables.set tid t }

/-- `world_storage::create_table`: fresh id at the end of `tables_`, one
column per key entry built from the registry's `component_info`, and a
schema version bump.  `reg` is the component registry as a list of default
values indexed by component id. -/
def create_table (reg : List V) (st : world_storage V) (key : List Nat) [Inhabited V] :
    Nat × world_storage V :=
  let id := st.tables.length
  let t : table V :=
    { id := id, key := key, entities := [],
      columns := key.map (fun cid => { default := reg.getD cid default, data := [] }) }
  (id, { schema_version := st.schema_version + 1, tables := st.tables ++ [t] })

/-- `world_storage::get_or_create_table` (the `make_archetype_key`
constructor canonicalises the requested ids first). -/
def get_or_create_table (reg : List V) (st : world_storage V) (ids : List Nat) [Inhabited V] :
    Nat × world_storage V :=
  let key := canonicalise ids
  match st.find_table key with
  | some tid => (tid, st)
  | none => st.create_table reg key

end world_storage

/-- `fecs::world` (fecs.h lines 760-1065).  `registry` is the component
registry reduced to its default values (`component_id` = position);
`version` is the `version_` counter gating the render cache;
`storage.schema_version` is the separate `schema_version_` counter. -/
structure world (V : Type) where
  entities : entity_manager
  registry : List V
  storage : world_storage V
  empty_table : Nat
  locations : List location
  version : Nat
deriving DecidableEq, Repr

namespace world

variable {V : Type}

/-- The freshly constructed world: the `world_storage` constructor creates
the empty-archetype table (schema version 0 → 1) and `empty_table_` is its
id 0. -/
def init (V : Type) : world V :=
  { entities := entity_manager.init, registry := [],
    storage := { schema_version := 1,
                 tables := [{ id := 0, key := [], entities := [], columns := [] }] },
    empty_table := 0, locations := [], version := 0 }

/-- `world::register_component<T>`: append the component's info (its
default value) and return its id. -/
def register_component (w : world V) (v : V) : Nat × world V :=
  (w.registry.length, { w with registry := w.registry ++ [v] })

/-- `world::alive`. -/
def alive (w : world V) (e : ent) : Bool := w.entities.alive e

/-- `world::ensure_location_capacity`: resize `locations_` (default
locations are invalid) so that `index` is in bounds. -/
def ensure_location_capacity (locs : List location) (index : Nat) : List location :=
  if index ≥ locs.length then locs ++ List.replicate (index + 1 - locs.length) ⟨none, 0⟩
  else locs

/-- `world::create_entity`: allocate a handle, place it in the empty
archetype table, record its location, bump the version. -/
def create_entity (w : world V) : ent × world V :=
  let p := w.entities.create_entity
  let locs := ensure_location_capacity w.locations p.1.index
  let q := (w.storage.get_table w.empty_table).add_row p.1
  (p.1,
    { w with entities := p.2,
             storage := w.storage.set_table w.empty_table q.2,
             locations := locs.set p.1.index ⟨some w.empty_table, q.1⟩,
             version := w.version + 1 })

/-- `world::get_location`. -/
def get_location (w : world V) (e : ent) : location :=
  if ¬ w.entities.alive e then ⟨none, 0⟩
  else if w.locations.length ≤ e.index then ⟨none, 0⟩
  else w.locations.getD e.index default

/-- `world::remove_row_dense_and_fixup`: swap-remove the entity's row,
rewrite the swapped-in entity's location, invalidate the removed entity's
location, bump the version.  (The C++ asserts `loc.valid()`.) -/
def remove_row_dense_and_fixup (w : world V) (e : ent) : world V :=
  let loc := w.locations.getD e.index default
  match loc.tid with
  | none => w
  | some tid =>
    let p := (w.storage.get_table tid).remove_row_swap loc.row
    let locs1 :=
      match p.1 with
      | some se => w.locations.set se.index ⟨some tid, loc.row⟩
      | none => w.locations
    { w with storage := w.storage.set_table tid p.2,
             locations := locs1.set e.index ⟨none, 0⟩,
             version := w.version + 1 }

/-- `world::destroy_entity`: no-op on a stale handle; otherwise remove the
row (which bumps the version) and retire the slot, bumping the version
again. -/
def destroy_entity (w : world V) (e : ent) : world V :=
  if ¬ w.entities.alive e then w
  else
    let loc := w.locations.getD e.index default
    let w1 := if loc.valid then w.remove_row_dense_and_fixup e else w
    { w1 with entities := w1.entities.destroy_entity e, version := w1.version + 1 }

/-- `world::migrate_entity_to_table` (fecs.h lines 970-1024): append an
uninitialized row to the destination, move the shared components across,
destroy the rest, swap-remove the source row with location fixup, point the
entity at its new `(table, row)` and bump the version; returns the new row.
(The source and destination differ whenever the archetypes differ, so the
two table updates do not alias.) -/
def migrate_entity_to_table (w : world V) (e : ent) (new_tid : Nat) : Nat × world V :=
  let loc := w.locations.getD e.index default
  let old_tid := loc.tid.getD 0
  let old_row := loc.row
  let old_table := w.storage.get_table old_tid
  let q := (w.storage.get_table new_tid).add_row_uninitialized e
  let new_row := q.1
  let nt2 := (intersect_sorted_ids old_table.key q.2.key).foldl
    (fun nt cid => nt.set_cell new_row cid (old_table.cell old_row cid)) q.2
  let r := old_table.remove_row_swap_nodestroy old_row
  let locs1 :=
    match r.1 with
    | some se => w.locations.set se.index ⟨some old_tid, old_row⟩
    | none => w.locations
  (new_row,
    { w with storage := (w.storage.set_table new_tid nt2).set_table old_tid r.2,
             locations := locs1.set e.index ⟨some new_tid, new_row⟩,
             version := w.version + 1 })

/-- `world::add_component<T>(e, opt_value)` (fecs.h lines 931-954): no-op on
a dead handle or an already-present component; otherwise migrate to the
archetype extended by `cid` and construct the new component (copy from
`opt_value` or default), bumping the version (once in the migrate, once
here). -/
def add_component (w : world V) [Inhabited V] (e : ent) (cid : Nat) (opt_value : Option V) :
    world V :=
  if ¬ w.alive e then w
  else
    let loc := w.locations.getD e.index default
    let old_table := w.storage.get_table (loc.tid.getD 0)
    if old_table.has cid then w
    else
      let p := w.storage.get_or_create_table w.registry (old_table.key ++ [cid])
      let w1 : world V := { w with storage := p.2 }
      let q := w1.migrate_entity_to_table e p.1
      let nt := q.2.storage.get_table p.1
      let ntc :=
        match opt_value with
        | some v => nt.copy_construct_at q.1 cid v
        | none => nt.default_construct_at q.1 cid
      { q.2 with storage := q.2.storage.set_table p.1 ntc, version := q.2.version + 1 }

/-- `world::remove_component<T>(e)` (fecs.h lines 900-921): no-op on a dead
handle or an absent component; otherwise migrate to the archetype with
`cid` erased and bump the version. -/
def remove_component (w : world V) [Inhabited V] (e : ent) (cid : Nat) : world V :=
  if ¬ w.alive e then w
  else
    let loc := w.locations.getD e.index default
    let old_table := w.storage.get_table (loc.tid.getD 0)
    if ¬ old_table.has cid then w
    else
      let p := w.storage.get_or_create_table w.registry (old_table.key.erase cid)
      let w1 : world V := { w with storage := p.2 }
      let q := w1.migrate_entity_to_table e p.1
      { q.2 with version := q.2.version + 1 }

/-- `world::try_get_component<T>` (fecs.h lines 862-892). -/
def try_get_component (w : world V) (e : ent) (cid : Nat) : Option V :=
  if ¬ w.alive e then none
  else if w.locations.length ≤ e.index then none
  else
    let loc := w.locations.getD e.index default
    match loc.tid with
    | none => none
    | some tid =>
      let t := w.storage.get_table tid
      if t.has cid then t.cell loc.row cid else none

/-- `world::get_component<T>` (fecs.h lines 832-860): the asserting direct
read into the owning table's column (`none` only on contract violations the
C++ asserts against). -/
def get_component (w : world V) (e : ent) (cid : Nat) : Option V :=
  let loc := w.locations.getD e.index default
  (w.storage.get_table (loc.tid.getD 0)).cell loc.row cid

/-- `world::reserve<Cs...>`: find-or-create the archetype table (capacity
reservation does not change logical contents) and bump the version. -/
def reserve (w : world V) [Inhabited V] (ids : List Nat) : world V :=
  let p := w.storage.get_or_create_table w.registry ids
  { w with storage := p.2, version := w.version + 1 }

end world

/-- `contains_all_sorted` (fecs.h lines 1275-1287): sorted-merge subset
test, `true` iff every needle occurs in the haystack. -/
def contains_all_sorted : List Nat → List Nat → Bool
  | _, [] => true
  | [], _ :: _ => false
  | h :: hs, n :: ns =>
    if h = n then contains_all_sorted hs ns
    else if h < n then contains_all_sorted hs (n :: ns)
    else false

/-- One `render_cache::block`: the raw per-component array pointers are
modelled by the column contents, `n` is the row count. -/
structure rblock (V : Type) where
  arrays : List (List (Option V))
  n : Nat
deriving DecidableEq, Repr

/-- `fecs::render_cache<Cs...>` (fecs.h lines 1204-1295).  `cs` below stands
for the template component ids in declaration order; `cached_version_`
starts at the unreachable sentinel `u64::max`, modelled as `none`. -/
structure render_cache (V : Type) where
  initialized : Bool
  required : List Nat
  matching : List Nat
  blocks : List (rblock V)
  cached_version : Option Nat
deriving DecidableEq, Repr

namespace render_cache

variable {V : Type}

/-- The default-constructed cache. -/
def start : render_cache V :=
  { initialized := false, required := [], matching := [], blocks := [],
    cached_version := none }

/-- `render_cache::init`: sort and de-duplicate the required component
ids. -/
def init (cs : List Nat) (c : render_cache V) : render_cache V :=
  { c with required := canonicalise cs, initialized := true }

/-- `render_cache::build_matching`: every table whose archetype is a
superset of the required set. -/
def build_matching (w : world V) (required : List Nat) : List Nat :=
  (List.range w.storage.tables.length).filter (fun tid =>
    let t := w.storage.get_table tid
    decide (required.length ≤ t.key.length) && contains_all_sorted t.key required)

/-- `render_cache::rebuild_blocks`: one block per non-empty matching table,
holding the component arrays in template order plus the row count. -/
def rebuild_blocks (w : world V) (cs : List Nat) (matching : List Nat) : List (rblock V) :=
  (matching.filter (fun tid => (w.storage.get_table tid).size ≠ 0)).map (fun tid =>
    let t := w.storage.get_table tid
    { arrays := cs.map (fun cid =>
        match t.columns.get? (t.column_index cid) with
        | some c => c.data
        | none => []),
      n := t.size })

/-- `render_cache::refresh(store)` (fecs.h lines 1214-1225): initialize the
required set on first use, then compare the store's version with the
cache's; on a match return unchanged, otherwise re-scan and rebuild. -/
def refresh (cs : List Nat) (w : world V) (c : render_cache V) : render_cache V :=
  let c1 := if c.initialized then c else c.init cs
  if c1.cached_version = some w.version then c1
  else
    { c1 with matching := build_matching w c1.required,
              blocks := rebuild_blocks w cs (build_matching w c1.required),
              cached_version := some w.version }

end render_cache

/-! ## Reachable store states

Clients interact with the store through its public operations and only ever
hold handles that `create_entity` returned (stale handles included: C6 shows
they are absorbed).  `sys` pairs a store with the list of handles issued so
far, `Step` is one public operation, and `Reach` the states reachable from a
fresh store. -/

/-- A store together with the handles `create_entity` has returned. -/
structure sys (V : Type) where
  w : world V
  issued : List ent

/-- One public operation of the store.  The entity arguments of
`destroy_entity` / `add_component` / `remove_component` range over issued
handles (alive or stale). -/
inductive Step {V : Type} [Inhabited V] : sys V → sys V → Prop
  | register (s : sys V) (v : V) :
      Step s ⟨(s.w.register_component v).2, s.issued⟩
  | create (s : sys V) :
      Step s ⟨(s.w.create_entity).2, (s.w.create_entity).1 :: s.issued⟩
  | destroy (s : sys V) (e : ent) (he : e ∈ s.issued) :
      Step s ⟨s.w.destroy_entity e, s.issued⟩
  | add (s : sys V) (e : ent) (cid : Nat) (v : Option V) (he : e ∈ s.issued) :
      Step s ⟨s.w.add_component e cid v, s.issued⟩
  | remove (s : sys V) (e : ent) (cid : Nat) (he : e ∈ s.issued) :
      Step s ⟨s.w.remove_component e cid, s.issued⟩
  | reserve (s : sys V) (ids : List Nat) :
      Step s ⟨s.w.reserve ids, s.issued⟩

/-- The freshly constructed store with no handles issued. -/
def sys0 (V : Type) : sys V := ⟨world.init V, []⟩

/-- Reachability through public operations. -/
def Reach {V : Type} [Inhabited V] (s : sys V) : Prop :=
  Relation.ReflTransGen Step (sys0 V) s

/-- `Step` restricted to operations on which no 32-bit counter of the
entity manager wraps: a fresh slot is only allocated while `generations_`
is shorter than `2 ^ 32` (so the `static_cast<fecs_id>(generations_.size())`
cast is lossless), and a slot is only retired while its generation counter
is below `2 ^ 32 - 1` (so `++generations_[index]` does not wrap to `0`).
Along such traces the generation counters are exact, strictly monotone
per-slot counters; theorems `C2_generation_wrap_counterexample` and
`C5_generation_wrap_counterexample` show that the restriction is necessary:
unrestricted traces can wrap a slot's counter and break handle/location
coherence. -/
inductive StepW {V : Type} [Inhabited V] : sys V → sys V → Prop
  | register (s : sys V) (v : V) :
      StepW s ⟨(s.w.register_component v).2, s.issued⟩
  | create (s : sys V) (hcap : s.w.entities.generations.length < 2 ^ 32) :
      StepW s ⟨(s.w.create_entity).2, (s.w.create_entity).1 :: s.issued⟩
  | destroy (s : sys V) (e : ent) (he : e ∈ s.issued)
      (hnw : s.w.entities.generations.getD e.index 0 + 1 < 2 ^ 32) :
      StepW s ⟨s.w.destroy_entity e, s.issued⟩
  | add (s : sys V) (e : ent) (cid : Nat) (v : Option V) (he : e ∈ s.issued) :
      StepW s ⟨s.w.add_component e cid v, s.issued⟩
  | remove (s : sys V) (e : ent) (cid : Nat) (he : e ∈ s.issued) :
      StepW s ⟨s.w.remove_component e cid, s.issued⟩
  | reserve (s : sys V) (ids : List Nat) :
      StepW s ⟨s.w.reserve ids, s.issued⟩

/-- Reachability through public operations none of which wraps a 32-bit
counter of the entity manager. -/
def ReachW {V : Type} [Inhabited V] (s : sys V) : Prop :=
  Relation.ReflTransGen StepW (sys0 V) s

/-- Every wrap-free operation is an operation. -/
theorem StepW_Step {V : Type} [Inhabited V] {a b : sys V} (h : StepW a b) : Step a b := by
  cases h with
  | register v => exact Step.register _ v
  | create hcap => exact Step.create _
  | destroy e he hnw => exact Step.destroy _ e he
  | add e cid v he => exact Step.add _ e cid v he
  | remove e cid he => exact Step.remove _ e cid he
  | reserve ids => exact Step.reserve _ ids

/-- Wrap-free reachable states are reachable. -/
theorem ReachW_Reach {V : Type} [Inhabited V] {s : sys V} (h : ReachW s) : Reach s :=
  Relation.ReflTransGen.mono (fun _ _ => StepW_Step) h

/-! ### List access helpers -/

theorem getD_set_self {α : Type} (l : List α) (i : Nat) (a d : α) (h : i < l.length) :
    (l.set i a).getD i d = a := by
  rw [List.getD_eq_getElem?_getD, List.getElem?_set_self h]
  rfl

theorem getD_set_ne {α : Type} (l : List α) {i j : Nat} (a d : α) (h : i ≠ j) :
    (l.set i a).getD j d = l.getD j d := by
  rw [List.getD_eq_getElem?_getD, List.getElem?_set_ne h, ← List.getD_eq_getElem?_getD]

theorem getD_dropLast {α : Type} (l : List α) (i : Nat) (d : α) (h : i < l.length - 1) :
    l.dropLast.getD i d = l.getD i d := by
  rw [List.getD_eq_getElem?_getD, List.getElem?_dropLast, if_pos h,
    ← List.getD_eq_getElem?_getD]

theorem getD_concat_self {α : Type} (l : List α) (a d : α) :
    (l ++ [a]).getD l.length d = a := by
  rw [List.getD_eq_getElem?_getD, List.getElem?_concat_length]
  rfl

theorem getD_mem_of_lt {α : Type} (l : List α) (i : Nat) (d : α) (h : i < l.length) :
    l.getD i d ∈ l := by
  rw [List.getD_eq_getElem?_getD, List.getElem?_eq_getElem h]
  exact List.getElem_mem h

/-- `ensure_location_capacity` never changes what a defaulted read sees:
the appended padding is exactly the default location. -/
theorem ensure_getD (locs : List location) (i j : Nat) :
    (world.ensure_location_capacity locs i).getD j default = locs.getD j default := by
  unfold world.ensure_location_capacity
  split_ifs with h
  · by_cases hj : j < locs.length
    · exact List.getD_append _ _ _ _ hj
    · rw [List.getD_eq_getElem?_getD, List.getElem?_append,
        if_neg (by omega), List.getElem?_replicate]
      rw [List.getD_eq_default _ _ (Nat.le_of_not_lt hj)]
      split_ifs <;> rfl
  · rfl

theorem ensure_length (locs : List location) (i : Nat) :
    (world.ensure_location_capacity locs i).length = max locs.length (i + 1) := by
  unfold world.ensure_location_capacity
  split_ifs with h <;> simp [List.length_replicate] <;> omega

/-! ### Well-formedness invariant -/

/-- Shape invariant of one table: sorted duplicate-free key, one column per
key entry, and — the C4 invariant — every column as long as the entity
array. -/
def table_wf {V : Type} (t : table V) : Prop :=
  t.key.Sorted (· < ·) ∧ t.columns.length = t.key.length ∧
    ∀ c ∈ t.columns, c.data.length = t.entities.length

/-- The handle held in row `r` of table `tid`. -/
def row_ent {V : Type} (s : sys V) (tid r : Nat) : ent :=
  (s.w.storage.get_table tid).entities.getD r ⟨0, 0⟩

/-- The entity stored at `(tid, r)` is an alive slot whose recorded location
points back at exactly this row. -/
def row_ok {V : Type} (s : sys V) (tid r : Nat) : Prop :=
  (row_ent s tid r).index < s.w.entities.generations.length ∧
  s.w.entities.generations.getD (row_ent s tid r).index 0 = (row_ent s tid r).generation ∧
  (row_ent s tid r).index ∉ s.w.entities.fragment ∧
  s.w.locations.getD (row_ent s tid r).index default = ⟨some tid, r⟩

/-- An in-use slot's recorded location names a real row holding exactly the
slot's current handle. -/
def slot_ok {V : Type} (s : sys V) (i : Nat) : Prop :=
  ∃ tid r, s.w.locations.getD i default = ⟨some tid, r⟩ ∧
    tid < s.w.storage.tables.length ∧
    r < (s.w.storage.get_table tid).entities.length ∧
    (s.w.storage.get_table tid).entities.getD r ⟨0, 0⟩ =
      ⟨i, s.w.entities.generations.getD i 0⟩

/-- The store invariant maintained by every public operation. -/
structure Inv {V : Type} (s : sys V) : Prop where
  loc_len : s.w.locations.length = s.w.entities.generations.length
  frag_nodup : s.w.entities.fragment.Nodup
  frag_lt : ∀ i ∈ s.w.entities.fragment, i < s.w.entities.generations.length
  issued_ok : ∀ e ∈ s.issued, e.index < s.w.entities.generations.length ∧
    e.generation ≤ s.w.entities.generations.getD e.index 0 ∧
    (e.generation = s.w.entities.generations.getD e.index 0 →
      e.index ∉ s.w.entities.fragment)
  empty_tid : s.w.empty_table = 0
  tables_ne : 0 < s.w.storage.tables.length
  twf : ∀ t ∈ s.w.storage.tables, table_wf t
  row_back : ∀ tid r, r < (s.w.storage.get_table tid).entities.length → row_ok s tid r
  use_loc : ∀ i, i < s.w.entities.generations.length →
    i ∉ s.w.entities.fragment → slot_ok s i
  free_loc : ∀ i ∈ s.w.entities.fragment, (s.w.locations.getD i default).tid = none

/-! ### Archetype key lemmas -/

theorem canonicalise_sorted (l : List Nat) : (canonicalise l).Sorted (· < ·) := by
  have hle : (canonicalise l).Sorted (· ≤ ·) :=
    List.Pairwise.sublist (List.dedup_sublist _) (List.sorted_insertionSort (· ≤ ·) l)
  have hnd : (canonicalise l).Nodup := List.nodup_dedup _
  exact (hle.and hnd).imp (fun h => lt_of_le_of_ne h.1 h.2)

theorem canonicalise_mem (l : List Nat) (a : Nat) : a ∈ canonicalise l ↔ a ∈ l := by
  rw [canonicalise, List.mem_dedup, List.mem_insertionSort]

theorem sorted_lt_nodup {l : List Nat} (h : l.Sorted (· < ·)) : l.Nodup :=
  h.imp (fun hab => ne_of_lt hab)

theorem canonicalise_eq_self {l : List Nat} (h : l.Sorted (· < ·)) : canonicalise l = l := by
  rw [canonicalise, List.Sorted.insertionSort_eq (h.imp (fun hab => le_of_lt hab)),
    List.dedup_eq_self.mpr (sorted_lt_nodup h)]

theorem intersect_go_succ (fuel : Nat) (a : Nat) (as : List Nat) (b : Nat)
    (bs : List Nat) :
    intersect_go (fuel + 1) (a :: as) (b :: bs) =
      if a = b then a :: intersect_go fuel as bs
      else if a < b then intersect_go fuel as (b :: bs)
      else intersect_go fuel (a :: as) bs := rfl

theorem intersect_go_sublist :
    ∀ (fuel : Nat) (a b : List Nat), (intersect_go fuel a b).Sublist a := by
  intro fuel
  induction fuel with
  | zero =>
    intro a b
    exact List.nil_sublist a
  | succ n ih =>
    intro a b
    cases a with
    | nil => exact List.nil_sublist _
    | cons a as =>
      cases b with
      | nil => exact List.nil_sublist _
      | cons b bs =>
        rw [intersect_go_succ]
        by_cases h1 : a = b
        · rw [if_pos h1]
          exact (ih as bs).cons₂ a
        · rw [if_neg h1]
          by_cases h2 : a < b
          · rw [if_pos h2]
            exact (ih as (b :: bs)).cons a
          · rw [if_neg h2]
            exact ih (a :: as) bs

theorem intersect_sorted_ids_sublist :
    ∀ (a b : List Nat), (intersect_sorted_ids a b).Sublist a := by
  intro a b
  exact intersect_go_sublist _ a b

theorem intersect_go_mem :
    ∀ (fuel : Nat) (a b : List Nat), a.length + b.length ≤ fuel →
      a.Sorted (· < ·) → b.Sorted (· < ·) →
      ∀ x, x ∈ intersect_go fuel a b ↔ x ∈ a ∧ x ∈ b := by
  intro fuel
  induction fuel with
  | zero =>
    intro a b hf ha hb x
    cases a with
    | nil =>
      cases b with
      | nil => simp [intersect_go]
      | cons b bs => simp at hf
    | cons a as => simp at hf
  | succ n ih =>
    intro a b hf ha hb x
    cases a with
    | nil => simp [intersect_go]
    | cons a as =>
      cases b with
      | nil => simp [intersect_go]
      | cons b bs =>
        have hf' : as.length + bs.length + 2 ≤ n + 1 := by
          simpa [List.length_cons, Nat.add_assoc, Nat.add_comm, Nat.add_left_comm]
            using hf
        rw [intersect_go_succ]
        by_cases h1 : a = b
        · subst h1
          rw [if_pos rfl]
          have hiff := ih as bs (by omega) ha.of_cons hb.of_cons x
          simp only [List.mem_cons, hiff]
          tauto
        · rw [if_neg h1]
          by_cases h2 : a < b
          · rw [if_pos h2]
            rw [ih as (b :: bs) (by simp only [List.length_cons]; omega) ha.of_cons hb x]
            have hnab : a ∉ b :: bs := by
              intro hmem
              rcases List.mem_cons.mp hmem with h | h
              · omega
              · exact absurd (List.rel_of_pairwise_cons hb h) (by omega)
            constructor
            · rintro ⟨hx1, hx2⟩
              exact ⟨List.mem_cons_of_mem a hx1, hx2⟩
            · rintro ⟨hx1, hx2⟩
              rcases List.mem_cons.mp hx1 with h | h
              · exact absurd (h ▸ hx2) hnab
              · exact ⟨h, hx2⟩
          · rw [if_neg h2]
            rw [ih (a :: as) bs (by simp only [List.length_cons]; omega) ha hb.of_cons x]
            have hb_notin : b ∉ a :: as := by
              intro hmem
              rcases List.mem_cons.mp hmem with h | h
              · omega
              · exact absurd (List.rel_of_pairwise_cons ha h) (by omega)
            constructor
            · rintro ⟨hx1, hx2⟩
              exact ⟨hx1, List.mem_cons_of_mem b hx2⟩
            · rintro ⟨hx1, hx2⟩
              rcases List.mem_cons.mp hx2 with h | h
              · exact absurd (h ▸ hx1) hb_notin
              · exact ⟨hx1, h⟩

theorem intersect_sorted_ids_mem {a b : List Nat}
    (ha : a.Sorted (· < ·)) (hb : b.Sorted (· < ·)) (x : Nat) :
    x ∈ intersect_sorted_ids a b ↔ x ∈ a ∧ x ∈ b :=
  intersect_go_mem (a.length + b.length) a b le_rfl ha hb x

/-! ### Storage lookup lemmas -/

theorem find_table_aux_spec {V : Type} (key : List Nat) :
    ∀ (ts : List (table V)) (i : Nat), world_storage.find_table_aux key ts = some i →
      i < ts.length ∧ (ts.getD i { id := 0, key := [], entities := [], columns := [] }).key = key := by
  intro ts
  induction ts with
  | nil => intro i h; simp [world_storage.find_table_aux] at h
  | cons t ts ih =>
    intro i h
    rw [world_storage.find_table_aux] at h
    split_ifs at h with hk
    · cases h
      exact ⟨Nat.succ_pos _, hk⟩
    · rcases Option.map_eq_some'.mp h with ⟨j, hj, rfl⟩
      rcases ih j hj with ⟨hlt, hkey⟩
      exact ⟨by simpa using Nat.succ_lt_succ hlt, by simpa using hkey⟩

theorem find_table_spec {V : Type} (st : world_storage V) (key : List Nat) (i : Nat)
    (h : st.find_table key = some i) :
    i < st.tables.length ∧ (st.get_table i).key = key :=
  find_table_aux_spec key st.tables i h

/-- The combined contract of `get_or_create_table`: the table count never
shrinks, the returned id names a table carrying the canonicalised key,
existing tables are untouched, any table at a fresh id has no rows, and
every table of the result is either an old one or the freshly created
empty one. -/
theorem get_or_create_table_spec {V : Type} [Inhabited V] (reg : List V)
    (st : world_storage V) (ids : List Nat) :
    st.tables.length ≤ (st.get_or_create_table reg ids).2.tables.length ∧
    (st.get_or_create_table reg ids).1 < (st.get_or_create_table reg ids).2.tables.length ∧
    ((st.get_or_create_table reg ids).2.get_table
        (st.get_or_create_table reg ids).1).key = canonicalise ids ∧
    (∀ j, j < st.tables.length →
      (st.get_or_create_table reg ids).2.get_table j = st.get_table j) ∧
    (∀ j, st.tables.length ≤ j →
      ((st.get_or_create_table reg ids).2.get_table j).entities = []) ∧
    (∀ t ∈ (st.get_or_create_table reg ids).2.tables, t ∈ st.tables ∨
      (t.key = canonicalise ids ∧ t.entities = [] ∧
        t.columns = (canonicalise ids).map
          (fun cid => { default := reg.getD cid default, data := [] }))) := by
  cases hf : st.find_table (canonicalise ids) with
  | some tid =>
    have heq : st.get_or_create_table reg ids = (tid, st) := by
      simp only [world_storage.get_or_create_table, hf]
    rw [heq]
    rcases find_table_spec st _ tid hf with ⟨hlt, hkey⟩
    refine ⟨le_refl _, hlt, hkey, fun j _ => rfl, ?_, fun t ht => Or.inl ht⟩
    intro j hj
    unfold world_storage.get_table
    rw [List.getD_eq_default _ _ hj]
  | none =>
    have heq : st.get_or_create_table reg ids =
        st.create_table reg (canonicalise ids) := by
      simp only [world_storage.get_or_create_table, hf]
    rw [heq]
    unfold world_storage.create_table world_storage.get_table
    simp only [List.length_append, List.length_cons, List.length_nil]
    refine ⟨by omega, by omega, ?_, ?_, ?_, ?_⟩
    · rw [getD_concat_self]
    · intro j hj
      rw [List.getD_append _ _ _ _ hj]
    · intro j hj
      rcases Nat.eq_or_lt_of_le hj with h | h
      · rw [← h, getD_concat_self]
      · rw [List.getD_eq_default _ _ (by simpa using h)]
    · intro t ht
      rcases List.mem_append.mp ht with h | h
      · exact Or.inl h
      · rcases List.mem_singleton.mp h with rfl
        exact Or.inr ⟨rfl, rfl, rfl⟩

/-! ### Table operation lemmas -/

theorem get_table_set_self {V : Type} (st : world_storage V) (tid : Nat) (t : table V)
    (h : tid < st.tables.length) : (st.set_table tid t).get_table tid = t := by
  unfold world_storage.set_table world_storage.get_table
  exact getD_set_self _ _ _ _ (by simpa using h)

theorem get_table_set_ne {V : Type} (st : world_storage V) {tid j : Nat} (t : table V)
    (h : tid ≠ j) : (st.set_table tid t).get_table j = st.get_table j := by
  unfold world_storage.set_table world_storage.get_table
  exact getD_set_ne _ _ _ h

theorem set_table_tables_length {V : Type} (st : world_storage V) (tid : Nat) (t : table V) :
    (st.set_table tid t).tables.length = st.tables.length := by
  simp [world_storage.set_table]

theorem mem_set_table {V : Type} (st : world_storage V) (tid : Nat) (t t' : table V)
    (h : t' ∈ (st.set_table tid t).tables) : t' ∈ st.tables ∨ t' = t :=
  List.mem_or_eq_of_mem_set h

theorem get_table_mem {V : Type} (st : world_storage V) (tid : Nat)
    (h : tid < st.tables.length) : st.get_table tid ∈ st.tables := by
  unfold world_storage.get_table
  exact getD_mem_of_lt _ _ _ h

theorem table_wf_add_row {V : Type} {t : table V} (e : ent) (h : table_wf t) :
    table_wf (t.add_row e).2 := by
  obtain ⟨hs, hc, hl⟩ := h
  refine ⟨hs, by simpa [table.add_row] using hc, ?_⟩
  intro c hcmem
  simp only [table.add_row] at hcmem ⊢
  rcases List.mem_map.mp hcmem with ⟨c0, hc0, rfl⟩
  simp [column.push_defaults, hl c0 hc0]

theorem table_wf_add_row_uninitialized {V : Type} {t : table V} (e : ent) (h : table_wf t) :
    table_wf (t.add_row_uninitialized e).2 := by
  obtain ⟨hs, hc, hl⟩ := h
  refine ⟨hs, by simpa [table.add_row_uninitialized] using hc, ?_⟩
  intro c hcmem
  simp only [table.add_row_uninitialized] at hcmem ⊢
  rcases List.mem_map.mp hcmem with ⟨c0, hc0, rfl⟩
  simp [column.push_uninit, hl c0 hc0]

theorem table_wf_remove_row_swap {V : Type} {t : table V} (row : Nat) (h : table_wf t) :
    table_wf (t.remove_row_swap row).2 := by
  obtain ⟨hs, hc, hl⟩ := h
  refine ⟨hs, by simpa [table.remove_row_swap] using hc, ?_⟩
  intro c hcmem
  simp only [table.remove_row_swap] at hcmem ⊢
  rcases List.mem_map.mp hcmem with ⟨c0, hc0, rfl⟩
  simp [column.remove_swap, hl c0 hc0]

theorem table_wf_remove_row_swap_nodestroy {V : Type} {t : table V} (row : Nat)
    (h : table_wf t) : table_wf (t.remove_row_swap_nodestroy row).2 := by
  obtain ⟨hs, hc, hl⟩ := h
  refine ⟨hs, by simpa [table.remove_row_swap_nodestroy] using hc, ?_⟩
  intro c hcmem
  simp only [table.remove_row_swap_nodestroy] at hcmem ⊢
  rcases List.mem_map.mp hcmem with ⟨c0, hc0, rfl⟩
  simp [column.remove_swap_nodestroy, hl c0 hc0]

theorem table_wf_set_cell {V : Type} {t : table V} (row cid : Nat) (v : Option V)
    (h : table_wf t) : table_wf (t.set_cell row cid v) := by
  obtain ⟨hs, hc, hl⟩ := h
  unfold table.set_cell
  cases hg : t.columns.get? (t.column_index cid) with
  | none => exact ⟨hs, hc, hl⟩
  | some c0 =>
    refine ⟨hs, by simpa using hc, ?_⟩
    intro c hcmem
    simp only at hcmem
    rcases List.mem_or_eq_of_mem_set hcmem with h' | h'
    · exact hl c h'
    · subst h'
      simpa using hl c0 (List.get?_mem hg)

theorem table_wf_default_construct_at {V : Type} {t : table V} (row cid : Nat)
    (h : table_wf t) : table_wf (t.default_construct_at row cid) := by
  obtain ⟨hs, hc, hl⟩ := h
  unfold table.default_construct_at
  cases hg : t.columns.get? (t.column_index cid) with
  | none => exact ⟨hs, hc, hl⟩
  | some c0 =>
    refine ⟨hs, by simpa using hc, ?_⟩
    intro c hcmem
    simp only at hcmem
    rcases List.mem_or_eq_of_mem_set hcmem with h' | h'
    · exact hl c h'
    · subst h'
      simpa using hl c0 (List.get?_mem hg)

theorem table_wf_copy_construct_at {V : Type} {t : table V} (row cid : Nat) (v : V)
    (h : table_wf t) : table_wf (t.copy_construct_at row cid v) :=
  table_wf_set_cell row cid (some v) h

theorem set_cell_key {V : Type} (t : table V) (row cid : Nat) (v : Option V) :
    (t.set_cell row cid v).key = t.key := by
  unfold table.set_cell
  cases t.columns.get? (t.column_index cid) <;> rfl

theorem set_cell_entities {V : Type} (t : table V) (row cid : Nat) (v : Option V) :
    (t.set_cell row cid v).entities = t.entities := by
  unfold table.set_cell
  cases t.columns.get? (t.column_index cid) <;> rfl

theorem default_construct_at_key {V : Type} (t : table V) (row cid : Nat) :
    (t.default_construct_at row cid).key = t.key := by
  unfold table.default_construct_at
  cases t.columns.get? (t.column_index cid) <;> rfl

theorem default_construct_at_entities {V : Type} (t : table V) (row cid : Nat) :
    (t.default_construct_at row cid).entities = t.entities := by
  unfold table.default_construct_at
  cases t.columns.get? (t.column_index cid) <;> rfl

theorem foldl_set_cell_wf {V : Type} (f : Nat → Option V) (row : Nat) :
    ∀ (l : List Nat) (t : table V), table_wf t →
      table_wf (l.foldl (fun t c => t.set_cell row c (f c)) t) := by
  intro l
  induction l with
  | nil => intro t h; exact h
  | cons c cs ih =>
    intro t h
    exact ih _ (table_wf_set_cell row c (f c) h)

theorem foldl_set_cell_key {V : Type} (f : Nat → Option V) (row : Nat) :
    ∀ (l : List Nat) (t : table V),
      (l.foldl (fun t c => t.set_cell row c (f c)) t).key = t.key := by
  intro l
  induction l with
  | nil => intro t; rfl
  | cons c cs ih =>
    intro t
    rw [List.foldl_cons, ih, set_cell_key]

theorem foldl_set_cell_entities {V : Type} (f : Nat → Option V) (row : Nat) :
    ∀ (l : List Nat) (t : table V),
      (l.foldl (fun t c => t.set_cell row c (f c)) t).entities = t.entities := by
  intro l
  induction l with
  | nil => intro t; rfl
  | cons c cs ih =>
    intro t
    rw [List.foldl_cons, ih, set_cell_entities]

theorem set_cell_columns_length {V : Type} (t : table V) (row cid : Nat) (v : Option V) :
    (t.set_cell row cid v).columns.length = t.columns.length := by
  unfold table.set_cell
  cases t.columns.get? (t.column_index cid) with
  | none => rfl
  | some c =>
    dsimp only
    exact List.length_set _ _ _

/-- A cell that reads back a value names a component of the archetype. -/
theorem cell_some_mem_key {V : Type} {t : table V} {row cid : Nat} {a : V}
    (hlen : t.columns.length = t.key.length) (h : t.cell row cid = some a) :
    cid ∈ t.key := by
  unfold table.cell at h
  cases hg : t.columns.get? (t.column_index cid) with
  | none =>
    rw [hg] at h
    exact Option.noConfusion h
  | some c =>
    have hlt : t.column_index cid < t.columns.length := by
      by_contra hcon
      rw [List.get?_eq_none.mpr (by omega)] at hg
      exact Option.noConfusion hg
    rw [hlen] at hlt
    exact List.indexOf_lt_length.mp hlt

/-- Writing one cell leaves every other component's column untouched. -/
theorem cell_set_cell_ne {V : Type} {t : table V}
    (hlen : t.columns.length = t.key.length) (row r' cid cid' : Nat) (v : Option V)
    (hne : cid' ≠ cid) :
    (t.set_cell row cid v).cell r' cid' = t.cell r' cid' := by
  unfold table.set_cell
  cases hg : t.columns.get? (t.column_index cid) with
  | none => rfl
  | some c0 =>
    have hltc : t.column_index cid < t.columns.length := by
      by_contra hcon
      rw [List.get?_eq_none.mpr (by omega)] at hg
      exact Option.noConfusion hg
    have hmemc : cid ∈ t.key := by
      rw [hlen] at hltc
      exact List.indexOf_lt_length.mp hltc
    have hij : t.column_index cid ≠ t.column_index cid' := by
      intro hh
      by_cases hmem' : cid' ∈ t.key
      · exact hne ((List.indexOf_inj hmemc hmem').mp hh).symm
      · have : t.column_index cid' = t.key.length := List.indexOf_eq_length.mpr hmem'
        rw [this] at hh
        rw [hlen] at hltc
        omega
    unfold table.column_index at hij
    unfold table.cell table.column_index
    dsimp only
    rw [List.get?_eq_getElem?, List.get?_eq_getElem?, List.getElem?_set_ne hij]

/-- Writing one cell then reading it back at the same row yields the
written value. -/
theorem cell_set_cell_self {V : Type} {t : table V} (row cid : Nat) (v : Option V)
    (hwf : table_wf t) (hmem : cid ∈ t.key) (hrow : row < t.entities.length) :
    (t.set_cell row cid v).cell row cid = v := by
  obtain ⟨hs, hc, hl⟩ := hwf
  have hci : t.column_index cid < t.columns.length := by
    rw [hc]
    exact List.indexOf_lt_length.mpr hmem
  obtain ⟨c0, hg⟩ : ∃ c0, t.columns.get? (t.column_index cid) = some c0 := by
    cases hgg : t.columns.get? (t.column_index cid) with
    | none =>
      rw [List.get?_eq_none] at hgg
      omega
    | some c => exact ⟨c, rfl⟩
  unfold table.set_cell
  rw [hg]
  unfold table.column_index at hci
  unfold table.cell table.column_index
  dsimp only
  rw [List.get?_eq_getElem?, List.getElem?_set_self hci]
  unfold column.cell
  dsimp only
  have hrowlen : row < c0.data.length := by
    rw [hl c0 (List.get?_mem hg)]
    exact hrow
  exact getD_set_self _ _ _ _ hrowlen

/-- `default_construct_at` at one component leaves every other component's
column untouched. -/
theorem cell_default_construct_at_ne {V : Type} {t : table V}
    (hlen : t.columns.length = t.key.length) (row r' cid cid' : Nat)
    (hne : cid' ≠ cid) :
    (t.default_construct_at row cid).cell r' cid' = t.cell r' cid' := by
  unfold table.default_construct_at
  cases hg : t.columns.get? (t.column_index cid) with
  | none => rfl
  | some c0 =>
    have hltc : t.column_index cid < t.columns.length := by
      by_contra hcon
      rw [List.get?_eq_none.mpr (by omega)] at hg
      exact Option.noConfusion hg
    have hmemc : cid ∈ t.key := by
      rw [hlen] at hltc
      exact List.indexOf_lt_length.mp hltc
    have hij : t.column_index cid ≠ t.column_index cid' := by
      intro hh
      by_cases hmem' : cid' ∈ t.key
      · exact hne ((List.indexOf_inj hmemc hmem').mp hh).symm
      · have : t.column_index cid' = t.key.length := List.indexOf_eq_length.mpr hmem'
        rw [this] at hh
        rw [hlen] at hltc
        omega
    unfold table.column_index at hij
    unfold table.cell table.column_index
    dsimp only
    rw [List.get?_eq_getElem?, List.get?_eq_getElem?, List.getElem?_set_ne hij]

/-- The migration fold never touches a component outside its id list. -/
theorem foldl_set_cell_cell_not_mem {V : Type} (f : Nat → Option V) (row r' cid : Nat) :
    ∀ (l : List Nat) (t : table V), t.columns.length = t.key.length → cid ∉ l →
      (l.foldl (fun t c => t.set_cell row c (f c)) t).cell r' cid = t.cell r' cid := by
  intro l
  induction l with
  | nil =>
    intro t _ _
    rfl
  | cons c cs ih =>
    intro t hlen hni
    rw [List.foldl_cons]
    have hlen1 : (t.set_cell row c (f c)).columns.length =
        (t.set_cell row c (f c)).key.length := by
      rw [set_cell_columns_length, set_cell_key]
      exact hlen
    rw [ih _ hlen1 (fun hh => hni (List.mem_cons_of_mem _ hh)),
      cell_set_cell_ne hlen row r' c cid (f c)
        (fun hh => hni (hh ▸ List.mem_cons_self c cs))]

/-- The migration fold writes exactly `f cid` into every component of its
(duplicate-free) id list at the target row. -/
theorem foldl_set_cell_cell_mem {V : Type} (f : Nat → Option V) (row : Nat) :
    ∀ (l : List Nat) (t : table V), table_wf t → l.Nodup →
      (∀ c ∈ l, c ∈ t.key) → row < t.entities.length →
      ∀ cid ∈ l, (l.foldl (fun t c => t.set_cell row c (f c)) t).cell row cid = f cid := by
  intro l
  induction l with
  | nil =>
    intro t _ _ _ _ cid hc
    exact absurd hc (List.not_mem_nil cid)
  | cons c cs ih =>
    intro t hwf hnd hsub hrow cid hcid
    rw [List.foldl_cons]
    rcases List.mem_cons.mp hcid with rfl | hcs
    · have hset : (t.set_cell row cid (f cid)).cell row cid = f cid :=
        cell_set_cell_self row cid (f cid) hwf (hsub cid (List.mem_cons_self _ _)) hrow
      have hlen1 : (t.set_cell row cid (f cid)).columns.length =
          (t.set_cell row cid (f cid)).key.length := by
        rw [set_cell_columns_length, set_cell_key]
        exact hwf.2.1
      rw [foldl_set_cell_cell_not_mem f row row cid cs _ hlen1
        (List.nodup_cons.mp hnd).1, hset]
    · exact ih (t.set_cell row c (f c)) (table_wf_set_cell _ _ _ hwf)
        (List.nodup_cons.mp hnd).2
        (fun c' hc' => by rw [set_cell_key]; exact hsub c' (List.mem_cons_of_mem _ hc'))
        (by rw [set_cell_entities]; exact hrow) cid hcs

/-! ### Invariant preservation, operation by operation -/

theorem inv_sys0 (V : Type) : Inv (sys0 V) := by
  constructor
  · rfl
  · exact List.nodup_nil
  · intro i h
    simp [sys0, world.init, entity_manager.init] at h
  · intro e h
    simp [sys0] at h
  · rfl
  · simp [sys0, world.init]
  · intro t ht
    simp only [sys0, world.init] at ht
    rcases List.mem_singleton.mp ht with rfl
    exact ⟨List.sorted_nil, rfl, by intro c hc; simp at hc⟩
  · intro tid r hr
    have hemp : ((sys0 V).w.storage.get_table tid).entities = [] := by
      cases tid <;> simp [sys0, world.init, world_storage.get_table]
    rw [hemp] at hr
    simp at hr
  · intro i h
    simp [sys0, world.init, entity_manager.init] at h
  · intro i h
    simp [sys0, world.init, entity_manager.init] at h

theorem inv_register {V : Type} {s : sys V} (v : V) (h : Inv s) :
    Inv ⟨((s.w.register_component v).2 : world V), s.issued⟩ := by
  obtain ⟨h1, h2, h3, h4, h5, h6, h7, h8, h9, h10⟩ := h
  exact ⟨h1, h2, h3, h4, h5, h6, h7, h8, h9, h10⟩

theorem fresh_table_wf {V : Type} (reg : List V) [Inhabited V] (ids : List Nat) (n : Nat) :
    table_wf (V := V)
      { id := n, key := canonicalise ids, entities := [],
        columns := (canonicalise ids).map
          (fun cid => { default := reg.getD cid default, data := [] }) } := by
  refine ⟨canonicalise_sorted ids, by simp, ?_⟩
  intro c hc
  rcases List.mem_map.mp hc with ⟨cid, _, rfl⟩
  rfl

theorem inv_storage_goc {V : Type} [Inhabited V] {s : sys V} (ids : List Nat) (ver : Nat)
    (h : Inv s) :
    Inv ⟨{ s.w with
      storage := (s.w.storage.get_or_create_table s.w.registry ids).2,
      version := ver }, s.issued⟩ := by
  obtain ⟨h1, h2, h3, h4, h5, h6, h7, h8, h9, h10⟩ := h
  obtain ⟨gA, gB, gC, gD, gE, gF⟩ :=
    get_or_create_table_spec s.w.registry s.w.storage ids
  constructor
  · exact h1
  · exact h2
  · exact h3
  · exact h4
  · exact h5
  · exact lt_of_lt_of_le h6 gA
  · intro t ht
    rcases gF t ht with hmem | ⟨hk, he, hc⟩
    · exact h7 t hmem
    · obtain ⟨tid, tkey, tent, tcols⟩ := t
      simp only at hk he hc
      subst hk; subst he; subst hc
      exact fresh_table_wf s.w.registry ids tid
  · intro tid r hr
    by_cases htid : tid < s.w.storage.tables.length
    · have heq := gD tid htid
      unfold row_ok row_ent
      simp only [heq]
      rw [show ((⟨{ s.w with
          storage := (s.w.storage.get_or_create_table s.w.registry ids).2,
          version := ver }, s.issued⟩ : sys V)).w.storage.get_table tid =
        (s.w.storage.get_or_create_table s.w.registry ids).2.get_table tid from rfl] at hr
      rw [heq] at hr
      exact h8 tid r hr
    · have hemp := gE tid (Nat.le_of_not_lt htid)
      rw [show ((⟨{ s.w with
          storage := (s.w.storage.get_or_create_table s.w.registry ids).2,
          version := ver }, s.issued⟩ : sys V)).w.storage.get_table tid =
        (s.w.storage.get_or_create_table s.w.registry ids).2.get_table tid from rfl,
        hemp] at hr
      simp at hr
  · intro i hi hni
    rcases h9 i hi hni with ⟨tid, r, hloc, hlt, hr, hent⟩
    refine ⟨tid, r, hloc, lt_of_lt_of_le hlt gA, ?_, ?_⟩
    · rw [show ((⟨{ s.w with
          storage := (s.w.storage.get_or_create_table s.w.registry ids).2,
          version := ver }, s.issued⟩ : sys V)).w.storage.get_table tid =
        (s.w.storage.get_or_create_table s.w.registry ids).2.get_table tid from rfl,
        gD tid hlt]
      exact hr
    · rw [show ((⟨{ s.w with
          storage := (s.w.storage.get_or_create_table s.w.registry ids).2,
          version := ver }, s.issued⟩ : sys V)).w.storage.get_table tid =
        (s.w.storage.get_or_create_table s.w.registry ids).2.get_table tid from rfl,
        gD tid hlt]
      exact hent
  · exact h10

theorem inv_reserve {V : Type} [Inhabited V] {s : sys V} (ids : List Nat) (h : Inv s) :
    Inv ⟨s.w.reserve ids, s.issued⟩ :=
  inv_storage_goc ids (s.w.version + 1) h

/-- Replacing a table by one with the same entity array and key (as the
component-construction step after a migration does) preserves the
invariant. -/
theorem inv_replace_table {V : Type} {s : sys V} (tid : Nat) (t' : table V) (ver : Nat)
    (htid : tid < s.w.storage.tables.length)
    (hent : t'.entities = (s.w.storage.get_table tid).entities)
    (hwf : table_wf t')
    (h : Inv s) :
    Inv ⟨{ entities := s.w.entities, registry := s.w.registry,
           storage := s.w.storage.set_table tid t', empty_table := s.w.empty_table,
           locations := s.w.locations, version := ver }, s.issued⟩ := by
  obtain ⟨h1, h2, h3, h4, h5, h6, h7, h8, h9, h10⟩ := h
  constructor
  · exact h1
  · exact h2
  · exact h3
  · exact h4
  · exact h5
  · dsimp only
    rw [set_table_tables_length]
    exact h6
  · intro t ht
    dsimp only at ht
    rcases mem_set_table _ _ _ _ ht with hm | rfl
    · exact h7 t hm
    · exact hwf
  · intro tid' r hr
    dsimp only at hr
    unfold row_ok row_ent
    dsimp only
    by_cases h0 : tid' = tid
    · rw [h0] at hr ⊢
      rw [get_table_set_self _ _ _ htid] at hr ⊢
      rw [hent] at hr ⊢
      exact h8 tid r hr
    · rw [get_table_set_ne _ _ (fun hh => h0 hh.symm)] at hr ⊢
      exact h8 tid' r hr
  · intro i hi hni
    rcases h9 i hi hni with ⟨tid_i, r_i, hloc_i, hlt_i, hr_i, hent_i⟩
    refine ⟨tid_i, r_i, hloc_i, ?_, ?_, ?_⟩
    · dsimp only
      rw [set_table_tables_length]
      exact hlt_i
    · dsimp only
      by_cases h0 : tid_i = tid
      · rw [h0] at hr_i ⊢
        rw [get_table_set_self _ _ _ htid, hent]
        exact hr_i
      · rw [get_table_set_ne _ _ (fun hh => h0 hh.symm)]
        exact hr_i
    · dsimp only
      by_cases h0 : tid_i = tid
      · rw [h0] at hr_i hent_i ⊢
        rw [get_table_set_self _ _ _ htid, hent]
        exact hent_i
      · rw [get_table_set_ne _ _ (fun hh => h0 hh.symm)]
        exact hent_i
  · exact h10

theorem get?_eq_some_getD {α : Type} (l : List α) (i : Nat) (d : α) (h : i < l.length) :
    l.get? i = some (l.getD i d) := by
  rw [List.get?_eq_getElem?, List.getElem?_eq_getElem h, List.getD_eq_getElem?_getD,
    List.getElem?_eq_getElem h]
  rfl

theorem getD_set_dropLast_ne {α : Type} (l : List α) (row r' : Nat) (x d : α)
    (h : r' < l.length - 1) (hne : r' ≠ row) :
    ((l.set row x).dropLast).getD r' d = l.getD r' d := by
  rw [getD_dropLast _ _ _ (by simpa using h), getD_set_ne _ _ _ (fun hh => hne hh.symm)]

theorem getD_set_dropLast_self {α : Type} (l : List α) (row : Nat) (x d : α)
    (h : row < l.length - 1) :
    ((l.set row x).dropLast).getD row d = x := by
  rw [getD_dropLast _ _ _ (by simpa using h), getD_set_self _ _ _ _ (by omega)]

theorem alive_iff {m : entity_manager} {e : ent} :
    m.alive e = true ↔ e.valid = true ∧ e.index < m.generations.length ∧
      m.generations.getD e.index 0 = e.generation := by
  simp [entity_manager.alive, and_assoc]

/-- `entity_manager::create_entity` when the free list is non-empty. -/
theorem create_entity_pop {m : entity_manager} {idx : Nat}
    (h : m.fragment.getLast? = some idx) :
    m.create_entity = (⟨idx, m.generations.getD idx 0⟩,
      { m with fragment := m.fragment.dropLast,
               alive_count := (m.alive_count + 1) % 2 ^ 32 }) := by
  unfold entity_manager.create_entity
  rw [h]

/-- `entity_manager::create_entity` when the free list is empty, exactly as
the code computes it: the fresh index is the `uint32` cast of the slot
count, and the returned generation is whatever the grown array stores at
that (possibly wrapped) index. -/
theorem create_entity_fresh_raw {m : entity_manager}
    (h : m.fragment.getLast? = none) :
    m.create_entity = (⟨m.generations.length % 2 ^ 32,
        (m.generations ++ [0]).getD (m.generations.length % 2 ^ 32) 0⟩,
      { generations := m.generations ++ [0], fragment := m.fragment,
        alive_count := (m.alive_count + 1) % 2 ^ 32 }) := by
  unfold entity_manager.create_entity
  rw [h]

/-- `entity_manager::create_entity` when the free list is empty and fewer
than `2 ^ 32` slots exist, so the size cast is lossless: a genuinely fresh
slot at generation `0`. -/
theorem create_entity_fresh {m : entity_manager}
    (h : m.fragment.getLast? = none) (hcap : m.generations.length < 2 ^ 32) :
    m.create_entity = (⟨m.generations.length, 0⟩,
      { generations := m.generations ++ [0], fragment := m.fragment,
        alive_count := (m.alive_count + 1) % 2 ^ 32 }) := by
  rw [create_entity_fresh_raw h, Nat.mod_eq_of_lt hcap, getD_concat_self]

theorem inv_create {V : Type} [Inhabited V] {s : sys V}
    (hcap : s.w.entities.generations.length < 2 ^ 32) (h : Inv s) :
    Inv ⟨(s.w.create_entity).2, (s.w.create_entity).1 :: s.issued⟩ := by
  obtain ⟨h1, h2, h3, h4, h5, h6, h7, h8, h9, h10⟩ := h
  have hW2ent : (s.w.create_entity).2.entities = (s.w.entities.create_entity).2 := rfl
  have hW2st : (s.w.create_entity).2.storage =
      s.w.storage.set_table s.w.empty_table
        ((s.w.storage.get_table s.w.empty_table).add_row (s.w.entities.create_entity).1).2 := rfl
  have hW2loc : (s.w.create_entity).2.locations =
      (world.ensure_location_capacity s.w.locations
          (s.w.entities.create_entity).1.index).set
        (s.w.entities.create_entity).1.index
        ⟨some s.w.empty_table,
          (s.w.storage.get_table s.w.empty_table).entities.length⟩ := rfl
  have hW2empty : (s.w.create_entity).2.empty_table = s.w.empty_table := rfl
  have hW1 : (s.w.create_entity).1 = (s.w.entities.create_entity).1 := rfl
  cases hfrag : s.w.entities.fragment.getLast? with
  | some idx =>
    have hfrag_eq : s.w.entities.fragment.dropLast ++ [idx] = s.w.entities.fragment :=
      List.dropLast_append_getLast? idx hfrag
    have hidx_mem : idx ∈ s.w.entities.fragment := by
      rw [← hfrag_eq]
      exact List.mem_append_right _ (List.mem_singleton_self idx)
    have hidx_lt : idx < s.w.entities.generations.length := h3 idx hidx_mem
    have hnd' := h2
    rw [← hfrag_eq] at hnd'
    obtain ⟨hnd_dl, -, hdisj⟩ := List.nodup_append.mp hnd'
    have hidx_not_dl : idx ∉ s.w.entities.fragment.dropLast := fun hm =>
      hdisj hm (List.mem_singleton_self idx)
    have hsys : (⟨(s.w.create_entity).2, (s.w.create_entity).1 :: s.issued⟩ : sys V) =
        ⟨{ entities := { generations := s.w.entities.generations,
                         fragment := s.w.entities.fragment.dropLast,
                         alive_count := (s.w.entities.alive_count + 1) % 2 ^ 32 },
           registry := s.w.registry,
           storage := s.w.storage.set_table s.w.empty_table
             ((s.w.storage.get_table s.w.empty_table).add_row
               ⟨idx, s.w.entities.generations.getD idx 0⟩).2,
           empty_table := s.w.empty_table,
           locations := (world.ensure_location_capacity s.w.locations idx).set idx
             ⟨some s.w.empty_table, (s.w.storage.get_table s.w.empty_table).entities.length⟩,
           version := s.w.version + 1 },
          ⟨idx, s.w.entities.generations.getD idx 0⟩ :: s.issued⟩ := by
      simp only [world.create_entity, entity_manager.create_entity, hfrag]
      rfl
    rw [hsys]
    constructor
    · dsimp only
      rw [List.length_set, ensure_length]
      omega
    · exact List.Nodup.sublist (List.dropLast_sublist _) h2
    · intro i hi
      exact h3 i ((List.dropLast_sublist _).subset hi)
    · intro e' he'
      dsimp only at he' ⊢
      rcases List.mem_cons.mp he' with rfl | hmem
      · exact ⟨hidx_lt, le_refl _, fun _ => hidx_not_dl⟩
      · obtain ⟨ha, hb, hc⟩ := h4 e' hmem
        exact ⟨ha, hb, fun hgen hm => hc hgen ((List.dropLast_sublist _).subset hm)⟩
    · exact h5
    · dsimp only
      rw [set_table_tables_length]
      exact h6
    · intro t ht
      dsimp only at ht
      rcases mem_set_table _ _ _ _ ht with hm | rfl
      · exact h7 t hm
      · exact table_wf_add_row _ (h7 _ (get_table_mem _ _ (by rw [h5]; exact h6)))
    · intro tid r hr
      dsimp only at hr
      unfold row_ok row_ent
      dsimp only
      by_cases h0 : tid = s.w.empty_table
      · subst h0
        rw [get_table_set_self _ _ _ (by rw [h5]; exact h6)] at hr ⊢
        simp only [table.add_row, List.length_append, List.length_cons,
          List.length_nil] at hr
        by_cases hrold : r < (s.w.storage.get_table s.w.empty_table).entities.length
        · rw [show ((s.w.storage.get_table s.w.empty_table).add_row
              ⟨idx, s.w.entities.generations.getD idx 0⟩).2.entities =
              (s.w.storage.get_table s.w.empty_table).entities ++
                [⟨idx, s.w.entities.generations.getD idx 0⟩] from rfl,
            List.getD_append _ _ _ _ hrold]
          obtain ⟨ra, rb, rc, rd⟩ := h8 s.w.empty_table r hrold
          have hne_idx : (row_ent s s.w.empty_table r).index ≠ idx := by
            intro hh
            exact rc (hh ▸ hidx_mem)
          unfold row_ent at ra rb rc rd hne_idx
          refine ⟨ra, rb, fun hm => rc ((List.dropLast_sublist _).subset hm), ?_⟩
          rw [getD_set_ne _ _ _ (fun hh => hne_idx hh.symm), ensure_getD]
          exact rd
        · have hreq : r = (s.w.storage.get_table s.w.empty_table).entities.length := by omega
          subst hreq
          rw [show ((s.w.storage.get_table s.w.empty_table).add_row
              ⟨idx, s.w.entities.generations.getD idx 0⟩).2.entities =
              (s.w.storage.get_table s.w.empty_table).entities ++
                [⟨idx, s.w.entities.generations.getD idx 0⟩] from rfl,
            getD_concat_self]
          refine ⟨hidx_lt, rfl, hidx_not_dl, ?_⟩
          rw [getD_set_self]
          rw [ensure_length]
          omega
      · rw [get_table_set_ne _ _ (fun hh => h0 hh.symm)] at hr ⊢
        obtain ⟨ra, rb, rc, rd⟩ := h8 tid r hr
        have hne_idx : (row_ent s tid r).index ≠ idx := by
          intro hh
          exact rc (hh ▸ hidx_mem)
        unfold row_ent at ra rb rc rd hne_idx
        refine ⟨ra, rb, fun hm => rc ((List.dropLast_sublist _).subset hm), ?_⟩
        rw [getD_set_ne _ _ _ (fun hh => hne_idx hh.symm), ensure_getD]
        exact rd
    · intro i hi hni
      dsimp only at hi hni ⊢
      unfold slot_ok
      dsimp only
      by_cases hii : i = idx
      · subst hii
        refine ⟨s.w.empty_table, (s.w.storage.get_table s.w.empty_table).entities.length,
          ?_, ?_, ?_, ?_⟩
        · rw [getD_set_self]
          rw [ensure_length]
          omega
        · rw [set_table_tables_length]
          rw [h5]
          exact h6
        · rw [get_table_set_self _ _ _ (by rw [h5]; exact h6)]
          simp [table.add_row]
        · rw [get_table_set_self _ _ _ (by rw [h5]; exact h6)]
          rw [show ((s.w.storage.get_table s.w.empty_table).add_row
              ⟨i, s.w.entities.generations.getD i 0⟩).2.entities =
              (s.w.storage.get_table s.w.empty_table).entities ++
                [⟨i, s.w.entities.generations.getD i 0⟩] from rfl,
            getD_concat_self]
      · have hnif : i ∉ s.w.entities.fragment := by
          rw [← hfrag_eq]
          intro hm
          rcases List.mem_append.mp hm with hm | hm
          · exact hni hm
          · exact hii (List.mem_singleton.mp hm)
        obtain ⟨tid, r, hloc, hlt, hrr, hent⟩ := h9 i hi hnif
        refine ⟨tid, r, ?_, ?_, ?_, ?_⟩
        · rw [getD_set_ne _ _ _ (fun hh => hii hh.symm), ensure_getD]
          exact hloc
        · rw [set_table_tables_length]
          exact hlt
        · by_cases h0 : tid = s.w.empty_table
          · subst h0
            rw [get_table_set_self _ _ _ (by rw [h5]; exact h6)]
            simp only [table.add_row, List.length_append, List.length_cons,
              List.length_nil]
            omega
          · rw [get_table_set_ne _ _ (fun hh => h0 hh.symm)]
            exact hrr
        · by_cases h0 : tid = s.w.empty_table
          · subst h0
            rw [get_table_set_self _ _ _ (by rw [h5]; exact h6)]
            rw [show ((s.w.storage.get_table s.w.empty_table).add_row
                ⟨idx, s.w.entities.generations.getD idx 0⟩).2.entities =
                (s.w.storage.get_table s.w.empty_table).entities ++
                  [⟨idx, s.w.entities.generations.getD idx 0⟩] from rfl,
              List.getD_append _ _ _ _ hrr]
            exact hent
          · rw [get_table_set_ne _ _ (fun hh => h0 hh.symm)]
            exact hent
    · intro j hj
      dsimp only at hj ⊢
      have hjf : j ∈ s.w.entities.fragment := (List.dropLast_sublist _).subset hj
      have hji : j ≠ idx := fun hh => hidx_not_dl (hh ▸ hj)
      rw [getD_set_ne _ _ _ (fun hh => hji hh.symm), ensure_getD]
      exact h10 j hjf
  | none =>
    have hfrag_nil : s.w.entities.fragment = [] := List.getLast?_eq_none_iff.mp hfrag
    have hsys : (⟨(s.w.create_entity).2, (s.w.create_entity).1 :: s.issued⟩ : sys V) =
        ⟨{ entities := { generations := s.w.entities.generations ++ [0],
                         fragment := s.w.entities.fragment,
                         alive_count := (s.w.entities.alive_count + 1) % 2 ^ 32 },
           registry := s.w.registry,
           storage := s.w.storage.set_table s.w.empty_table
             ((s.w.storage.get_table s.w.empty_table).add_row
               ⟨s.w.entities.generations.length, 0⟩).2,
           empty_table := s.w.empty_table,
           locations := (world.ensure_location_capacity s.w.locations
               s.w.entities.generations.length).set s.w.entities.generations.length
             ⟨some s.w.empty_table, (s.w.storage.get_table s.w.empty_table).entities.length⟩,
           version := s.w.version + 1 },
          ⟨s.w.entities.generations.length, 0⟩ :: s.issued⟩ := by
      simp only [world.create_entity, create_entity_fresh hfrag hcap]
      rfl
    rw [hsys]
    have hLnotfrag : s.w.entities.generations.length ∉ s.w.entities.fragment := by
      rw [hfrag_nil]
      exact List.not_mem_nil _
    constructor
    · dsimp only
      rw [List.length_set, ensure_length, List.length_append]
      simp only [List.length_cons, List.length_nil]
      omega
    · exact h2
    · intro i hi
      dsimp only at hi ⊢
      have := h3 i hi
      rw [List.length_append]
      simp only [List.length_cons, List.length_nil]
      omega
    · intro e' he'
      dsimp only at he' ⊢
      rcases List.mem_cons.mp he' with rfl | hmem
      · refine ⟨?_, ?_, fun _ => hLnotfrag⟩
        · rw [List.length_append]
          simp only [List.length_cons, List.length_nil]
          omega
        · rw [getD_concat_self]
      · obtain ⟨ha, hb, hc⟩ := h4 e' hmem
        refine ⟨?_, ?_, ?_⟩
        · rw [List.length_append]
          simp only [List.length_cons, List.length_nil]
          omega
        · rw [List.getD_append _ _ _ _ ha]
          exact hb
        · intro hgen
          rw [List.getD_append _ _ _ _ ha] at hgen
          exact hc hgen
    · exact h5
    · dsimp only
      rw [set_table_tables_length]
      exact h6
    · intro t ht
      dsimp only at ht
      rcases mem_set_table _ _ _ _ ht with hm | rfl
      · exact h7 t hm
      · exact table_wf_add_row _ (h7 _ (get_table_mem _ _ (by rw [h5]; exact h6)))
    · intro tid r hr
      dsimp only at hr
      unfold row_ok row_ent
      dsimp only
      by_cases h0 : tid = s.w.empty_table
      · subst h0
        rw [get_table_set_self _ _ _ (by rw [h5]; exact h6)] at hr ⊢
        simp only [table.add_row, List.length_append, List.length_cons,
          List.length_nil] at hr
        by_cases hrold : r < (s.w.storage.get_table s.w.empty_table).entities.length
        · rw [show ((s.w.storage.get_table s.w.empty_table).add_row
              ⟨s.w.entities.generations.length, 0⟩).2.entities =
              (s.w.storage.get_table s.w.empty_table).entities ++
                [⟨s.w.entities.generations.length, 0⟩] from rfl,
            List.getD_append _ _ _ _ hrold]
          obtain ⟨ra, rb, rc, rd⟩ := h8 s.w.empty_table r hrold
          unfold row_ent at ra rb rc rd
          have hne_L : ((s.w.storage.get_table s.w.empty_table).entities.getD r
              ⟨0, 0⟩).index ≠ s.w.entities.generations.length := by omega
          refine ⟨?_, ?_, rc, ?_⟩
          · rw [List.length_append]
            simp only [List.length_cons, List.length_nil]
            omega
          · rw [List.getD_append _ _ _ _ ra]
            exact rb
          · rw [getD_set_ne _ _ _ (fun hh => hne_L hh.symm), ensure_getD]
            exact rd
        · have hreq : r = (s.w.storage.get_table s.w.empty_table).entities.length := by
            omega
          subst hreq
          rw [show ((s.w.storage.get_table s.w.empty_table).add_row
              ⟨s.w.entities.generations.length, 0⟩).2.entities =
              (s.w.storage.get_table s.w.empty_table).entities ++
                [⟨s.w.entities.generations.length, 0⟩] from rfl,
            getD_concat_self]
          refine ⟨?_, ?_, hLnotfrag, ?_⟩
          · rw [List.length_append]
            simp only [List.length_cons, List.length_nil]
            omega
          · rw [getD_concat_self]
          · rw [getD_set_self]
            rw [ensure_length]
            omega
      · rw [get_table_set_ne _ _ (fun hh => h0 hh.symm)] at hr ⊢
        obtain ⟨ra, rb, rc, rd⟩ := h8 tid r hr
        unfold row_ent at ra rb rc rd
        have hne_L : ((s.w.storage.get_table tid).entities.getD r
            ⟨0, 0⟩).index ≠ s.w.entities.generations.length := by omega
        refine ⟨?_, ?_, rc, ?_⟩
        · rw [List.length_append]
          simp only [List.length_cons, List.length_nil]
          omega
        · rw [List.getD_append _ _ _ _ ra]
          exact rb
        · rw [getD_set_ne _ _ _ (fun hh => hne_L hh.symm), ensure_getD]
          exact rd
    · intro i hi hni
      dsimp only at hi hni ⊢
      unfold slot_ok
      dsimp only
      rw [List.length_append] at hi
      simp only [List.length_cons, List.length_nil] at hi
      by_cases hii : i = s.w.entities.generations.length
      · subst hii
        refine ⟨s.w.empty_table, (s.w.storage.get_table s.w.empty_table).entities.length,
          ?_, ?_, ?_, ?_⟩
        · rw [getD_set_self]
          rw [ensure_length]
          omega
        · rw [set_table_tables_length, h5]
          exact h6
        · rw [get_table_set_self _ _ _ (by rw [h5]; exact h6)]
          simp [table.add_row]
        · rw [get_table_set_self _ _ _ (by rw [h5]; exact h6)]
          rw [show ((s.w.storage.get_table s.w.empty_table).add_row
              ⟨s.w.entities.generations.length, 0⟩).2.entities =
              (s.w.storage.get_table s.w.empty_table).entities ++
                [⟨s.w.entities.generations.length, 0⟩] from rfl,
            getD_concat_self, getD_concat_self]
      · have hiL : i < s.w.entities.generations.length := by omega
        obtain ⟨tid, r, hloc, hlt, hrr, hent⟩ := h9 i hiL hni
        refine ⟨tid, r, ?_, ?_, ?_, ?_⟩
        · rw [getD_set_ne _ _ _ (fun hh => hii hh.symm), ensure_getD]
          exact hloc
        · rw [set_table_tables_length]
          exact hlt
        · by_cases h0 : tid = s.w.empty_table
          · subst h0
            rw [get_table_set_self _ _ _ (by rw [h5]; exact h6)]
            simp only [table.add_row, List.length_append, List.length_cons,
              List.length_nil]
            omega
          · rw [get_table_set_ne _ _ (fun hh => h0 hh.symm)]
            exact hrr
        · rw [List.getD_append _ _ _ _ hiL]
          by_cases h0 : tid = s.w.empty_table
          · subst h0
            rw [get_table_set_self _ _ _ (by rw [h5]; exact h6)]
            rw [show ((s.w.storage.get_table s.w.empty_table).add_row
                ⟨s.w.entities.generations.length, 0⟩).2.entities =
                (s.w.storage.get_table s.w.empty_table).entities ++
                  [⟨s.w.entities.generations.length, 0⟩] from rfl,
              List.getD_append _ _ _ _ hrr]
            exact hent
          · rw [get_table_set_ne _ _ (fun hh => h0 hh.symm)]
            exact hent
    · intro j hj
      dsimp only at hj ⊢
      have hjL : j ≠ s.w.entities.generations.length := by
        have := h3 j hj
        omega
      rw [getD_set_ne _ _ _ (fun hh => hjL hh.symm), ensure_getD]
      exact h10 j hj

theorem inv_destroy {V : Type} [Inhabited V] {s : sys V} (e : ent) (he : e ∈ s.issued)
    (hnw : s.w.entities.generations.getD e.index 0 + 1 < 2 ^ 32)
    (h : Inv s) : Inv ⟨s.w.destroy_entity e, s.issued⟩ := by
  obtain ⟨h1, h2, h3, h4, h5, h6, h7, h8, h9, h10⟩ := h
  by_cases halive : s.w.entities.alive e = true
  · obtain ⟨-, hlt, hgen⟩ := alive_iff.mp halive
    have hni : e.index ∉ s.w.entities.fragment := (h4 e he).2.2 hgen.symm
    obtain ⟨tid, r, hloc, htid, hr, hent⟩ := h9 e.index hlt hni
    have hentE : (s.w.storage.get_table tid).entities.getD r ⟨0, 0⟩ = e := by
      rw [hent, hgen]
    have hfrag_nodup : (s.w.entities.fragment ++ [e.index]).Nodup := by
      rw [List.nodup_append]
      exact ⟨h2, List.nodup_singleton _, fun a ha hb => hni ((List.mem_singleton.mp hb) ▸ ha)⟩
    have hlen : ((s.w.storage.get_table tid).remove_row_swap r).2.entities.length =
        (s.w.storage.get_table tid).entities.length - 1 := by
      simp [table.remove_row_swap]
    by_cases hlast : r = (s.w.storage.get_table tid).entities.length - 1
    · -- removing the last row: nothing is swapped in
      have hswap : ((s.w.storage.get_table tid).remove_row_swap r).1 = none := by
        simp only [table.remove_row_swap]
        rw [if_neg (not_not_intro hlast)]
      have hsys : (⟨s.w.destroy_entity e, s.issued⟩ : sys V) =
          ⟨{ entities := { generations := s.w.entities.generations.set e.index
                             (s.w.entities.generations.getD e.index 0 + 1),
                           fragment := s.w.entities.fragment ++ [e.index],
                           alive_count := (s.w.entities.alive_count + (2 ^ 32 - 1)) % 2 ^ 32 },
             registry := s.w.registry,
             storage := s.w.storage.set_table tid
               ((s.w.storage.get_table tid).remove_row_swap r).2,
             empty_table := s.w.empty_table,
             locations := s.w.locations.set e.index ⟨none, 0⟩,
             version := s.w.version + 1 + 1 },
            s.issued⟩ := by
        simp only [world.destroy_entity, world.remove_row_dense_and_fixup,
          entity_manager.destroy_entity, halive, hloc, hswap, location.valid]
        simp [halive]
        have hx : s.w.entities.generations[e.index]?.getD 0 + 1 < 4294967296 := by
          rw [← List.getD_eq_getElem?_getD]
          omega
        rw [Nat.mod_eq_of_lt hx]
      rw [hsys]
      constructor
      · dsimp only
        rw [List.length_set, List.length_set]
        exact h1
      · exact hfrag_nodup
      · intro i hi
        dsimp only at hi ⊢
        rw [List.length_set]
        rcases List.mem_append.mp hi with hm | hm
        · exact h3 i hm
        · rw [List.mem_singleton.mp hm]
          exact hlt
      · intro e' he'
        dsimp only at he' ⊢
        obtain ⟨ha, hb, hc⟩ := h4 e' he'
        rw [List.length_set]
        by_cases hidx : e'.index = e.index
        · refine ⟨ha, ?_, ?_⟩
          · rw [hidx, getD_set_self _ _ _ _ hlt]
            rw [hidx] at hb
            omega
          · intro hgen'
            rw [hidx, getD_set_self _ _ _ _ hlt] at hgen'
            rw [hidx] at hb
            omega
        · refine ⟨ha, ?_, ?_⟩
          · rw [getD_set_ne _ _ _ (fun hh => hidx hh.symm)]
            exact hb
          · intro hgen'
            rw [getD_set_ne _ _ _ (fun hh => hidx hh.symm)] at hgen'
            intro hm
            rcases List.mem_append.mp hm with hm | hm
            · exact hc hgen' hm
            · exact hidx (List.mem_singleton.mp hm)
      · exact h5
      · dsimp only
        rw [set_table_tables_length]
        exact h6
      · intro t ht
        dsimp only at ht
        rcases mem_set_table _ _ _ _ ht with hm | rfl
        · exact h7 t hm
        · exact table_wf_remove_row_swap _ (h7 _ (get_table_mem _ _ htid))
      · intro tid' r' hr'
        dsimp only at hr'
        unfold row_ok row_ent
        dsimp only
        by_cases h0 : tid' = tid
        · rw [h0] at hr' ⊢
          rw [get_table_set_self _ _ _ htid] at hr' ⊢
          rw [hlen] at hr'
          have hgetD : ((s.w.storage.get_table tid).remove_row_swap r).2.entities.getD
              r' ⟨0, 0⟩ = (s.w.storage.get_table tid).entities.getD r' ⟨0, 0⟩ := by
            simp only [table.remove_row_swap]
            exact getD_set_dropLast_ne _ _ _ _ _ hr' (by omega)
          rw [hgetD]
          obtain ⟨ra, rb, rc, rd⟩ := h8 tid r' (by omega)
          unfold row_ent at ra rb rc rd
          have hne_e : ((s.w.storage.get_table tid).entities.getD r' ⟨0, 0⟩).index ≠
              e.index := by
            intro hh
            rw [hh, hloc] at rd
            have : r = r' := by injection rd
            omega
          refine ⟨?_, ?_, ?_, ?_⟩
          · rw [List.length_set]
            exact ra
          · rw [getD_set_ne _ _ _ (fun hh => hne_e hh.symm)]
            exact rb
          · intro hm
            rcases List.mem_append.mp hm with hm | hm
            · exact rc hm
            · exact hne_e (List.mem_singleton.mp hm)
          · rw [getD_set_ne _ _ _ (fun hh => hne_e hh.symm)]
            exact rd
        · rw [get_table_set_ne _ _ (fun hh => h0 hh.symm)] at hr' ⊢
          obtain ⟨ra, rb, rc, rd⟩ := h8 tid' r' hr'
          unfold row_ent at ra rb rc rd
          have hne_e : ((s.w.storage.get_table tid').entities.getD r' ⟨0, 0⟩).index ≠
              e.index := by
            intro hh
            rw [hh, hloc] at rd
            have htt : some tid = some tid' := by injection rd
            exact h0 (by injection htt with hy; exact hy.symm)
          refine ⟨?_, ?_, ?_, ?_⟩
          · rw [List.length_set]
            exact ra
          · rw [getD_set_ne _ _ _ (fun hh => hne_e hh.symm)]
            exact rb
          · intro hm
            rcases List.mem_append.mp hm with hm | hm
            · exact rc hm
            · exact hne_e (List.mem_singleton.mp hm)
          · rw [getD_set_ne _ _ _ (fun hh => hne_e hh.symm)]
            exact rd
      · intro i hi hni'
        dsimp only at hi hni' ⊢
        unfold slot_ok
        dsimp only
        rw [List.length_set] at hi
        have hine : i ≠ e.index := fun hh =>
          hni' (by rw [hh]; exact List.mem_append_right _ (List.mem_singleton_self _))
        have hnif : i ∉ s.w.entities.fragment := fun hm => hni' (List.mem_append_left _ hm)
        obtain ⟨tid_i, r_i, hloc_i, hlt_i, hr_i, hent_i⟩ := h9 i hi hnif
        refine ⟨tid_i, r_i, ?_, ?_, ?_, ?_⟩
        · rw [getD_set_ne _ _ _ (fun hh => hine hh.symm)]
          exact hloc_i
        · rw [set_table_tables_length]
          exact hlt_i
        · by_cases h0 : tid_i = tid
          · rw [h0] at hent_i hr_i ⊢
            rw [get_table_set_self _ _ _ htid, hlen]
            have hri_ne : r_i ≠ r := by
              intro hh
              subst hh
              rw [hentE] at hent_i
              exact hine (congrArg ent.index hent_i).symm
            omega
          · rw [get_table_set_ne _ _ (fun hh => h0 hh.symm)]
            exact hr_i
        · rw [getD_set_ne _ _ _ (fun hh => hine hh.symm)]
          by_cases h0 : tid_i = tid
          · rw [h0] at hent_i hr_i ⊢
            rw [get_table_set_self _ _ _ htid]
            have hri_ne : r_i ≠ r := by
              intro hh
              subst hh
              rw [hentE] at hent_i
              exact hine (congrArg ent.index hent_i).symm
            have hgetD : ((s.w.storage.get_table tid).remove_row_swap r).2.entities.getD
                r_i ⟨0, 0⟩ = (s.w.storage.get_table tid).entities.getD r_i ⟨0, 0⟩ := by
              simp only [table.remove_row_swap]
              exact getD_set_dropLast_ne _ _ _ _ _ (by omega) hri_ne
            rw [hgetD]
            exact hent_i
          · rw [get_table_set_ne _ _ (fun hh => h0 hh.symm)]
            exact hent_i
      · intro j hj
        dsimp only at hj ⊢
        rcases List.mem_append.mp hj with hm | hm
        · have hje : j ≠ e.index := fun hh => hni (hh ▸ hm)
          rw [getD_set_ne _ _ _ (fun hh => hje hh.symm)]
          exact h10 j hm
        · rw [List.mem_singleton.mp hm, getD_set_self _ _ _ _ (by rw [h1]; exact hlt)]
    · -- removing a non-last row: the former last entity is swapped in
      set fent : ent := (s.w.storage.get_table tid).entities.getD
        ((s.w.storage.get_table tid).entities.length - 1) ⟨0, 0⟩ with hfent
      have hswap : ((s.w.storage.get_table tid).remove_row_swap r).1 = some fent := by
        simp only [table.remove_row_swap]
        rw [if_pos hlast, get?_eq_some_getD _ _ (⟨0, 0⟩ : ent) (by omega)]
      obtain ⟨fa, fb, fc, fd⟩ := h8 tid ((s.w.storage.get_table tid).entities.length - 1)
        (by omega)
      unfold row_ent at fa fb fc fd
      rw [← hfent] at fa fb fc fd
      have hfne : fent.index ≠ e.index := by
        intro hh
        rw [hh, hloc] at fd
        have : r = (s.w.storage.get_table tid).entities.length - 1 := by injection fd
        exact hlast this
      have hsys : (⟨s.w.destroy_entity e, s.issued⟩ : sys V) =
          ⟨{ entities := { generations := s.w.entities.generations.set e.index
                             (s.w.entities.generations.getD e.index 0 + 1),
                           fragment := s.w.entities.fragment ++ [e.index],
                           alive_count := (s.w.entities.alive_count + (2 ^ 32 - 1)) % 2 ^ 32 },
             registry := s.w.registry,
             storage := s.w.storage.set_table tid
               ((s.w.storage.get_table tid).remove_row_swap r).2,
             empty_table := s.w.empty_table,
             locations := (s.w.locations.set fent.index ⟨some tid, r⟩).set e.index
               ⟨none, 0⟩,
             version := s.w.version + 1 + 1 },
            s.issued⟩ := by
        simp only [world.destroy_entity, world.remove_row_dense_and_fixup,
          entity_manager.destroy_entity, halive, hloc, hswap, location.valid]
        simp [halive]
        have hx : s.w.entities.generations[e.index]?.getD 0 + 1 < 4294967296 := by
          rw [← List.getD_eq_getElem?_getD]
          omega
        rw [Nat.mod_eq_of_lt hx]
      rw [hsys]
      constructor
      · dsimp only
        rw [List.length_set, List.length_set, List.length_set]
        exact h1
      · exact hfrag_nodup
      · intro i hi
        dsimp only at hi ⊢
        rw [List.length_set]
        rcases List.mem_append.mp hi with hm | hm
        · exact h3 i hm
        · rw [List.mem_singleton.mp hm]
          exact hlt
      · intro e' he'
        dsimp only at he' ⊢
        obtain ⟨ha, hb, hc⟩ := h4 e' he'
        rw [List.length_set]
        by_cases hidx : e'.index = e.index
        · refine ⟨ha, ?_, ?_⟩
          · rw [hidx, getD_set_self _ _ _ _ hlt]
            rw [hidx] at hb
            omega
          · intro hgen'
            rw [hidx, getD_set_self _ _ _ _ hlt] at hgen'
            rw [hidx] at hb
            omega
        · refine ⟨ha, ?_, ?_⟩
          · rw [getD_set_ne _ _ _ (fun hh => hidx hh.symm)]
            exact hb
          · intro hgen'
            rw [getD_set_ne _ _ _ (fun hh => hidx hh.symm)] at hgen'
            intro hm
            rcases List.mem_append.mp hm with hm | hm
            · exact hc hgen' hm
            · exact hidx (List.mem_singleton.mp hm)
      · exact h5
      · dsimp only
        rw [set_table_tables_length]
        exact h6
      · intro t ht
        dsimp only at ht
        rcases mem_set_table _ _ _ _ ht with hm | rfl
        · exact h7 t hm
        · exact table_wf_remove_row_swap _ (h7 _ (get_table_mem _ _ htid))
      · intro tid' r' hr'
        dsimp only at hr'
        unfold row_ok row_ent
        dsimp only
        by_cases h0 : tid' = tid
        · rw [h0] at hr' ⊢
          rw [get_table_set_self _ _ _ htid] at hr' ⊢
          rw [hlen] at hr'
          by_cases hrr : r' = r
          · subst hrr
            have hgetD : ((s.w.storage.get_table tid).remove_row_swap r').2.entities.getD
                r' ⟨0, 0⟩ = fent := by
              simp only [table.remove_row_swap]
              exact getD_set_dropLast_self _ _ _ _ hr'
            rw [hgetD]
            refine ⟨?_, ?_, ?_, ?_⟩
            · rw [List.length_set]
              exact fa
            · rw [getD_set_ne _ _ _ (fun hh => hfne hh.symm)]
              exact fb
            · intro hm
              rcases List.mem_append.mp hm with hm | hm
              · exact fc hm
              · exact hfne (List.mem_singleton.mp hm)
            · rw [getD_set_ne _ _ _ (fun hh => hfne hh.symm),
                getD_set_self _ _ _ _ (by rw [h1]; exact fa)]
          · have hgetD : ((s.w.storage.get_table tid).remove_row_swap r).2.entities.getD
                r' ⟨0, 0⟩ = (s.w.storage.get_table tid).entities.getD r' ⟨0, 0⟩ := by
              simp only [table.remove_row_swap]
              exact getD_set_dropLast_ne _ _ _ _ _ hr' hrr
            rw [hgetD]
            obtain ⟨ra, rb, rc, rd⟩ := h8 tid r' (by omega)
            unfold row_ent at ra rb rc rd
            have hne_e : ((s.w.storage.get_table tid).entities.getD r' ⟨0, 0⟩).index ≠
                e.index := by
              intro hh
              rw [hh, hloc] at rd
              have : r = r' := by injection rd
              omega
            have hne_f : ((s.w.storage.get_table tid).entities.getD r' ⟨0, 0⟩).index ≠
                fent.index := by
              intro hh
              rw [hh, fd] at rd
              have : (s.w.storage.get_table tid).entities.length - 1 = r' := by
                injection rd
              omega
            refine ⟨?_, ?_, ?_, ?_⟩
            · rw [List.length_set]
              exact ra
            · rw [getD_set_ne _ _ _ (fun hh => hne_e hh.symm)]
              exact rb
            · intro hm
              rcases List.mem_append.mp hm with hm | hm
              · exact rc hm
              · exact hne_e (List.mem_singleton.mp hm)
            · rw [getD_set_ne _ _ _ (fun hh => hne_e hh.symm),
                getD_set_ne _ _ _ (fun hh => hne_f hh.symm)]
              exact rd
        · rw [get_table_set_ne _ _ (fun hh => h0 hh.symm)] at hr' ⊢
          obtain ⟨ra, rb, rc, rd⟩ := h8 tid' r' hr'
          unfold row_ent at ra rb rc rd
          have hne_e : ((s.w.storage.get_table tid').entities.getD r' ⟨0, 0⟩).index ≠
              e.index := by
            intro hh
            rw [hh, hloc] at rd
            have htt : some tid = some tid' := by injection rd
            exact h0 (by injection htt with hy; exact hy.symm)
          have hne_f : ((s.w.storage.get_table tid').entities.getD r' ⟨0, 0⟩).index ≠
              fent.index := by
            intro hh
            rw [hh, fd] at rd
            have htt : some tid = some tid' := by injection rd
            exact h0 (by injection htt with hy; exact hy.symm)
          refine ⟨?_, ?_, ?_, ?_⟩
          · rw [List.length_set]
            exact ra
          · rw [getD_set_ne _ _ _ (fun hh => hne_e hh.symm)]
            exact rb
          · intro hm
            rcases List.mem_append.mp hm with hm | hm
            · exact rc hm
            · exact hne_e (List.mem_singleton.mp hm)
          · rw [getD_set_ne _ _ _ (fun hh => hne_e hh.symm),
              getD_set_ne _ _ _ (fun hh => hne_f hh.symm)]
            exact rd
      · intro i hi hni'
        dsimp only at hi hni' ⊢
        unfold slot_ok
        dsimp only
        rw [List.length_set] at hi
        have hine : i ≠ e.index := fun hh =>
          hni' (by rw [hh]; exact List.mem_append_right _ (List.mem_singleton_self _))
        have hnif : i ∉ s.w.entities.fragment := fun hm => hni' (List.mem_append_left _ hm)
        by_cases hif : i = fent.index
        · refine ⟨tid, r, ?_, ?_, ?_, ?_⟩
          · rw [hif, getD_set_ne _ _ _ (fun hh => hfne hh.symm),
              getD_set_self _ _ _ _ (by rw [h1]; exact fa)]
          · rw [set_table_tables_length]
            exact htid
          · rw [get_table_set_self _ _ _ htid, hlen]
            omega
          · rw [get_table_set_self _ _ _ htid]
            have hgetD : ((s.w.storage.get_table tid).remove_row_swap r).2.entities.getD
                r ⟨0, 0⟩ = fent := by
              simp only [table.remove_row_swap]
              exact getD_set_dropLast_self _ _ _ _ (by omega)
            rw [hgetD, hif, getD_set_ne _ _ _ (fun hh => hfne hh.symm), fb]
        · obtain ⟨tid_i, r_i, hloc_i, hlt_i, hr_i, hent_i⟩ := h9 i hi hnif
          refine ⟨tid_i, r_i, ?_, ?_, ?_, ?_⟩
          · rw [getD_set_ne _ _ _ (fun hh => hine hh.symm),
              getD_set_ne _ _ _ (fun hh => hif hh.symm)]
            exact hloc_i
          · rw [set_table_tables_length]
            exact hlt_i
          · by_cases h0 : tid_i = tid
            · rw [h0] at hent_i hr_i ⊢
              rw [get_table_set_self _ _ _ htid, hlen]
              have hri_ne_r : r_i ≠ r := by
                intro hh
                subst hh
                rw [hentE] at hent_i
                exact hine (congrArg ent.index hent_i).symm
              have hri_ne_l : r_i ≠ (s.w.storage.get_table tid).entities.length - 1 := by
                intro hh
                rw [hh] at hent_i
                rw [← hfent] at hent_i
                exact hif (congrArg ent.index hent_i).symm
              omega
            · rw [get_table_set_ne _ _ (fun hh => h0 hh.symm)]
              exact hr_i
          · rw [getD_set_ne _ _ _ (fun hh => hine hh.symm)]
            by_cases h0 : tid_i = tid
            · rw [h0] at hent_i hr_i ⊢
              rw [get_table_set_self _ _ _ htid]
              have hri_ne_r : r_i ≠ r := by
                intro hh
                subst hh
                rw [hentE] at hent_i
                exact hine (congrArg ent.index hent_i).symm
              have hri_ne_l : r_i ≠ (s.w.storage.get_table tid).entities.length - 1 := by
                intro hh
                rw [hh] at hent_i
                rw [← hfent] at hent_i
                exact hif (congrArg ent.index hent_i).symm
              have hgetD : ((s.w.storage.get_table tid).remove_row_swap r).2.entities.getD
                  r_i ⟨0, 0⟩ = (s.w.storage.get_table tid).entities.getD r_i ⟨0, 0⟩ := by
                simp only [table.remove_row_swap]
                exact getD_set_dropLast_ne _ _ _ _ _ (by omega) hri_ne_r
              rw [hgetD]
              exact hent_i
            · rw [get_table_set_ne _ _ (fun hh => h0 hh.symm)]
              exact hent_i
      · intro j hj
        dsimp only at hj ⊢
        rcases List.mem_append.mp hj with hm | hm
        · have hje : j ≠ e.index := fun hh => hni (hh ▸ hm)
          have hjf : j ≠ fent.index := fun hh => fc (hh ▸ hm)
          rw [getD_set_ne _ _ _ (fun hh => hje hh.symm),
            getD_set_ne _ _ _ (fun hh => hjf hh.symm)]
          exact h10 j hm
        · rw [List.mem_singleton.mp hm,
            getD_set_self _ _ _ _ (by rw [List.length_set, h1]; exact hlt)]
  · have hfalse : s.w.entities.alive e = false := by
      revert halive
      cases s.w.entities.alive e <;> simp
    have hid : s.w.destroy_entity e = s.w := by
      simp [world.destroy_entity, hfalse]
    rw [hid]
    exact ⟨h1, h2, h3, h4, h5, h6, h7, h8, h9, h10⟩

/-- `migrate_entity_to_table` preserves the invariant and leaves the moved
entity located at the fresh last row of the destination table.  `old_tid` /
`old_row` name the entity's current location and the destination differs
from the source (the callers migrate between distinct archetypes). -/
theorem inv_migrate {V : Type} [Inhabited V] {s : sys V} (e : ent)
    (new_tid old_tid old_row : Nat)
    (he : e ∈ s.issued) (halive : s.w.entities.alive e = true)
    (hloc : s.w.locations.getD e.index default = ⟨some old_tid, old_row⟩)
    (htidN : new_tid < s.w.storage.tables.length)
    (hne : new_tid ≠ old_tid)
    (h : Inv s) :
    Inv ⟨(s.w.migrate_entity_to_table e new_tid).2, s.issued⟩ ∧
    (s.w.migrate_entity_to_table e new_tid).2.locations.getD e.index default =
      ⟨some new_tid, (s.w.storage.get_table new_tid).entities.length⟩ := by
  obtain ⟨h1, h2, h3, h4, h5, h6, h7, h8, h9, h10⟩ := h
  obtain ⟨-, hlt, hgen⟩ := alive_iff.mp halive
  have hni : e.index ∉ s.w.entities.fragment := (h4 e he).2.2 hgen.symm
  obtain ⟨tid0, r0, hloc0, htid0, hr0, hent0⟩ := h9 e.index hlt hni
  have htided : tid0 = old_tid ∧ r0 = old_row := by
    rw [hloc0] at hloc
    constructor
    · have := congrArg location.tid hloc
      simpa using this
    · exact congrArg location.row hloc
  obtain ⟨rfl, rfl⟩ := htided
  have hentE : (s.w.storage.get_table tid0).entities.getD r0 ⟨0, 0⟩ = e := by
    rw [hent0, hgen]
  have hlenO : ((s.w.storage.get_table tid0).remove_row_swap_nodestroy r0).2.entities.length =
      (s.w.storage.get_table tid0).entities.length - 1 := by
    simp [table.remove_row_swap_nodestroy]
  have hNT2ent :
      ((intersect_sorted_ids (s.w.storage.get_table tid0).key
          ((s.w.storage.get_table new_tid).add_row_uninitialized e).2.key).foldl
        (fun nt cid => nt.set_cell (s.w.storage.get_table new_tid).entities.length cid
          ((s.w.storage.get_table tid0).cell r0 cid))
        ((s.w.storage.get_table new_tid).add_row_uninitialized e).2).entities =
      (s.w.storage.get_table new_tid).entities ++ [e] := by
    rw [foldl_set_cell_entities]
    rfl
  have hNT2wf : table_wf
      ((intersect_sorted_ids (s.w.storage.get_table tid0).key
          ((s.w.storage.get_table new_tid).add_row_uninitialized e).2.key).foldl
        (fun nt cid => nt.set_cell (s.w.storage.get_table new_tid).entities.length cid
          ((s.w.storage.get_table tid0).cell r0 cid))
        ((s.w.storage.get_table new_tid).add_row_uninitialized e).2) :=
    foldl_set_cell_wf _ _ _ _
      (table_wf_add_row_uninitialized e (h7 _ (get_table_mem _ _ htidN)))
  have hg_old : ∀ t2 : table V,
      (((s.w.storage.set_table new_tid t2).set_table tid0
        ((s.w.storage.get_table tid0).remove_row_swap_nodestroy r0).2).get_table tid0) =
      ((s.w.storage.get_table tid0).remove_row_swap_nodestroy r0).2 := by
    intro t2
    exact get_table_set_self _ _ _ (by rw [set_table_tables_length]; exact htid0)
  have hg_new : ∀ t2 : table V,
      (((s.w.storage.set_table new_tid t2).set_table tid0
        ((s.w.storage.get_table tid0).remove_row_swap_nodestroy r0).2).get_table new_tid) =
      (s.w.storage.set_table new_tid t2).get_table new_tid := by
    intro t2
    exact get_table_set_ne _ _ (fun hh => hne hh.symm)
  have hg_new2 : ∀ t2 : table V,
      ((s.w.storage.set_table new_tid t2).get_table new_tid) = t2 := by
    intro t2
    exact get_table_set_self _ _ _ htidN
  have hRowlen : ∀ r', r' < (s.w.storage.get_table new_tid).entities.length →
      ((s.w.storage.get_table new_tid).entities ++ [e]).getD r' ⟨0, 0⟩ =
      (s.w.storage.get_table new_tid).entities.getD r' ⟨0, 0⟩ := by
    intro r' hr'
    exact List.getD_append _ _ _ _ hr'
  by_cases hlast : r0 = (s.w.storage.get_table tid0).entities.length - 1
  · -- the migrated entity sat in the last row: nothing is swapped in
    have hswap : ((s.w.storage.get_table tid0).remove_row_swap_nodestroy r0).1 = none := by
      simp only [table.remove_row_swap_nodestroy]
      rw [if_neg (not_not_intro hlast)]
    have hsys : (⟨(s.w.migrate_entity_to_table e new_tid).2, s.issued⟩ : sys V) =
        ⟨{ entities := s.w.entities,
           registry := s.w.registry,
           storage := (s.w.storage.set_table new_tid
             ((intersect_sorted_ids (s.w.storage.get_table tid0).key
                 ((s.w.storage.get_table new_tid).add_row_uninitialized e).2.key).foldl
               (fun nt cid => nt.set_cell (s.w.storage.get_table new_tid).entities.length
                 cid ((s.w.storage.get_table tid0).cell r0 cid))
               ((s.w.storage.get_table new_tid).add_row_uninitialized e).2)).set_table tid0
             ((s.w.storage.get_table tid0).remove_row_swap_nodestroy r0).2,
           empty_table := s.w.empty_table,
           locations := s.w.locations.set e.index
             ⟨some new_tid, (s.w.storage.get_table new_tid).entities.length⟩,
           version := s.w.version + 1 },
          s.issued⟩ := by
      simp only [world.migrate_entity_to_table, hloc, Option.getD_some, hswap]
      rfl
    refine ⟨?_, ?_⟩
    swap
    · have hW : (s.w.migrate_entity_to_table e new_tid).2.locations =
          s.w.locations.set e.index
            ⟨some new_tid, (s.w.storage.get_table new_tid).entities.length⟩ :=
        congrArg (fun z : sys V => z.w.locations) hsys
      rw [hW, getD_set_self _ _ _ _ (by rw [h1]; exact hlt)]
    rw [hsys]
    constructor
    · dsimp only
      rw [List.length_set]
      exact h1
    · exact h2
    · exact h3
    · exact h4
    · exact h5
    · dsimp only
      rw [set_table_tables_length, set_table_tables_length]
      exact h6
    · intro t ht
      dsimp only at ht
      rcases mem_set_table _ _ _ _ ht with ht' | rfl
      · rcases mem_set_table _ _ _ _ ht' with hm | rfl
        · exact h7 t hm
        · exact hNT2wf
      · exact table_wf_remove_row_swap_nodestroy _ (h7 _ (get_table_mem _ _ htid0))
    · intro tid' r' hr'
      dsimp only at hr'
      unfold row_ok row_ent
      dsimp only
      by_cases hO : tid' = tid0
      · rw [hO] at hr' ⊢
        rw [hg_old] at hr' ⊢
        rw [hlenO] at hr'
        have hgetD : ((s.w.storage.get_table tid0).remove_row_swap_nodestroy r0).2.entities.getD
            r' ⟨0, 0⟩ = (s.w.storage.get_table tid0).entities.getD r' ⟨0, 0⟩ := by
          simp only [table.remove_row_swap_nodestroy]
          exact getD_set_dropLast_ne _ _ _ _ _ hr' (by omega)
        rw [hgetD]
        obtain ⟨ra, rb, rc, rd⟩ := h8 tid0 r' (by omega)
        unfold row_ent at ra rb rc rd
        have hne_e : ((s.w.storage.get_table tid0).entities.getD r' ⟨0, 0⟩).index ≠
            e.index := by
          intro hh
          rw [hh, hloc0] at rd
          have : r0 = r' := by injection rd
          omega
        refine ⟨ra, rb, rc, ?_⟩
        rw [getD_set_ne _ _ _ (fun hh => hne_e hh.symm)]
        exact rd
      · by_cases hN : tid' = new_tid
        · rw [hN] at hr' ⊢
          rw [hg_new, hg_new2] at hr' ⊢
          rw [hNT2ent] at hr' ⊢
          rw [List.length_append, List.length_cons, List.length_nil] at hr'
          by_cases hrold : r' < (s.w.storage.get_table new_tid).entities.length
          · rw [hRowlen r' hrold]
            obtain ⟨ra, rb, rc, rd⟩ := h8 new_tid r' hrold
            unfold row_ent at ra rb rc rd
            have hne_e : ((s.w.storage.get_table new_tid).entities.getD r' ⟨0, 0⟩).index ≠
                e.index := by
              intro hh
              rw [hh, hloc0] at rd
              have htt : some tid0 = some new_tid := by injection rd
              exact hne (by injection htt with hy; exact hy.symm)
            refine ⟨ra, rb, rc, ?_⟩
            rw [getD_set_ne _ _ _ (fun hh => hne_e hh.symm)]
            exact rd
          · have hreq : r' = (s.w.storage.get_table new_tid).entities.length := by omega
            subst hreq
            rw [getD_concat_self]
            refine ⟨hlt, hgen, hni, ?_⟩
            rw [getD_set_self _ _ _ _ (by rw [h1]; exact hlt)]
        · rw [get_table_set_ne _ _ (fun hh => hO hh.symm),
            get_table_set_ne _ _ (fun hh => hN hh.symm)] at hr' ⊢
          obtain ⟨ra, rb, rc, rd⟩ := h8 tid' r' hr'
          unfold row_ent at ra rb rc rd
          have hne_e : ((s.w.storage.get_table tid').entities.getD r' ⟨0, 0⟩).index ≠
              e.index := by
            intro hh
            rw [hh, hloc0] at rd
            have htt : some tid0 = some tid' := by injection rd
            exact hO (by injection htt with hy; exact hy.symm)
          refine ⟨ra, rb, rc, ?_⟩
          rw [getD_set_ne _ _ _ (fun hh => hne_e hh.symm)]
          exact rd
    · intro i hi hni'
      dsimp only at hi hni' ⊢
      unfold slot_ok
      dsimp only
      by_cases hie : i = e.index
      · subst hie
        refine ⟨new_tid, (s.w.storage.get_table new_tid).entities.length, ?_, ?_, ?_, ?_⟩
        · rw [getD_set_self _ _ _ _ (by rw [h1]; exact hlt)]
        · rw [set_table_tables_length, set_table_tables_length]
          exact htidN
        · rw [hg_new, hg_new2, hNT2ent, List.length_append]
          simp
        · rw [hg_new, hg_new2, hNT2ent, getD_concat_self, hgen]
      · obtain ⟨tid_i, r_i, hloc_i, hlt_i, hr_i, hent_i⟩ := h9 i hi hni'
        refine ⟨tid_i, r_i, ?_, ?_, ?_, ?_⟩
        · rw [getD_set_ne _ _ _ (fun hh => hie hh.symm)]
          exact hloc_i
        · rw [set_table_tables_length, set_table_tables_length]
          exact hlt_i
        · by_cases hO : tid_i = tid0
          · rw [hO] at hent_i hr_i ⊢
            rw [hg_old, hlenO]
            have hri_ne : r_i ≠ r0 := by
              intro hh
              subst hh
              rw [hentE] at hent_i
              exact hie (congrArg ent.index hent_i).symm
            omega
          · by_cases hN : tid_i = new_tid
            · rw [hN] at hent_i hr_i ⊢
              rw [hg_new, hg_new2, hNT2ent, List.length_append]
              simp only [List.length_cons, List.length_nil]
              omega
            · rw [get_table_set_ne _ _ (fun hh => hO hh.symm),
                get_table_set_ne _ _ (fun hh => hN hh.symm)]
              exact hr_i
        · by_cases hO : tid_i = tid0
          · rw [hO] at hent_i hr_i ⊢
            rw [hg_old]
            have hri_ne : r_i ≠ r0 := by
              intro hh
              subst hh
              rw [hentE] at hent_i
              exact hie (congrArg ent.index hent_i).symm
            have hgetD : ((s.w.storage.get_table tid0).remove_row_swap_nodestroy
                r0).2.entities.getD r_i ⟨0, 0⟩ =
                (s.w.storage.get_table tid0).entities.getD r_i ⟨0, 0⟩ := by
              simp only [table.remove_row_swap_nodestroy]
              exact getD_set_dropLast_ne _ _ _ _ _ (by omega) hri_ne
            rw [hgetD]
            exact hent_i
          · by_cases hN : tid_i = new_tid
            · rw [hN] at hent_i hr_i ⊢
              rw [hg_new, hg_new2, hNT2ent, hRowlen r_i hr_i]
              exact hent_i
            · rw [get_table_set_ne _ _ (fun hh => hO hh.symm),
                get_table_set_ne _ _ (fun hh => hN hh.symm)]
              exact hent_i
    · intro j hj
      dsimp only at hj ⊢
      have hje : j ≠ e.index := fun hh => hni (hh ▸ hj)
      rw [getD_set_ne _ _ _ (fun hh => hje hh.symm)]
      exact h10 j hj
  · -- the migrated entity sat in a non-last row: the last entity is swapped in
    set fent : ent := (s.w.storage.get_table tid0).entities.getD
      ((s.w.storage.get_table tid0).entities.length - 1) ⟨0, 0⟩ with hfent
    have hswap : ((s.w.storage.get_table tid0).remove_row_swap_nodestroy r0).1 =
        some fent := by
      simp only [table.remove_row_swap_nodestroy]
      rw [if_pos hlast, get?_eq_some_getD _ _ (⟨0, 0⟩ : ent) (by omega)]
    obtain ⟨fa, fb, fc, fd⟩ := h8 tid0
      ((s.w.storage.get_table tid0).entities.length - 1) (by omega)
    unfold row_ent at fa fb fc fd
    rw [← hfent] at fa fb fc fd
    have hfne : fent.index ≠ e.index := by
      intro hh
      rw [hh, hloc0] at fd
      have : r0 = (s.w.storage.get_table tid0).entities.length - 1 := by injection fd
      exact hlast this
    have hsys : (⟨(s.w.migrate_entity_to_table e new_tid).2, s.issued⟩ : sys V) =
        ⟨{ entities := s.w.entities,
           registry := s.w.registry,
           storage := (s.w.storage.set_table new_tid
             ((intersect_sorted_ids (s.w.storage.get_table tid0).key
                 ((s.w.storage.get_table new_tid).add_row_uninitialized e).2.key).foldl
               (fun nt cid => nt.set_cell (s.w.storage.get_table new_tid).entities.length
                 cid ((s.w.storage.get_table tid0).cell r0 cid))
               ((s.w.storage.get_table new_tid).add_row_uninitialized e).2)).set_table tid0
             ((s.w.storage.get_table tid0).remove_row_swap_nodestroy r0).2,
           empty_table := s.w.empty_table,
           locations := (s.w.locations.set fent.index ⟨some tid0, r0⟩).set e.index
             ⟨some new_tid, (s.w.storage.get_table new_tid).entities.length⟩,
           version := s.w.version + 1 },
          s.issued⟩ := by
      simp only [world.migrate_entity_to_table, hloc, Option.getD_some, hswap]
      rfl
    refine ⟨?_, ?_⟩
    swap
    · have hW : (s.w.migrate_entity_to_table e new_tid).2.locations =
          (s.w.locations.set fent.index ⟨some tid0, r0⟩).set e.index
            ⟨some new_tid, (s.w.storage.get_table new_tid).entities.length⟩ :=
        congrArg (fun z : sys V => z.w.locations) hsys
      rw [hW, getD_set_self _ _ _ _ (by rw [List.length_set, h1]; exact hlt)]
    rw [hsys]
    constructor
    · dsimp only
      rw [List.length_set, List.length_set]
      exact h1
    · exact h2
    · exact h3
    · exact h4
    · exact h5
    · dsimp only
      rw [set_table_tables_length, set_table_tables_length]
      exact h6
    · intro t ht
      dsimp only at ht
      rcases mem_set_table _ _ _ _ ht with ht' | rfl
      · rcases mem_set_table _ _ _ _ ht' with hm | rfl
        · exact h7 t hm
        · exact hNT2wf
      · exact table_wf_remove_row_swap_nodestroy _ (h7 _ (get_table_mem _ _ htid0))
    · intro tid' r' hr'
      dsimp only at hr'
      unfold row_ok row_ent
      dsimp only
      by_cases hO : tid' = tid0
      · rw [hO] at hr' ⊢
        rw [hg_old] at hr' ⊢
        rw [hlenO] at hr'
        by_cases hrr : r' = r0
        · subst hrr
          have hgetD : ((s.w.storage.get_table tid0).remove_row_swap_nodestroy
              r').2.entities.getD r' ⟨0, 0⟩ = fent := by
            simp only [table.remove_row_swap_nodestroy]
            exact getD_set_dropLast_self _ _ _ _ hr'
          rw [hgetD]
          refine ⟨fa, fb, fc, ?_⟩
          rw [getD_set_ne _ _ _ (fun hh => hfne hh.symm),
            getD_set_self _ _ _ _ (by rw [h1]; exact fa)]
        · have hgetD : ((s.w.storage.get_table tid0).remove_row_swap_nodestroy
              r0).2.entities.getD r' ⟨0, 0⟩ =
              (s.w.storage.get_table tid0).entities.getD r' ⟨0, 0⟩ := by
            simp only [table.remove_row_swap_nodestroy]
            exact getD_set_dropLast_ne _ _ _ _ _ hr' hrr
          rw [hgetD]
          obtain ⟨ra, rb, rc, rd⟩ := h8 tid0 r' (by omega)
          unfold row_ent at ra rb rc rd
          have hne_e : ((s.w.storage.get_table tid0).entities.getD r' ⟨0, 0⟩).index ≠
              e.index := by
            intro hh
            rw [hh, hloc0] at rd
            have : r0 = r' := by injection rd
            omega
          have hne_f : ((s.w.storage.get_table tid0).entities.getD r' ⟨0, 0⟩).index ≠
              fent.index := by
            intro hh
            rw [hh, fd] at rd
            have : (s.w.storage.get_table tid0).entities.length - 1 = r' := by
              injection rd
            omega
          refine ⟨ra, rb, rc, ?_⟩
          rw [getD_set_ne _ _ _ (fun hh => hne_e hh.symm),
            getD_set_ne _ _ _ (fun hh => hne_f hh.symm)]
          exact rd
      · by_cases hN : tid' = new_tid
        · rw [hN] at hr' ⊢
          rw [hg_new, hg_new2] at hr' ⊢
          rw [hNT2ent] at hr' ⊢
          rw [List.length_append, List.length_cons, List.length_nil] at hr'
          by_cases hrold : r' < (s.w.storage.get_table new_tid).entities.length
          · rw [hRowlen r' hrold]
            obtain ⟨ra, rb, rc, rd⟩ := h8 new_tid r' hrold
            unfold row_ent at ra rb rc rd
            have hne_e : ((s.w.storage.get_table new_tid).entities.getD r' ⟨0, 0⟩).index ≠
                e.index := by
              intro hh
              rw [hh, hloc0] at rd
              have htt : some tid0 = some new_tid := by injection rd
              exact hne (by injection htt with hy; exact hy.symm)
            have hne_f : ((s.w.storage.get_table new_tid).entities.getD r' ⟨0, 0⟩).index ≠
                fent.index := by
              intro hh
              rw [hh, fd] at rd
              have htt : some tid0 = some new_tid := by injection rd
              exact hne (by injection htt with hy; exact hy.symm)
            refine ⟨ra, rb, rc, ?_⟩
            rw [getD_set_ne _ _ _ (fun hh => hne_e hh.symm),
              getD_set_ne _ _ _ (fun hh => hne_f hh.symm)]
            exact rd
          · have hreq : r' = (s.w.storage.get_table new_tid).entities.length := by omega
            subst hreq
            rw [getD_concat_self]
            refine ⟨hlt, hgen, hni, ?_⟩
            rw [getD_set_self _ _ _ _ (by rw [List.length_set, h1]; exact hlt)]
        · rw [get_table_set_ne _ _ (fun hh => hO hh.symm),
            get_table_set_ne _ _ (fun hh => hN hh.symm)] at hr' ⊢
          obtain ⟨ra, rb, rc, rd⟩ := h8 tid' r' hr'
          unfold row_ent at ra rb rc rd
          have hne_e : ((s.w.storage.get_table tid').entities.getD r' ⟨0, 0⟩).index ≠
              e.index := by
            intro hh
            rw [hh, hloc0] at rd
            have htt : some tid0 = some tid' := by injection rd
            exact hO (by injection htt with hy; exact hy.symm)
          have hne_f : ((s.w.storage.get_table tid').entities.getD r' ⟨0, 0⟩).index ≠
              fent.index := by
            intro hh
            rw [hh, fd] at rd
            have htt : some tid0 = some tid' := by injection rd
            exact hO (by injection htt with hy; exact hy.symm)
          refine ⟨ra, rb, rc, ?_⟩
          rw [getD_set_ne _ _ _ (fun hh => hne_e hh.symm),
            getD_set_ne _ _ _ (fun hh => hne_f hh.symm)]
          exact rd
    · intro i hi hni'
      dsimp only at hi hni' ⊢
      unfold slot_ok
      dsimp only
      by_cases hie : i = e.index
      · subst hie
        refine ⟨new_tid, (s.w.storage.get_table new_tid).entities.length, ?_, ?_, ?_, ?_⟩
        · rw [getD_set_self _ _ _ _ (by rw [List.length_set, h1]; exact hlt)]
        · rw [set_table_tables_length, set_table_tables_length]
          exact htidN
        · rw [hg_new, hg_new2, hNT2ent, List.length_append]
          simp
        · rw [hg_new, hg_new2, hNT2ent, getD_concat_self, hgen]
      · by_cases hif : i = fent.index
        · refine ⟨tid0, r0, ?_, ?_, ?_, ?_⟩
          · rw [hif, getD_set_ne _ _ _ (fun hh => hfne hh.symm),
              getD_set_self _ _ _ _ (by rw [h1]; exact fa)]
          · rw [set_table_tables_length, set_table_tables_length]
            exact htid0
          · rw [hg_old, hlenO]
            omega
          · rw [hg_old]
            have hgetD : ((s.w.storage.get_table tid0).remove_row_swap_nodestroy
                r0).2.entities.getD r0 ⟨0, 0⟩ = fent := by
              simp only [table.remove_row_swap_nodestroy]
              exact getD_set_dropLast_self _ _ _ _ (by omega)
            rw [hgetD, hif, fb]
        · obtain ⟨tid_i, r_i, hloc_i, hlt_i, hr_i, hent_i⟩ := h9 i hi hni'
          refine ⟨tid_i, r_i, ?_, ?_, ?_, ?_⟩
          · rw [getD_set_ne _ _ _ (fun hh => hie hh.symm),
              getD_set_ne _ _ _ (fun hh => hif hh.symm)]
            exact hloc_i
          · rw [set_table_tables_length, set_table_tables_length]
            exact hlt_i
          · by_cases hO : tid_i = tid0
            · rw [hO] at hent_i hr_i ⊢
              rw [hg_old, hlenO]
              have hri_ne : r_i ≠ r0 := by
                intro hh
                subst hh
                rw [hentE] at hent_i
                exact hie (congrArg ent.index hent_i).symm
              have hri_ne_l : r_i ≠ (s.w.storage.get_table tid0).entities.length - 1 := by
                intro hh
                rw [hh] at hent_i
                rw [← hfent] at hent_i
                exact hif (congrArg ent.index hent_i).symm
              omega
            · by_cases hN : tid_i = new_tid
              · rw [hN] at hent_i hr_i ⊢
                rw [hg_new, hg_new2, hNT2ent, List.length_append]
                simp only [List.length_cons, List.length_nil]
                omega
              · rw [get_table_set_ne _ _ (fun hh => hO hh.symm),
                  get_table_set_ne _ _ (fun hh => hN hh.symm)]
                exact hr_i
          · by_cases hO : tid_i = tid0
            · rw [hO] at hent_i hr_i ⊢
              rw [hg_old]
              have hri_ne : r_i ≠ r0 := by
                intro hh
                subst hh
                rw [hentE] at hent_i
                exact hie (congrArg ent.index hent_i).symm
              have hri_ne_l : r_i ≠ (s.w.storage.get_table tid0).entities.length - 1 := by
                intro hh
                rw [hh] at hent_i
                rw [← hfent] at hent_i
                exact hif (congrArg ent.index hent_i).symm
              have hgetD : ((s.w.storage.get_table tid0).remove_row_swap_nodestroy
                  r0).2.entities.getD r_i ⟨0, 0⟩ =
                  (s.w.storage.get_table tid0).entities.getD r_i ⟨0, 0⟩ := by
                simp only [table.remove_row_swap_nodestroy]
                exact getD_set_dropLast_ne _ _ _ _ _ (by omega) hri_ne
              rw [hgetD]
              exact hent_i
            · by_cases hN : tid_i = new_tid
              · rw [hN] at hent_i hr_i ⊢
                rw [hg_new, hg_new2, hNT2ent, hRowlen r_i hr_i]
                exact hent_i
              · rw [get_table_set_ne _ _ (fun hh => hO hh.symm),
                  get_table_set_ne _ _ (fun hh => hN hh.symm)]
                exact hent_i
    · intro j hj
      dsimp only at hj ⊢
      have hje : j ≠ e.index := fun hh => hni (hh ▸ hj)
      have hjf : j ≠ fent.index := fun hh => fc (hh ▸ hj)
      rw [getD_set_ne _ _ _ (fun hh => hje hh.symm),
        getD_set_ne _ _ _ (fun hh => hjf hh.symm)]
      exact h10 j hj

theorem inv_add {V : Type} [Inhabited V] {s : sys V} (e : ent) (cid : Nat) (v : Option V)
    (he : e ∈ s.issued) (h : Inv s) :
    Inv ⟨s.w.add_component e cid v, s.issued⟩ := by
  by_cases halive : s.w.entities.alive e = true
  · obtain ⟨-, hlt, hgen⟩ := alive_iff.mp halive
    have hni : e.index ∉ s.w.entities.fragment := (h.issued_ok e he).2.2 hgen.symm
    obtain ⟨old_tid, old_row, hloc, htid0, hr0, hent0⟩ := h.use_loc e.index hlt hni
    by_cases hhas : (s.w.storage.get_table old_tid).has cid = true
    · have hid : s.w.add_component e cid v = s.w := by
        simp only [world.add_component, world.alive, halive, hloc, Option.getD_some, hhas]
        simp
      rw [hid]
      exact h
    · have hhasF : (s.w.storage.get_table old_tid).has cid = false := by
        revert hhas
        cases (s.w.storage.get_table old_tid).has cid <;> simp
      have hcid_old : cid ∉ (s.w.storage.get_table old_tid).key := by
        simpa [table.has] using hhasF
      obtain ⟨gA, gB, gC, gD, gE, gF⟩ := get_or_create_table_spec s.w.registry s.w.storage
        ((s.w.storage.get_table old_tid).key ++ [cid])
      set st1 := (s.w.storage.get_or_create_table s.w.registry
        ((s.w.storage.get_table old_tid).key ++ [cid])).2 with hst1
      set ntid := (s.w.storage.get_or_create_table s.w.registry
        ((s.w.storage.get_table old_tid).key ++ [cid])).1 with hntid
      set w1 : world V := { entities := s.w.entities, registry := s.w.registry,
                            storage := st1, empty_table := s.w.empty_table,
                            locations := s.w.locations,
                            version := s.w.version } with hw1
      have hInv1 : Inv ⟨w1, s.issued⟩ :=
        inv_storage_goc ((s.w.storage.get_table old_tid).key ++ [cid]) s.w.version h
      have hne1 : ntid ≠ old_tid := by
        intro hh
        have hcid_new : cid ∈ (st1.get_table ntid).key := by
          rw [gC, canonicalise_mem]
          exact List.mem_append_right _ (List.mem_singleton_self _)
        rw [hh, gD old_tid htid0] at hcid_new
        exact hcid_old hcid_new
      obtain ⟨hInv2, hloc2⟩ := inv_migrate (s := ⟨w1, s.issued⟩) e ntid old_tid old_row
        he halive hloc gB hne1 hInv1
      set w2 : world V := (w1.migrate_entity_to_table e ntid).2 with hw2
      obtain ⟨tidX, rX, hlocX, htidX, hrX, hentX⟩ :=
        hInv2.use_loc e.index hlt hni
      have htidXX : ntid < w2.storage.tables.length := by
        rw [hlocX] at hloc2
        have htt : some tidX = some ntid := by injection hloc2
        have : tidX = ntid := by injection htt
        rw [← this]
        exact htidX
      have hwf2 : table_wf (w2.storage.get_table ntid) :=
        hInv2.twf _ (get_table_mem _ _ htidXX)
      cases v with
      | some vv =>
        have hfin := inv_replace_table (s := ⟨w2, s.issued⟩) ntid
          ((w2.storage.get_table ntid).copy_construct_at
            (w1.storage.get_table ntid).entities.length cid vv) (w2.version + 1)
          htidXX (set_cell_entities _ _ _ _) (table_wf_copy_construct_at _ _ _ hwf2) hInv2
        have hsys : s.w.add_component e cid (some vv) =
            { entities := w2.entities, registry := w2.registry,
              storage := w2.storage.set_table ntid
                ((w2.storage.get_table ntid).copy_construct_at
                  (w1.storage.get_table ntid).entities.length cid vv),
              empty_table := w2.empty_table, locations := w2.locations,
              version := w2.version + 1 } := by
          simp only [world.add_component, world.alive, halive, hloc, Option.getD_some,
            hhasF]
          simp only [Bool.false_eq_true, if_false, not_true, ite_false, ite_true,
            if_neg, Bool.not_true]
          rfl
        rw [hsys]
        exact hfin
      | none =>
        have hfin := inv_replace_table (s := ⟨w2, s.issued⟩) ntid
          ((w2.storage.get_table ntid).default_construct_at
            (w1.storage.get_table ntid).entities.length cid) (w2.version + 1)
          htidXX (default_construct_at_entities _ _ _)
          (table_wf_default_construct_at _ _ hwf2) hInv2
        have hsys : s.w.add_component e cid none =
            { entities := w2.entities, registry := w2.registry,
              storage := w2.storage.set_table ntid
                ((w2.storage.get_table ntid).default_construct_at
                  (w1.storage.get_table ntid).entities.length cid),
              empty_table := w2.empty_table, locations := w2.locations,
              version := w2.version + 1 } := by
          simp only [world.add_component, world.alive, halive, hloc, Option.getD_some,
            hhasF]
          simp only [Bool.false_eq_true, if_false, not_true, ite_false, ite_true,
            if_neg, Bool.not_true]
          rfl
        rw [hsys]
        exact hfin
  · have hfalse : s.w.entities.alive e = false := by
      revert halive
      cases s.w.entities.alive e <;> simp
    have hid : s.w.add_component e cid v = s.w := by
      simp [world.add_component, world.alive, hfalse]
    rw [hid]
    exact h

theorem inv_remove {V : Type} [Inhabited V] {s : sys V} (e : ent) (cid : Nat)
    (he : e ∈ s.issued) (h : Inv s) :
    Inv ⟨s.w.remove_component e cid, s.issued⟩ := by
  by_cases halive : s.w.entities.alive e = true
  · obtain ⟨-, hlt, hgen⟩ := alive_iff.mp halive
    have hni : e.index ∉ s.w.entities.fragment := (h.issued_ok e he).2.2 hgen.symm
    obtain ⟨old_tid, old_row, hloc, htid0, hr0, hent0⟩ := h.use_loc e.index hlt hni
    by_cases hhas : (s.w.storage.get_table old_tid).has cid = true
    · have hcid_old : cid ∈ (s.w.storage.get_table old_tid).key := by
        simpa [table.has] using hhas
      have hsorted : ((s.w.storage.get_table old_tid).key).Sorted (· < ·) :=
        (h.twf _ (get_table_mem _ _ htid0)).1
      have herase_sorted : ((s.w.storage.get_table old_tid).key.erase cid).Sorted (· < ·) :=
        List.Pairwise.sublist (List.erase_sublist _ _) hsorted
      obtain ⟨gA, gB, gC, gD, gE, gF⟩ := get_or_create_table_spec s.w.registry s.w.storage
        ((s.w.storage.get_table old_tid).key.erase cid)
      set st1 := (s.w.storage.get_or_create_table s.w.registry
        ((s.w.storage.get_table old_tid).key.erase cid)).2 with hst1
      set ntid := (s.w.storage.get_or_create_table s.w.registry
        ((s.w.storage.get_table old_tid).key.erase cid)).1 with hntid
      set w1 : world V := { entities := s.w.entities, registry := s.w.registry,
                            storage := st1, empty_table := s.w.empty_table,
                            locations := s.w.locations,
                            version := s.w.version } with hw1
      have hInv1 : Inv ⟨w1, s.issued⟩ :=
        inv_storage_goc ((s.w.storage.get_table old_tid).key.erase cid) s.w.version h
      have hkey_new : (st1.get_table ntid).key =
          (s.w.storage.get_table old_tid).key.erase cid := by
        rw [gC, canonicalise_eq_self herase_sorted]
      have hne1 : ntid ≠ old_tid := by
        intro hh
        have hkey_old : (st1.get_table old_tid).key =
            (s.w.storage.get_table old_tid).key := by rw [gD old_tid htid0]
        rw [hh, hkey_old] at hkey_new
        have : cid ∉ (s.w.storage.get_table old_tid).key.erase cid :=
          List.Nodup.not_mem_erase (sorted_lt_nodup hsorted)
        rw [← hkey_new] at this
        exact this hcid_old
      obtain ⟨hInv2, hloc2⟩ := inv_migrate (s := ⟨w1, s.issued⟩) e ntid old_tid old_row
        he halive hloc gB hne1 hInv1
      set w2 : world V := (w1.migrate_entity_to_table e ntid).2 with hw2
      have hsys : s.w.remove_component e cid =
          { entities := w2.entities, registry := w2.registry,
            storage := w2.storage,
            empty_table := w2.empty_table, locations := w2.locations,
            version := w2.version + 1 } := by
        simp only [world.remove_component, world.alive, halive, hloc, Option.getD_some,
          hhas]
        simp only [not_true, ite_false, ite_true, if_neg, Bool.not_true]
      rw [hsys]
      exact ⟨hInv2.loc_len, hInv2.frag_nodup, hInv2.frag_lt, hInv2.issued_ok,
        hInv2.empty_tid, hInv2.tables_ne, hInv2.twf, hInv2.row_back, hInv2.use_loc,
        hInv2.free_loc⟩
    · have hhasF : (s.w.storage.get_table old_tid).has cid = false := by
        revert hhas
        cases (s.w.storage.get_table old_tid).has cid <;> simp
      have hid : s.w.remove_component e cid = s.w := by
        simp only [world.remove_component, world.alive, halive, hloc, Option.getD_some,
          hhasF]
        simp
      rw [hid]
      exact h
  · have hfalse : s.w.entities.alive e = false := by
      revert halive
      cases s.w.entities.alive e <;> simp
    have hid : s.w.remove_component e cid = s.w := by
      simp [world.remove_component, world.alive, hfalse]
    rw [hid]
    exact h

/-- Every wrap-free public operation preserves the store invariant.  (The
unrestricted operations do not: a slot whose `uint32` generation counter
wraps back to the generation of a still-issued stale handle makes that
handle `alive()` again while its slot sits on the free list, after which a
`destroy_entity` through the stale handle pushes the slot index on the free
list a second time, breaking `frag_nodup`.) -/
theorem stepW_inv {V : Type} [Inhabited V] {s s' : sys V} (hs : StepW s s') (h : Inv s) :
    Inv s' := by
  cases hs with
  | register v => exact inv_register v h
  | create hcap => exact inv_create hcap h
  | destroy e he hnw => exact inv_destroy e he hnw h
  | add e cid v he => exact inv_add e cid v he h
  | remove e cid he => exact inv_remove e cid he h
  | reserve ids => exact inv_reserve ids h

/-- Every wrap-free reachable store state satisfies the invariant. -/
theorem reachW_inv {V : Type} [Inhabited V] {s : sys V} (h : ReachW s) : Inv s := by
  induction h with
  | refl => exact inv_sys0 V
  | tail hab hbc ih => exact stepW_inv hbc ih

/-! ### Table-shape invariant over unrestricted traces

Generation wrap-around can corrupt the free list on unrestricted traces
(see `C2_generation_wrap_counterexample`), but the archetype tables stay
well-formed through every operation regardless: the following storage
shape invariant is preserved by `Step` itself, with no wrap-freedom
assumption. -/

/-- Shape invariant of the table storage alone: at least the empty
archetype table exists, table `0` keeps the empty key, and every stored
table is well-formed. -/
def st_inv {V : Type} (st : world_storage V) : Prop :=
  0 < st.tables.length ∧ (st.get_table 0).key = [] ∧ ∀ t ∈ st.tables, table_wf t

/-- The default table returned by an out-of-range `get_table` is
well-formed. -/
theorem default_table_wf {V : Type} :
    table_wf ({ id := 0, key := [], entities := [], columns := [] } : table V) :=
  ⟨List.sorted_nil, rfl, by intro c hc; simp at hc⟩

/-- `get_table` returns a well-formed table whenever every stored table is
well-formed (out of range it returns the well-formed default). -/
theorem get_table_wf {V : Type} {st : world_storage V}
    (h : ∀ t ∈ st.tables, table_wf t) (tid : Nat) : table_wf (st.get_table tid) := by
  by_cases hlt : tid < st.tables.length
  · exact h _ (get_table_mem _ _ hlt)
  · unfold world_storage.get_table
    rw [List.getD_eq_default _ _ (Nat.le_of_not_lt hlt)]
    exact default_table_wf

/-- Writing back a table with an unchanged key does not change any table's
key. -/
theorem get_table_key_after_set {V : Type} (st : world_storage V) (tid j : Nat)
    (t' : table V) (hk : t'.key = (st.get_table tid).key) :
    ((st.set_table tid t').get_table j).key = (st.get_table j).key := by
  by_cases hj : tid = j
  · subst hj
    by_cases hlt : tid < st.tables.length
    · rw [get_table_set_self _ _ _ hlt, hk]
    · have hle := Nat.le_of_not_lt hlt
      unfold world_storage.set_table world_storage.get_table
      rw [List.getD_eq_default _ _ (by rw [List.length_set]; exact hle),
        List.getD_eq_default _ _ hle]
  · rw [get_table_set_ne _ _ hj]

/-- Writing back a well-formed table with an unchanged key preserves the
storage shape invariant. -/
theorem st_inv_set_table {V : Type} {st : world_storage V} (tid : Nat) (t' : table V)
    (hk : t'.key = (st.get_table tid).key) (hwf : table_wf t')
    (h : st_inv st) : st_inv (st.set_table tid t') := by
  obtain ⟨h1, h2, h3⟩ := h
  refine ⟨by rw [set_table_tables_length]; exact h1,
    by rw [get_table_key_after_set _ _ _ _ hk]; exact h2, ?_⟩
  intro t ht
  rcases mem_set_table _ _ _ _ ht with hm | rfl
  · exact h3 t hm
  · exact hwf

/-- `get_or_create_table` preserves the storage shape invariant. -/
theorem st_inv_goc {V : Type} [Inhabited V] (reg : List V) {st : world_storage V}
    (ids : List Nat) (h : st_inv st) : st_inv (st.get_or_create_table reg ids).2 := by
  obtain ⟨h1, h2, h3⟩ := h
  obtain ⟨gA, gB, gC, gD, gE, gF⟩ := get_or_create_table_spec reg st ids
  refine ⟨lt_of_lt_of_le h1 gA, by rw [gD 0 h1]; exact h2, ?_⟩
  intro t ht
  rcases gF t ht with hmem | ⟨hk, he, hc⟩
  · exact h3 t hmem
  · obtain ⟨tid, tkey, tent, tcols⟩ := t
    simp only at hk he hc
    subst hk; subst he; subst hc
    exact fresh_table_wf reg ids tid

/-- The storage after `destroy_entity` is either untouched or one
swap-remove write-back of the table the entity's location names. -/
theorem destroy_storage_cases {V : Type} (w : world V) (e : ent) :
    (w.destroy_entity e).storage = w.storage ∨
    ∃ tid, (w.destroy_entity e).storage =
      w.storage.set_table tid ((w.storage.get_table tid).remove_row_swap
        (w.locations.getD e.index default).row).2 := by
  simp only [world.destroy_entity]
  split
  · exact Or.inl rfl
  · dsimp only
    simp only [world.remove_row_dense_and_fixup]
    split
    · split
      · exact Or.inl rfl
      · rename_i tid heq
        exact Or.inr ⟨tid, rfl⟩
    · exact Or.inl rfl

/-- Two successive key-preserving table write-backs preserve the storage
shape invariant (the shape of a migration's storage update). -/
theorem st_inv_migrate_shape {V : Type} (st : world_storage V) (ntid otid : Nat)
    (t1 t2 : table V) (hk1 : t1.key = (st.get_table ntid).key)
    (hk2 : t2.key = (st.get_table otid).key)
    (hwf1 : table_wf t1) (hwf2 : table_wf t2) (h : st_inv st) :
    st_inv ((st.set_table ntid t1).set_table otid t2) := by
  refine st_inv_set_table _ _ ?_ hwf2 (st_inv_set_table _ _ hk1 hwf1 h)
  rw [get_table_key_after_set _ _ _ _ hk1, hk2]

/-- Migration preserves the storage shape invariant, for any destination
and any location contents. -/
theorem migrate_st_inv {V : Type} [Inhabited V] (w : world V) (e : ent) (ntid : Nat)
    (h : st_inv w.storage) : st_inv (w.migrate_entity_to_table e ntid).2.storage := by
  have hst : (w.migrate_entity_to_table e ntid).2.storage =
      (w.storage.set_table ntid
        ((intersect_sorted_ids
            (w.storage.get_table ((w.locations.getD e.index default).tid.getD 0)).key
            ((w.storage.get_table ntid).add_row_uninitialized e).2.key).foldl
          (fun nt cid => nt.set_cell
            ((w.storage.get_table ntid).add_row_uninitialized e).1 cid
            ((w.storage.get_table
                ((w.locations.getD e.index default).tid.getD 0)).cell
              (w.locations.getD e.index default).row cid))
          ((w.storage.get_table ntid).add_row_uninitialized e).2)).set_table
        ((w.locations.getD e.index default).tid.getD 0)
        ((w.storage.get_table
            ((w.locations.getD e.index default).tid.getD 0)).remove_row_swap_nodestroy
          (w.locations.getD e.index default).row).2 := rfl
  rw [hst]
  exact st_inv_migrate_shape _ _ _ _ _ (by rw [foldl_set_cell_key]; rfl) rfl
    (foldl_set_cell_wf _ _ _ _
      (table_wf_add_row_uninitialized e (get_table_wf h.2.2 _)))
    (table_wf_remove_row_swap_nodestroy _ (get_table_wf h.2.2 _)) h

/-- A table without columns (such as the empty archetype table or the
out-of-range default) has no readable cell. -/
theorem cell_columns_nil {V : Type} {t : table V} (h : t.columns = [])
    (row cid : Nat) : t.cell row cid = none := by
  unfold table.cell
  rw [h]
  rfl

/-- Migration repoints the entity's location at the fresh destination row,
whatever the previous location held, provided the slot index is in range
of the dense location array. -/
theorem migrate_locations_getD {V : Type} [Inhabited V] (w : world V) (e : ent)
    (ntid : Nat) (hlen : e.index < w.locations.length) :
    (w.migrate_entity_to_table e ntid).2.locations.getD e.index default =
      ⟨some ntid, (w.storage.get_table ntid).entities.length⟩ := by
  simp only [world.migrate_entity_to_table]
  split
  · exact getD_set_self _ _ _ _ (by rw [List.length_set]; exact hlen)
  · exact getD_set_self _ _ _ _ hlen

/-- Every public operation — wrap-free or not — preserves the storage
shape invariant. -/
theorem step_st_inv {V : Type} [Inhabited V] {s s' : sys V} (hs : Step s s')
    (h : st_inv s.w.storage) : st_inv s'.w.storage := by
  cases hs with
  | register v => exact h
  | create =>
    show st_inv (s.w.create_entity).2.storage
    have hst : (s.w.create_entity).2.storage =
        s.w.storage.set_table s.w.empty_table
          ((s.w.storage.get_table s.w.empty_table).add_row
            (s.w.entities.create_entity).1).2 := rfl
    rw [hst]
    exact st_inv_set_table _ _ rfl (table_wf_add_row _ (get_table_wf h.2.2 _)) h
  | destroy e he =>
    show st_inv (s.w.destroy_entity e).storage
    rcases destroy_storage_cases s.w e with hst | ⟨tid, hst⟩
    · rw [hst]; exact h
    · rw [hst]
      exact st_inv_set_table _ _ rfl (table_wf_remove_row_swap _ (get_table_wf h.2.2 _)) h
  | add e cid v he =>
    show st_inv (s.w.add_component e cid v).storage
    simp only [world.add_component]
    split
    · exact h
    · split
      · exact h
      · dsimp only
        cases v with
        | some vv =>
          exact st_inv_set_table _ _ (set_cell_key _ _ _ _)
            (table_wf_copy_construct_at _ _ _
              (get_table_wf (migrate_st_inv _ _ _ (st_inv_goc _ _ h)).2.2 _))
            (migrate_st_inv _ _ _ (st_inv_goc _ _ h))
        | none =>
          exact st_inv_set_table _ _ (default_construct_at_key _ _ _)
            (table_wf_default_construct_at _ _
              (get_table_wf (migrate_st_inv _ _ _ (st_inv_goc _ _ h)).2.2 _))
            (migrate_st_inv _ _ _ (st_inv_goc _ _ h))
  | remove e cid he =>
    show st_inv (s.w.remove_component e cid).storage
    simp only [world.remove_component]
    split
    · exact h
    · split
      · exact h
      · exact migrate_st_inv _ _ _ (st_inv_goc _ _ h)
  | reserve ids => exact st_inv_goc _ _ h

/-- The storage of every reachable store state — along unrestricted
traces — satisfies the shape invariant. -/
theorem reach_st_inv {V : Type} [Inhabited V] {s : sys V} (h : Reach s) :
    st_inv s.w.storage := by
  induction h with
  | refl =>
    refine ⟨by simp [sys0, world.init], rfl, ?_⟩
    intro t ht
    simp only [sys0, world.init] at ht
    rcases List.mem_singleton.mp ht with rfl
    exact ⟨List.sorted_nil, rfl, by intro c hc; simp at hc⟩
  | tail hab hbc ih => exact step_st_inv hbc ih

/-- C4 (confirmed): in every reachable store state every table keeps
`column.size == entities.size()` for each of its columns, and the four row
operations (`add_row`, `add_row_uninitialized`, `remove_row_swap`,
`remove_row_swap_nodestroy`) each preserve that equality across all columns
of the table simultaneously. -/
theorem C4_column_sizes_match_entities {V : Type} [Inhabited V] {s : sys V}
    (hr : Reach s) (t : table V) (ht : t ∈ s.w.storage.tables) :
    (∀ c ∈ t.columns, c.data.length = t.entities.length) ∧
    (∀ e : ent, ∀ c ∈ (t.add_row e).2.columns,
      c.data.length = (t.add_row e).2.entities.length) ∧
    (∀ e : ent, ∀ c ∈ (t.add_row_uninitialized e).2.columns,
      c.data.length = (t.add_row_uninitialized e).2.entities.length) ∧
    (∀ row : Nat, ∀ c ∈ (t.remove_row_swap row).2.columns,
      c.data.length = (t.remove_row_swap row).2.entities.length) ∧
    (∀ row : Nat, ∀ c ∈ (t.remove_row_swap_nodestroy row).2.columns,
      c.data.length = (t.remove_row_swap_nodestroy row).2.entities.length) := by
  have hwf : table_wf t := (reach_st_inv hr).2.2 t ht
  refine ⟨hwf.2.2, ?_, ?_, ?_, ?_⟩
  · intro e c hc
    exact (table_wf_add_row e hwf).2.2 c hc
  · intro e c hc
    exact (table_wf_add_row_uninitialized e hwf).2.2 c hc
  · intro row c hc
    exact (table_wf_remove_row_swap row hwf).2.2 c hc
  · intro row c hc
    exact (table_wf_remove_row_swap_nodestroy row hwf).2.2 c hc

/-- Witness for C4: the freshly constructed store is reachable, its single
empty-archetype table is a member of the table list, and the theorem's
conclusions hold for it. -/
theorem C4_column_sizes_match_entities_witness :
    (∀ c ∈ ({ id := 0, key := [], entities := [], columns := [] } : table Nat).columns,
      c.data.length =
        ({ id := 0, key := [], entities := [], columns := [] } : table Nat).entities.length) ∧
    (∀ e : ent,
      ∀ c ∈ (({ id := 0, key := [], entities := [], columns := [] } :
          table Nat).add_row e).2.columns,
      c.data.length = (({ id := 0, key := [], entities := [], columns := [] } :
          table Nat).add_row e).2.entities.length) ∧
    (∀ e : ent,
      ∀ c ∈ (({ id := 0, key := [], entities := [], columns := [] } :
          table Nat).add_row_uninitialized e).2.columns,
      c.data.length = (({ id := 0, key := [], entities := [], columns := [] } :
          table Nat).add_row_uninitialized e).2.entities.length) ∧
    (∀ row : Nat,
      ∀ c ∈ (({ id := 0, key := [], entities := [], columns := [] } :
          table Nat).remove_row_swap row).2.columns,
      c.data.length = (({ id := 0, key := [], entities := [], columns := [] } :
          table Nat).remove_row_swap row).2.entities.length) ∧
    (∀ row : Nat,
      ∀ c ∈ (({ id := 0, key := [], entities := [], columns := [] } :
          table Nat).remove_row_swap_nodestroy row).2.columns,
      c.data.length = (({ id := 0, key := [], entities := [], columns := [] } :
          table Nat).remove_row_swap_nodestroy row).2.entities.length) :=
  C4_column_sizes_match_entities (s := sys0 Nat) Relation.ReflTransGen.refl
    { id := 0, key := [], entities := [], columns := [] } (by simp [sys0, world.init])

/-- `get_location` on an alive handle whose slot index is in bounds reads
the dense side array directly. -/
theorem get_location_eq {V : Type} (w : world V) (f : ent) (l : location)
    (ha : w.entities.alive f = true) (hb : f.index < w.locations.length)
    (hl : w.locations.getD f.index default = l) : w.get_location f = l := by
  rw [world.get_location, if_neg (not_not_intro ha), if_neg (by omega)]
  exact hl

/-- The per-entity `(table, row)` record is in sync: every alive issued
handle's recorded location names a real table and row whose entities array
holds exactly that handle. -/
def loc_sync {V : Type} [Inhabited V] (s : sys V) : Prop :=
  ∀ e ∈ s.issued, s.w.alive e = true →
    ∃ tid r, s.w.get_location e = ⟨some tid, r⟩ ∧
      tid < s.w.storage.tables.length ∧
      r < (s.w.storage.get_table tid).entities.length ∧
      (s.w.storage.get_table tid).entities.getD r ⟨0, 0⟩ = e

theorem inv_loc_sync {V : Type} [Inhabited V] {s : sys V} (h : Inv s) : loc_sync s := by
  intro e he halive
  have halive' : s.w.entities.alive e = true := halive
  obtain ⟨hv, hlt, hgen⟩ := alive_iff.mp halive'
  have hni : e.index ∉ s.w.entities.fragment := (h.issued_ok e he).2.2 hgen.symm
  obtain ⟨tid, r, hloc, htid, hr, hent⟩ := h.use_loc e.index hlt hni
  refine ⟨tid, r, ?_, htid, hr, ?_⟩
  · exact get_location_eq _ _ _ halive' (by rw [h.loc_len]; exact hlt) hloc
  · rw [hent, hgen]

/-- A store with one created entity, reachable in one step. -/
def demo1 : sys Nat :=
  ⟨((world.init Nat).create_entity).2, [((world.init Nat).create_entity).1]⟩

theorem demo1_reach : Reach demo1 :=
  Relation.ReflTransGen.tail Relation.ReflTransGen.refl (Step.create (sys0 Nat))

theorem demo1_reachW : ReachW demo1 :=
  Relation.ReflTransGen.tail Relation.ReflTransGen.refl
    (StepW.create (sys0 Nat) (by norm_num [sys0, world.init, entity_manager.init]))

/-- C2 (corrected): in every wrap-free reachable store state the location
recorded for an alive issued entity's slot names a table and row whose
entities array holds exactly that handle; after destroying the entity at
row `r` (not the last row) of its table, the (valid) entity formerly at
the last row sits at row `r` and `get_location` for it reports `row = r`.
The sync property is preserved by `create_entity` provided the slot count
is below `2 ^ 32` (the `uint32` size cast does not wrap), by
`destroy_entity` provided the destroyed slot's `uint32` generation counter
does not wrap, and by `add_component` / `remove_component`
unconditionally.  `C2_generation_wrap_counterexample` shows the wrap
guards are necessary: a trace that cycles one slot `2 ^ 32` times makes a
stale issued handle `alive()` with an invalidated location. -/
theorem C2_locations_track_rows {V : Type} [Inhabited V] {s : sys V} (hr : ReachW s) :
    loc_sync s ∧
    (∀ e ∈ s.issued, ∀ tid r, s.w.alive e = true →
      s.w.get_location e = ⟨some tid, r⟩ →
      r + 1 < (s.w.storage.get_table tid).entities.length →
      ∀ f : ent,
        f = (s.w.storage.get_table tid).entities.getD
          ((s.w.storage.get_table tid).entities.length - 1) ⟨0, 0⟩ →
        f.valid = true →
        ((s.w.destroy_entity e).storage.get_table tid).entities.getD r ⟨0, 0⟩ = f ∧
        (s.w.destroy_entity e).get_location f = ⟨some tid, r⟩) ∧
    (s.w.entities.generations.length < 2 ^ 32 →
      loc_sync ⟨(s.w.create_entity).2, (s.w.create_entity).1 :: s.issued⟩) ∧
    (∀ e ∈ s.issued, ∀ cid : Nat, ∀ v : Option V,
      (s.w.entities.generations.getD e.index 0 + 1 < 2 ^ 32 →
        loc_sync ⟨s.w.destroy_entity e, s.issued⟩) ∧
      loc_sync ⟨s.w.add_component e cid v, s.issued⟩ ∧
      loc_sync ⟨s.w.remove_component e cid, s.issued⟩) := by
  have h := reachW_inv hr
  refine ⟨inv_loc_sync h, ?_, fun hcap => inv_loc_sync (inv_create hcap h), ?_⟩
  · intro e he tid r halive hgloc hnl f hf hfv
    have halive' : s.w.entities.alive e = true := halive
    obtain ⟨hv, hlt, hgen⟩ := alive_iff.mp halive'
    have hni : e.index ∉ s.w.entities.fragment := (h.issued_ok e he).2.2 hgen.symm
    obtain ⟨tid', r', hloc, htid', hr', hent⟩ := h.use_loc e.index hlt hni
    have hb : ¬ s.w.locations.length ≤ e.index := by rw [h.loc_len]; omega
    rw [world.get_location, if_neg (not_not_intro halive'), if_neg hb, hloc] at hgloc
    have htt : some tid' = some tid := congrArg location.tid hgloc
    have hteq : tid' = tid := by injection htt
    have hreq : r' = r := congrArg location.row hgloc
    rw [hteq, hreq] at hloc
    rw [hteq] at htid'
    rw [hteq, hreq] at hr' hent
    subst hf
    set fent : ent := (s.w.storage.get_table tid).entities.getD
      ((s.w.storage.get_table tid).entities.length - 1) ⟨0, 0⟩ with hfent
    have hlast : r ≠ (s.w.storage.get_table tid).entities.length - 1 := by omega
    have hswap : ((s.w.storage.get_table tid).remove_row_swap r).1 = some fent := by
      simp only [table.remove_row_swap]
      rw [if_pos hlast, get?_eq_some_getD _ _ (⟨0, 0⟩ : ent) (by omega)]
    obtain ⟨fa, fb, fc, fd⟩ := h.row_back tid
      ((s.w.storage.get_table tid).entities.length - 1) (by omega)
    unfold row_ent at fa fb fc fd
    rw [← hfent] at fa fb fc fd
    have hfne : fent.index ≠ e.index := by
      intro hh
      rw [hh, hloc] at fd
      have : r = (s.w.storage.get_table tid).entities.length - 1 := by injection fd
      exact hlast this
    have hsys : s.w.destroy_entity e =
        { entities := { generations := s.w.entities.generations.set e.index
                          ((s.w.entities.generations.getD e.index 0 + 1) % 2 ^ 32),
                        fragment := s.w.entities.fragment ++ [e.index],
                        alive_count := (s.w.entities.alive_count + (2 ^ 32 - 1)) % 2 ^ 32 },
          registry := s.w.registry,
          storage := s.w.storage.set_table tid
            ((s.w.storage.get_table tid).remove_row_swap r).2,
          empty_table := s.w.empty_table,
          locations := (s.w.locations.set fent.index ⟨some tid, r⟩).set e.index ⟨none, 0⟩,
          version := s.w.version + 1 + 1 } := by
      simp only [world.destroy_entity, world.remove_row_dense_and_fixup,
        entity_manager.destroy_entity, halive', hloc, hswap, location.valid]
      simp [halive']
    constructor
    · rw [hsys]
      dsimp only
      rw [get_table_set_self _ _ _ htid']
      simp only [table.remove_row_swap]
      exact getD_set_dropLast_self _ _ _ _ (by omega)
    · rw [hsys]
      refine get_location_eq _ _ _ ?_ ?_ ?_
      · refine alive_iff.mpr ⟨hfv, ?_, ?_⟩
        · dsimp only
          rw [List.length_set]
          exact fa
        · dsimp only
          rw [getD_set_ne _ _ _ (fun hh => hfne hh.symm)]
          exact fb
      · dsimp only
        rw [List.length_set, List.length_set, h.loc_len]
        exact fa
      · dsimp only
        rw [getD_set_ne _ _ _ (fun hh => hfne hh.symm),
          getD_set_self _ _ _ _ (by rw [h.loc_len]; exact fa)]
  · intro e he cid v
    exact ⟨fun hnw => inv_loc_sync (inv_destroy e he hnw h),
      inv_loc_sync (inv_add e cid v he h),
      inv_loc_sync (inv_remove e cid he h)⟩

/-- Witness for C2: the one-entity store `demo1` is wrap-free reachable,
so every conjunct of the theorem holds for it. -/
theorem C2_locations_track_rows_witness :
    loc_sync demo1 ∧
    (∀ e ∈ demo1.issued, ∀ tid r, demo1.w.alive e = true →
      demo1.w.get_location e = ⟨some tid, r⟩ →
      r + 1 < (demo1.w.storage.get_table tid).entities.length →
      ∀ f : ent,
        f = (demo1.w.storage.get_table tid).entities.getD
          ((demo1.w.storage.get_table tid).entities.length - 1) ⟨0, 0⟩ →
        f.valid = true →
        ((demo1.w.destroy_entity e).storage.get_table tid).entities.getD r ⟨0, 0⟩ = f ∧
        (demo1.w.destroy_entity e).get_location f = ⟨some tid, r⟩) ∧
    (demo1.w.entities.generations.length < 2 ^ 32 →
      loc_sync ⟨(demo1.w.create_entity).2, (demo1.w.create_entity).1 :: demo1.issued⟩) ∧
    (∀ e ∈ demo1.issued, ∀ cid : Nat, ∀ v : Option Nat,
      (demo1.w.entities.generations.getD e.index 0 + 1 < 2 ^ 32 →
        loc_sync ⟨demo1.w.destroy_entity e, demo1.issued⟩) ∧
      loc_sync ⟨demo1.w.add_component e cid v, demo1.issued⟩ ∧
      loc_sync ⟨demo1.w.remove_component e cid, demo1.issued⟩) :=
  C2_locations_track_rows demo1_reachW

/-- `world::destroy_entity` changes the entity manager exactly as the
manager-level `destroy_entity` does. -/
theorem destroy_entity_entities {V : Type} (w : world V) (e : ent) :
    (w.destroy_entity e).entities = w.entities.destroy_entity e := by
  simp only [world.destroy_entity]
  split
  · rename_i hna
    rw [entity_manager.destroy_entity, if_neg hna]
  · dsimp only
    have hone : (if (w.locations.getD e.index default).valid = true
        then w.remove_row_dense_and_fixup e else w).entities = w.entities := by
      split
      · simp only [world.remove_row_dense_and_fixup]
        cases htid : (w.locations.getD e.index default).tid with
        | none => rfl
        | some tid => rfl
      · rfl
    rw [hone]

/-- Archetype migration never touches the entity manager. -/
theorem migrate_entities {V : Type} [Inhabited V] (w : world V) (e : ent) (nt : Nat) :
    (w.migrate_entity_to_table e nt).2.entities = w.entities := rfl

/-- `add_component` never touches the entity manager. -/
theorem add_component_entities {V : Type} [Inhabited V] (w : world V) (e : ent)
    (cid : Nat) (v : Option V) : (w.add_component e cid v).entities = w.entities := by
  simp only [world.add_component]
  split
  · rfl
  · split
    · rfl
    · dsimp only
      rw [migrate_entities]

/-- `remove_component` never touches the entity manager. -/
theorem remove_component_entities {V : Type} [Inhabited V] (w : world V) (e : ent)
    (cid : Nat) : (w.remove_component e cid).entities = w.entities := by
  simp only [world.remove_component]
  split
  · rfl
  · split
    · rfl
    · dsimp only
      rw [migrate_entities]

/-- Per-slot generations only grow (and the slot array only lengthens)
along any wrap-free public operation. -/
theorem stepW_gen_mono {V : Type} [Inhabited V] {a b : sys V} (hs : StepW a b) :
    a.w.entities.generations.length ≤ b.w.entities.generations.length ∧
    ∀ i, a.w.entities.generations.getD i 0 ≤ b.w.entities.generations.getD i 0 := by
  have hmgr_create : ∀ m : entity_manager,
      m.generations.length ≤ (m.create_entity).2.generations.length ∧
      ∀ i, m.generations.getD i 0 ≤ (m.create_entity).2.generations.getD i 0 := by
    intro m
    cases hfl : m.fragment.getLast? with
    | some idx =>
      rw [create_entity_pop hfl]
      exact ⟨le_rfl, fun i => le_rfl⟩
    | none =>
      rw [create_entity_fresh_raw hfl]
      dsimp only
      constructor
      · rw [List.length_append]
        omega
      · intro i
        by_cases hi : i < m.generations.length
        · rw [List.getD_append _ _ _ _ hi]
        · rw [List.getD_eq_default _ _ (by omega)]
          omega
  have hmgr_destroy : ∀ (m : entity_manager) (e : ent),
      m.generations.getD e.index 0 + 1 < 2 ^ 32 →
      (m.destroy_entity e).generations.length = m.generations.length ∧
      ∀ i, m.generations.getD i 0 ≤ (m.destroy_entity e).generations.getD i 0 := by
    intro m e hnw
    rw [entity_manager.destroy_entity]
    split
    · dsimp only
      refine ⟨List.length_set _ _ _, ?_⟩
      intro i
      by_cases hi : e.index = i
      · subst hi
        by_cases hlt : e.index < m.generations.length
        · rw [getD_set_self _ _ _ _ hlt, Nat.mod_eq_of_lt hnw]
          omega
        · rw [List.getD_eq_default _ _ (by omega),
            List.getD_eq_default _ _ (by rw [List.length_set]; omega)]
      · rw [getD_set_ne _ _ _ hi]
    · exact ⟨rfl, fun i => le_rfl⟩
  cases hs with
  | register v => exact ⟨le_rfl, fun i => le_rfl⟩
  | create hcap => exact hmgr_create a.w.entities
  | destroy e he hnw =>
    rw [destroy_entity_entities]
    obtain ⟨hl, hg⟩ := hmgr_destroy a.w.entities e hnw
    exact ⟨le_of_eq hl.symm, hg⟩
  | add e cid v he =>
    rw [add_component_entities]
    exact ⟨le_rfl, fun i => le_rfl⟩
  | remove e cid he =>
    rw [remove_component_entities]
    exact ⟨le_rfl, fun i => le_rfl⟩
  | reserve ids => exact ⟨le_rfl, fun i => le_rfl⟩

/-- Generation monotonicity along any chain of wrap-free public
operations. -/
theorem reachW_from_gen_mono {V : Type} [Inhabited V] {a b : sys V}
    (h : Relation.ReflTransGen StepW a b) :
    a.w.entities.generations.length ≤ b.w.entities.generations.length ∧
    ∀ i, a.w.entities.generations.getD i 0 ≤ b.w.entities.generations.getD i 0 := by
  induction h with
  | refl => exact ⟨le_rfl, fun i => le_rfl⟩
  | tail hab hbc ih =>
    obtain ⟨l1, g1⟩ := ih
    obtain ⟨l2, g2⟩ := stepW_gen_mono hbc
    exact ⟨le_trans l1 l2, fun i => le_trans (g1 i) (g2 i)⟩

/-- Destroying an alive handle makes that very handle dead — wrap or no
wrap: `(g + 1) % 2 ^ 32` never equals `g`. -/
theorem destroy_alive_false {V : Type} (w : world V) (e : ent)
    (ha : w.alive e = true) : (w.destroy_entity e).alive e = false := by
  have ha' : w.entities.alive e = true := ha
  obtain ⟨hv, hlt, hg⟩ := alive_iff.mp ha'
  show (w.destroy_entity e).entities.alive e = false
  rw [destroy_entity_entities, entity_manager.destroy_entity, if_pos ha']
  simp only [entity_manager.alive]
  dsimp only
  rw [getD_set_self _ _ _ _ hlt, hg]
  have hne : ((((e.generation + 1) % 2 ^ 32) == e.generation) : Bool) = false := by
    cases hq : (((e.generation + 1) % 2 ^ 32) == e.generation) with
    | false => rfl
    | true => exact absurd (eq_of_beq hq) (by omega)
  rw [hne, Bool.and_false]

/-- Two consecutive `create_entity` calls on a manager whose free list is
duplicate-free and in-bounds, and whose slot array is shorter than
`2 ^ 32` (the size cast cannot alias a recycled index), return handles
with distinct slot indices. -/
theorem consecutive_create_index_ne (m : entity_manager)
    (hnd : m.fragment.Nodup) (hflt : ∀ i ∈ m.fragment, i < m.generations.length)
    (hcap : m.generations.length < 2 ^ 32) :
    (m.create_entity).1.index ≠ ((m.create_entity).2.create_entity).1.index := by
  cases hfl1 : m.fragment.getLast? with
  | none =>
    have hemp : m.fragment = [] := List.getLast?_eq_none_iff.mp hfl1
    rw [create_entity_fresh_raw hfl1]
    dsimp only
    rw [create_entity_fresh_raw (m := { generations := m.generations ++ [0],
                                        fragment := m.fragment,
                                        alive_count := (m.alive_count + 1) % 2 ^ 32 })
      hfl1]
    dsimp only
    simp only [List.length_append, List.length_cons, List.length_nil]
    omega
  | some idx =>
    have hmem : idx ∈ m.fragment := List.mem_of_mem_getLast? (Option.mem_def.mpr hfl1)
    rw [create_entity_pop hfl1]
    dsimp only
    cases hfl2 : m.fragment.dropLast.getLast? with
    | none =>
      rw [create_entity_fresh_raw
        (m := { m with fragment := m.fragment.dropLast,
                       alive_count := (m.alive_count + 1) % 2 ^ 32 }) hfl2]
      dsimp only
      have := hflt idx hmem
      omega
    | some idx2 =>
      rw [create_entity_pop
        (m := { m with fragment := m.fragment.dropLast,
                       alive_count := (m.alive_count + 1) % 2 ^ 32 }) hfl2]
      dsimp only
      have hsplit : m.fragment.dropLast ++ [idx] = m.fragment :=
        List.dropLast_append_getLast? idx (Option.mem_def.mpr hfl1)
      have hnd2 : (m.fragment.dropLast ++ [idx]).Nodup := by rw [hsplit]; exact hnd
      have hnotin : idx ∉ m.fragment.dropLast := by
        rcases List.nodup_append.mp hnd2 with ⟨-, -, hdisj⟩
        intro hin
        exact hdisj hin (List.mem_singleton_self idx)
      have hmem2 : idx2 ∈ m.fragment.dropLast :=
        List.mem_of_mem_getLast? (Option.mem_def.mpr hfl2)
      intro hh
      rw [← hh] at hmem2
      exact hnotin hmem2

/-- C5 (corrected): in a wrap-free reachable store holding fewer than
`2 ^ 32` slots (the `uint32` size cast cannot alias), consecutive
`create_entity` calls return handles differing in slot index (hence in
index or generation); destroying an alive entity makes `alive` of that
handle false, unconditionally; and for an alive entity whose `uint32`
generation counter does not wrap on destruction (generation below
`2 ^ 32 - 1`), at any later state reachable from the destroyed store by
wrap-free public operations, a `create_entity` call that returns the same
slot index yields a handle with strictly greater generation than the
destroyed one.  `C5_generation_wrap_counterexample` shows the guard is
necessary: destroying a slot at generation `2 ^ 32 - 1` wraps the counter
and recycles the slot at generation `0`. -/
theorem C5_handle_uniqueness_and_recycling {V : Type} [Inhabited V] {s : sys V}
    (hr : ReachW s) :
    (s.w.entities.generations.length < 2 ^ 32 →
      (s.w.create_entity).1.index ≠ ((s.w.create_entity).2.create_entity).1.index ∨
      (s.w.create_entity).1.generation ≠
        ((s.w.create_entity).2.create_entity).1.generation) ∧
    (∀ e : ent, s.w.alive e = true → (s.w.destroy_entity e).alive e = false) ∧
    (∀ e : ent, s.w.alive e = true → e.generation + 1 < 2 ^ 32 →
      ∀ s' : sys V, Relation.ReflTransGen StepW ⟨s.w.destroy_entity e, s.issued⟩ s' →
        (s'.w.create_entity).1.index = e.index →
        e.generation < (s'.w.create_entity).1.generation) := by
  have h := reachW_inv hr
  refine ⟨fun hcap => Or.inl ?_, fun e ha => destroy_alive_false s.w e ha, ?_⟩
  · exact consecutive_create_index_ne s.w.entities h.frag_nodup h.frag_lt hcap
  · intro e ha hnw s' hstep hidx
    have ha' : s.w.entities.alive e = true := ha
    obtain ⟨hv, hlt, hg⟩ := alive_iff.mp ha'
    have hd_gens : (s.w.destroy_entity e).entities.generations.getD e.index 0 =
        e.generation + 1 := by
      rw [destroy_entity_entities, entity_manager.destroy_entity, if_pos ha']
      dsimp only
      rw [getD_set_self _ _ _ _ hlt, hg, Nat.mod_eq_of_lt hnw]
    have hd_len : e.index < (s.w.destroy_entity e).entities.generations.length := by
      rw [destroy_entity_entities, entity_manager.destroy_entity, if_pos ha']
      dsimp only
      rw [List.length_set]
      exact hlt
    obtain ⟨hlen, hmono⟩ := reachW_from_gen_mono hstep
    dsimp only at hlen hmono
    have h1 : e.generation + 1 ≤ s'.w.entities.generations.getD e.index 0 := by
      have h2 := hmono e.index
      rw [hd_gens] at h2
      exact h2
    have h3 : e.index < s'.w.entities.generations.length := lt_of_lt_of_le hd_len hlen
    cases hfl : s'.w.entities.fragment.getLast? with
    | some idx =>
      have hE : (s'.w.create_entity).1 =
          (⟨idx, s'.w.entities.generations.getD idx 0⟩ : ent) := by
        show (s'.w.entities.create_entity).1 = _
        rw [create_entity_pop hfl]
      rw [hE] at hidx ⊢
      dsimp only at hidx ⊢
      rw [hidx]
      omega
    | none =>
      have hE : (s'.w.create_entity).1 =
          (⟨s'.w.entities.generations.length % 2 ^ 32,
            (s'.w.entities.generations ++ [0]).getD
              (s'.w.entities.generations.length % 2 ^ 32) 0⟩ : ent) := by
        show (s'.w.entities.create_entity).1 = _
        rw [create_entity_fresh_raw hfl]
      rw [hE] at hidx ⊢
      dsimp only at hidx ⊢
      rw [hidx, List.getD_append _ _ _ _ h3]
      omega

/-- Witness for C5: the wrap-free reachable one-entity store `demo1`
satisfies all three conjuncts. -/
theorem C5_handle_uniqueness_and_recycling_witness :
    (demo1.w.entities.generations.length < 2 ^ 32 →
      (demo1.w.create_entity).1.index ≠
        ((demo1.w.create_entity).2.create_entity).1.index ∨
      (demo1.w.create_entity).1.generation ≠
        ((demo1.w.create_entity).2.create_entity).1.generation) ∧
    (∀ e : ent, demo1.w.alive e = true → (demo1.w.destroy_entity e).alive e = false) ∧
    (∀ e : ent, demo1.w.alive e = true → e.generation + 1 < 2 ^ 32 →
      ∀ s' : sys Nat,
        Relation.ReflTransGen StepW ⟨demo1.w.destroy_entity e, demo1.issued⟩ s' →
        (s'.w.create_entity).1.index = e.index →
        e.generation < (s'.w.create_entity).1.generation) :=
  C5_handle_uniqueness_and_recycling demo1_reachW

/-- `(t.add_row_uninitialized e).1` is the index of the appended row. -/
theorem add_row_uninitialized_fst {V : Type} (t : table V) (e : ent) :
    (t.add_row_uninitialized e).1 = t.entities.length := rfl

/-- The storage component of `migrate_entity_to_table`, made explicit. -/
theorem migrate_storage_eq {V : Type} [Inhabited V] (w : world V) (e : ent)
    (new_tid old_tid old_row : Nat)
    (hloc : w.locations.getD e.index default = ⟨some old_tid, old_row⟩) :
    (w.migrate_entity_to_table e new_tid).2.storage =
      (w.storage.set_table new_tid
        ((intersect_sorted_ids (w.storage.get_table old_tid).key
            ((w.storage.get_table new_tid).add_row_uninitialized e).2.key).foldl
          (fun nt cid => nt.set_cell
            ((w.storage.get_table new_tid).add_row_uninitialized e).1 cid
            ((w.storage.get_table old_tid).cell old_row cid))
          ((w.storage.get_table new_tid).add_row_uninitialized e).2)).set_table old_tid
        ((w.storage.get_table old_tid).remove_row_swap_nodestroy old_row).2 := by
  simp only [world.migrate_entity_to_table, hloc, Option.getD_some]

/-- C3 (confirmed): adding a new component to an alive entity preserves the
values of every component the entity already holds: after
`add_component<C>(e, v)`, `get_component<A>(e)` and `get_component<B>(e)`
return exactly the values read before the call — archetype migration
neither corrupts nor drops the columns shared between old and new
archetype.  (If the archetype already contains `C` the call is a no-op and
the reads are trivially unchanged.) -/
theorem C3_migration_preserves_components {V : Type} [Inhabited V] {s : sys V}
    (hr : Reach s) (e : ent) (he : e ∈ s.issued) (halive : s.w.alive e = true)
    (cidA cidB cidC : Nat) (a b : V) (v : Option V)
    (hA : s.w.get_component e cidA = some a)
    (hB : s.w.get_component e cidB = some b) :
    (s.w.add_component e cidC v).get_component e cidA = some a ∧
    (s.w.add_component e cidC v).get_component e cidB = some b := by
  have h0 := reach_st_inv hr
  suffices H : ∀ cid : Nat, ∀ x : V, s.w.get_component e cid = some x →
      (s.w.add_component e cidC v).get_component e cid = some x by
    exact ⟨H cidA a hA, H cidB b hB⟩
  intro cid x hx0
  have halive' : s.w.entities.alive e = true := halive
  obtain ⟨hv, hlt, hgen⟩ := alive_iff.mp halive'
  rcases hLd : s.w.locations.getD e.index default with ⟨otid, old_row⟩
  have hx1 : (s.w.storage.get_table (otid.getD 0)).cell old_row cid = some x := by
    have hx2 := hx0
    simp only [world.get_component, hLd] at hx2
    exact hx2
  obtain ⟨old_tid, rfl⟩ : ∃ t, otid = some t := by
    cases otid with
    | some t => exact ⟨t, rfl⟩
    | none =>
      exfalso
      have hwf0 : table_wf (s.w.storage.get_table 0) := get_table_wf h0.2.2 0
      have hc0 : (s.w.storage.get_table 0).columns = [] :=
        List.length_eq_zero.mp (by rw [hwf0.2.1, h0.2.1]; rfl)
      rw [Option.getD_none, cell_columns_nil hc0] at hx1
      exact Option.noConfusion hx1
  have hloc : s.w.locations.getD e.index default = ⟨some old_tid, old_row⟩ := hLd
  have hx : (s.w.storage.get_table old_tid).cell old_row cid = some x := hx1
  have htid0 : old_tid < s.w.storage.tables.length := by
    by_contra hcon
    have hdef : s.w.storage.get_table old_tid =
        { id := 0, key := [], entities := [], columns := [] } := by
      unfold world_storage.get_table
      rw [List.getD_eq_default _ _ (Nat.le_of_not_lt hcon)]
    rw [hdef, cell_columns_nil rfl] at hx
    exact Option.noConfusion hx
  have hlenloc : e.index < s.w.locations.length := by
    by_contra hcon
    rw [List.getD_eq_default _ _ (Nat.le_of_not_lt hcon)] at hLd
    have htd : (default : location).tid = some old_tid := congrArg location.tid hLd
    rw [show (default : location).tid = none from rfl] at htd
    exact Option.noConfusion htd
  have hwfT : table_wf (s.w.storage.get_table old_tid) := get_table_wf h0.2.2 old_tid
  have hcid_mem : cid ∈ (s.w.storage.get_table old_tid).key :=
    cell_some_mem_key hwfT.2.1 hx
  by_cases hhas : (s.w.storage.get_table old_tid).has cidC = true
  · have hid : s.w.add_component e cidC v = s.w := by
      simp only [world.add_component, world.alive, halive', hloc, Option.getD_some, hhas]
      simp
    rw [hid]
    exact hx0
  · have hhasF : (s.w.storage.get_table old_tid).has cidC = false := by
      revert hhas
      cases (s.w.storage.get_table old_tid).has cidC <;> simp
    have hcidC_old : cidC ∉ (s.w.storage.get_table old_tid).key := by
      simpa [table.has] using hhasF
    have hccne : cid ≠ cidC := fun hh => hcidC_old (hh ▸ hcid_mem)
    obtain ⟨gA, gB, gC, gD, gE, gF⟩ := get_or_create_table_spec s.w.registry s.w.storage
      ((s.w.storage.get_table old_tid).key ++ [cidC])
    set st1 := (s.w.storage.get_or_create_table s.w.registry
      ((s.w.storage.get_table old_tid).key ++ [cidC])).2 with hst1
    set ntid := (s.w.storage.get_or_create_table s.w.registry
      ((s.w.storage.get_table old_tid).key ++ [cidC])).1 with hntid
    set w1 : world V := { entities := s.w.entities, registry := s.w.registry,
                          storage := st1, empty_table := s.w.empty_table,
                          locations := s.w.locations,
                          version := s.w.version } with hw1
    have hws : w1.storage = st1 := rfl
    have hstinv1 : st_inv st1 :=
      st_inv_goc s.w.registry ((s.w.storage.get_table old_tid).key ++ [cidC]) h0
    have hne1 : ntid ≠ old_tid := by
      intro hh
      have hcid_new : cidC ∈ (st1.get_table ntid).key := by
        rw [gC, canonicalise_mem]
        exact List.mem_append_right _ (List.mem_singleton_self _)
      rw [hh, gD old_tid htid0] at hcid_new
      exact hcidC_old hcid_new
    have hloc2 : (w1.migrate_entity_to_table e ntid).2.locations.getD e.index default =
        ⟨some ntid, (w1.storage.get_table ntid).entities.length⟩ :=
      migrate_locations_getD w1 e ntid hlenloc
    set w2 : world V := (w1.migrate_entity_to_table e ntid).2 with hw2
    have hT1 : w1.storage.get_table old_tid = s.w.storage.get_table old_tid :=
      gD old_tid htid0
    have hstor : w2.storage =
        (w1.storage.set_table ntid
          ((intersect_sorted_ids (w1.storage.get_table old_tid).key
              ((w1.storage.get_table ntid).add_row_uninitialized e).2.key).foldl
            (fun nt cid => nt.set_cell
              ((w1.storage.get_table ntid).add_row_uninitialized e).1 cid
              ((w1.storage.get_table old_tid).cell old_row cid))
            ((w1.storage.get_table ntid).add_row_uninitialized e).2)).set_table old_tid
          ((w1.storage.get_table old_tid).remove_row_swap_nodestroy old_row).2 := by
      rw [hw2]
      exact migrate_storage_eq w1 e ntid old_tid old_row hloc
    set NT := w1.storage.get_table ntid with hNT
    set q2 : table V := (NT.add_row_uninitialized e).2 with hq2
    set L := intersect_sorted_ids (w1.storage.get_table old_tid).key q2.key with hL
    have hgt2 : w2.storage.get_table ntid =
        L.foldl (fun nt cid => nt.set_cell (NT.add_row_uninitialized e).1 cid
          ((w1.storage.get_table old_tid).cell old_row cid)) q2 := by
      rw [hstor, get_table_set_ne _ _ (fun hh => hne1 hh.symm),
        get_table_set_self _ _ _ (by rw [hws]; exact gB)]
    have hwfNT : table_wf NT := get_table_wf hstinv1.2.2 ntid
    have hwfq2 : table_wf q2 := table_wf_add_row_uninitialized e hwfNT
    have hkeyq2 : q2.key = NT.key := rfl
    have hentq2 : q2.entities = NT.entities ++ [e] := rfl
    have hrowlt : (NT.add_row_uninitialized e).1 < q2.entities.length := by
      show NT.entities.length < q2.entities.length
      rw [hentq2, List.length_append]
      simp only [List.length_cons, List.length_nil]
      omega
    have hsortedT : (s.w.storage.get_table old_tid).key.Sorted (· < ·) := hwfT.1
    have hsortedNT : NT.key.Sorted (· < ·) := hwfNT.1
    have hLnodup : L.Nodup := by
      rw [hL, hT1]
      exact (sorted_lt_nodup hsortedT).sublist (intersect_sorted_ids_sublist _ _)
    have hNTkey : NT.key = canonicalise ((s.w.storage.get_table old_tid).key ++ [cidC]) := by
      rw [hNT, hws, gC]
    have hmemNTkey : cid ∈ NT.key := by
      rw [hNTkey, canonicalise_mem]
      exact List.mem_append_left _ hcid_mem
    have hmemL : cid ∈ L := by
      rw [hL, hT1]
      rw [intersect_sorted_ids_mem hsortedT (hkeyq2 ▸ hsortedNT)]
      exact ⟨hcid_mem, by rw [hkeyq2]; exact hmemNTkey⟩
    have hsubL : ∀ c ∈ L, c ∈ q2.key := by
      intro c hc
      rw [hL, hT1] at hc
      rw [intersect_sorted_ids_mem hsortedT (hkeyq2 ▸ hsortedNT)] at hc
      exact hc.2
    have hcell2 : (w2.storage.get_table ntid).cell (NT.add_row_uninitialized e).1 cid =
        (w1.storage.get_table old_tid).cell old_row cid := by
      rw [hgt2]
      exact foldl_set_cell_cell_mem
        (fun c => (w1.storage.get_table old_tid).cell old_row c)
        ((NT.add_row_uninitialized e).1) L q2 hwfq2 hLnodup hsubL hrowlt cid hmemL
    have hcellval : (w2.storage.get_table ntid).cell (NT.add_row_uninitialized e).1 cid =
        some x := by
      rw [hcell2, hT1]
      exact hx
    have hwf2 : table_wf (w2.storage.get_table ntid) := by
      rw [hgt2]
      exact foldl_set_cell_wf _ _ _ _ hwfq2
    have htidXX : ntid < w2.storage.tables.length := by
      rw [hstor, set_table_tables_length, set_table_tables_length, hws]
      exact gB
    cases v with
    | some vv =>
      have hsys : s.w.add_component e cidC (some vv) =
          { entities := w2.entities, registry := w2.registry,
            storage := w2.storage.set_table ntid
              ((w2.storage.get_table ntid).copy_construct_at
                NT.entities.length cidC vv),
            empty_table := w2.empty_table, locations := w2.locations,
            version := w2.version + 1 } := by
        simp only [world.add_component, world.alive, halive', hloc, Option.getD_some,
          hhasF]
        simp only [Bool.false_eq_true, if_false, not_true, ite_false, ite_true,
          if_neg, Bool.not_true]
        rfl
      rw [hsys]
      simp only [world.get_component]
      rw [hloc2]
      dsimp only
      simp only [Option.getD_some]
      rw [get_table_set_self _ _ _ htidXX, table.copy_construct_at,
        cell_set_cell_ne hwf2.2.1 _ _ _ _ _ hccne]
      exact hcellval
    | none =>
      have hsys : s.w.add_component e cidC none =
          { entities := w2.entities, registry := w2.registry,
            storage := w2.storage.set_table ntid
              ((w2.storage.get_table ntid).default_construct_at
                NT.entities.length cidC),
            empty_table := w2.empty_table, locations := w2.locations,
            version := w2.version + 1 } := by
        simp only [world.add_component, world.alive, halive', hloc, Option.getD_some,
          hhasF]
        simp only [Bool.false_eq_true, if_false, not_true, ite_false, ite_true,
          if_neg, Bool.not_true]
        rfl
      rw [hsys]
      simp only [world.get_component]
      rw [hloc2]
      dsimp only
      simp only [Option.getD_some]
      rw [get_table_set_self _ _ _ htidXX,
        cell_default_construct_at_ne hwf2.2.1 _ _ _ _ hccne]
      exact hcellval

/-- A store with three registered components and one entity holding
components `0 = 7` and `1 = 9`, built by public operations. -/
def w3a : world Nat := ((world.init Nat).register_component 7).2

def w3b : world Nat := (w3a.register_component 9).2

def w3c : world Nat := (w3b.register_component 0).2

def e3 : ent := (w3c.create_entity).1

def w3d : world Nat := (w3c.create_entity).2

def w3e : world Nat := w3d.add_component e3 0 (some 7)

def w3f : world Nat := w3e.add_component e3 1 (some 9)

def demo3 : sys Nat := ⟨w3f, [e3]⟩

theorem demo3_reach : Reach demo3 := by
  have s1 : Reach (⟨w3a, []⟩ : sys Nat) :=
    Relation.ReflTransGen.tail Relation.ReflTransGen.refl (Step.register (sys0 Nat) 7)
  have s2 : Reach (⟨w3b, []⟩ : sys Nat) :=
    Relation.ReflTransGen.tail s1 (Step.register ⟨w3a, []⟩ 9)
  have s3 : Reach (⟨w3c, []⟩ : sys Nat) :=
    Relation.ReflTransGen.tail s2 (Step.register ⟨w3b, []⟩ 0)
  have s4 : Reach (⟨w3d, [e3]⟩ : sys Nat) :=
    Relation.ReflTransGen.tail s3 (Step.create ⟨w3c, []⟩)
  have s5 : Reach (⟨w3e, [e3]⟩ : sys Nat) :=
    Relation.ReflTransGen.tail s4
      (Step.add ⟨w3d, [e3]⟩ e3 0 (some 7) (List.mem_singleton_self e3))
  exact Relation.ReflTransGen.tail s5
    (Step.add ⟨w3e, [e3]⟩ e3 1 (some 9) (List.mem_singleton_self e3))

/-- Witness for C3: in `demo3`, adding component `2` (value `11`) to the
entity holding `0 = 7` and `1 = 9` preserves both reads. -/
theorem C3_migration_preserves_components_witness :
    (demo3.w.add_component e3 2 (some 11)).get_component e3 0 = some 7 ∧
    (demo3.w.add_component e3 2 (some 11)).get_component e3 1 = some 9 :=
  C3_migration_preserves_components demo3_reach e3 (List.mem_singleton_self e3)
    (by decide) 0 1 2 7 9 (some 11) (by decide) (by decide)

/-- C6 (confirmed): on a handle that is not alive (stale generation,
destroyed, or never created), `destroy_entity`, `add_component` and
`remove_component` return the store completely unchanged — in particular
the `version_` counter is untouched — and `try_get_component` returns
`nullptr` (`none`). -/
theorem C6_dead_handle_ops_are_noops {V : Type} [Inhabited V] (w : world V) (e : ent)
    (cid : Nat) (opt_value : Option V) (h : w.alive e = false) :
    w.destroy_entity e = w ∧
    w.add_component e cid opt_value = w ∧
    w.remove_component e cid = w ∧
    w.try_get_component e cid = none := by
  have h' : w.entities.alive e = false := h
  refine ⟨?_, ?_, ?_, ?_⟩ <;>
    simp [world.destroy_entity, world.add_component, world.remove_component,
      world.try_get_component, world.alive, h']

/-- Witness for C6: in a fresh store the handle `(0, 0)` was never created,
all three mutators leave the store untouched and the component read returns
`none`. -/
theorem C6_dead_handle_ops_are_noops_witness :
    (world.init Nat).alive ⟨0, 0⟩ = false ∧
    ((world.init Nat).destroy_entity ⟨0, 0⟩ = world.init Nat ∧
     (world.init Nat).add_component ⟨0, 0⟩ 0 (some 42) = world.init Nat ∧
     (world.init Nat).remove_component ⟨0, 0⟩ 0 = world.init Nat ∧
     (world.init Nat).try_get_component ⟨0, 0⟩ 0 = none) :=
  ⟨by decide, C6_dead_handle_ops_are_noops (world.init Nat) ⟨0, 0⟩ 0 (some 42) (by decide)⟩

/-- After any `refresh` the cache is initialized. -/
theorem refresh_initialized {V : Type} (cs : List Nat) (w : world V) (c : render_cache V) :
    (render_cache.refresh cs w c).initialized = true := by
  by_cases hI : c.initialized = true
  · by_cases hV : c.cached_version = some w.version
    · simp [render_cache.refresh, hI, hV]
    · simp [render_cache.refresh, hI, hV]
  · by_cases hV : c.cached_version = some w.version
    · simp [render_cache.refresh, render_cache.init, hI, hV]
    · simp [render_cache.refresh, render_cache.init, hI, hV]

/-- After any `refresh` the cache's last-seen version is the store's. -/
theorem refresh_cached_version {V : Type} (cs : List Nat) (w : world V) (c : render_cache V) :
    (render_cache.refresh cs w c).cached_version = some w.version := by
  by_cases hI : c.initialized = true
  · by_cases hV : c.cached_version = some w.version
    · simp [render_cache.refresh, hI, hV]
    · simp [render_cache.refresh, hI, hV]
  · by_cases hV : c.cached_version = some w.version
    · simp [render_cache.refresh, render_cache.init, hI, hV]
    · simp [render_cache.refresh, render_cache.init, hI, hV]

/-- C7 (confirmed): `refresh` is idempotent while the store is unchanged —
a second `refresh` against the same store state returns the cache bit for
bit as the first left it (same required set, matching-table list, block
list and cached version); the version comparison short-circuits before any
table scan. -/
theorem C7_refresh_idempotent {V : Type} (cs : List Nat) (w : world V) (c : render_cache V) :
    render_cache.refresh cs w (render_cache.refresh cs w c) = render_cache.refresh cs w c := by
  generalize hr : render_cache.refresh cs w c = r
  have h1 : r.initialized = true := hr ▸ refresh_initialized cs w c
  have h2 : r.cached_version = some w.version := hr ▸ refresh_cached_version cs w c
  unfold render_cache.refresh
  simp [h1, h2]

/-! ### Generation wrap-around: reachable counterexamples

One entity is created and then destroyed/re-created over and over through
the public interface.  Each destroy bumps slot `0`'s `uint32` generation
counter by one, so after `2 ^ 32 - 1` full cycles the counter sits at
`2 ^ 32 - 1`, and the next destroy wraps it back to `0` — the generation
of the very first handle the store ever issued. -/

/-- The store after a create in the cycle: slot `0` alive at generation
`g`, its row in the empty archetype table, store version `v`. -/
def wcyc (g v : Nat) : world Nat :=
  { entities := ⟨[g], [], 1⟩, registry := [],
    storage := { schema_version := 1,
                 tables := [{ id := 0, key := [], entities := [⟨0, g⟩], columns := [] }] },
    empty_table := 0, locations := [⟨some 0, 0⟩], version := v }

/-- The store after the following destroy: slot `0` free with its counter
bumped (modulo `2 ^ 32`, already reduced in `g`), the row removed and the
location invalidated. -/
def wdes (g v : Nat) : world Nat :=
  { entities := ⟨[g], [0], 0⟩, registry := [],
    storage := { schema_version := 1,
                 tables := [{ id := 0, key := [], entities := [], columns := [] }] },
    empty_table := 0, locations := [⟨none, 0⟩], version := v }

/-- The first create of a fresh store. -/
theorem cyc0 : (world.init Nat).create_entity = (⟨0, 0⟩, wcyc 0 1) := by decide

/-- Destroying the cycled entity: the slot's generation counter is bumped
modulo `2 ^ 32`. -/
theorem cyc_destroy (g v : Nat) :
    (wcyc g v).destroy_entity ⟨0, g⟩ = wdes ((g + 1) % 2 ^ 32) (v + 1 + 1) := by
  have halive : entity_manager.alive ⟨[g], [], 1⟩ ⟨0, g⟩ = true := by
    simp [entity_manager.alive, ent.valid]
  simp only [wcyc, wdes]
  simp only [world.destroy_entity, world.remove_row_dense_and_fixup,
    entity_manager.destroy_entity, halive, location.valid]
  simp only [not_true, Bool.not_true, Option.isSome_some, if_true, ite_true,
    if_false, ite_false, Bool.false_eq_true]
  simp only [table.remove_row_swap, column.remove_swap,
    world_storage.set_table, world_storage.get_table]
  norm_num
  exact halive

/-- Re-creating pops slot `0` off the free list and hands back its stored
generation. -/
theorem cyc_create (g v : Nat) :
    (wdes g v).create_entity = (⟨0, g⟩, wcyc g (v + 1)) := by
  simp [world.create_entity, wdes, wcyc, entity_manager.create_entity,
    world.ensure_location_capacity, table.add_row,
    world_storage.set_table, world_storage.get_table]

/-- After `k` destroy/create cycles the one-entity store is reachable with
slot `0` at generation `k % 2 ^ 32`, and the very first handle `(0, 0)` is
among the issued handles. -/
theorem wrap_cycle_reach (k : Nat) : ∃ (v : Nat) (iss : List ent),
    Reach (⟨wcyc (k % 2 ^ 32) v, (⟨0, k % 2 ^ 32⟩ : ent) :: iss⟩ : sys Nat) ∧
    (⟨0, 0⟩ : ent) ∈ ((⟨0, k % 2 ^ 32⟩ : ent) :: iss) := by
  induction k with
  | zero =>
    simp only [Nat.zero_mod]
    refine ⟨1, [], ?_, List.mem_singleton_self _⟩
    have hc := Step.create (sys0 Nat)
    rw [show ((sys0 Nat).w.create_entity) = (⟨0, 0⟩, wcyc 0 1) from cyc0] at hc
    exact Relation.ReflTransGen.single hc
  | succ k ih =>
    obtain ⟨v, iss, hre, hmem⟩ := ih
    have hd : Step (⟨wcyc (k % 2 ^ 32) v, ⟨0, k % 2 ^ 32⟩ :: iss⟩ : sys Nat)
        (⟨wdes ((k % 2 ^ 32 + 1) % 2 ^ 32) (v + 1 + 1),
          ⟨0, k % 2 ^ 32⟩ :: iss⟩ : sys Nat) := by
      have hstep := Step.destroy (⟨wcyc (k % 2 ^ 32) v, ⟨0, k % 2 ^ 32⟩ :: iss⟩ : sys Nat)
        ⟨0, k % 2 ^ 32⟩ (List.mem_cons_self _ _)
      rw [show (⟨wcyc (k % 2 ^ 32) v, ⟨0, k % 2 ^ 32⟩ :: iss⟩ : sys Nat).w.destroy_entity
          ⟨0, k % 2 ^ 32⟩ = wdes ((k % 2 ^ 32 + 1) % 2 ^ 32) (v + 1 + 1) from
        cyc_destroy (k % 2 ^ 32) v] at hstep
      exact hstep
    have hc : Step
        (⟨wdes ((k % 2 ^ 32 + 1) % 2 ^ 32) (v + 1 + 1),
          ⟨0, k % 2 ^ 32⟩ :: iss⟩ : sys Nat)
        (⟨wcyc ((k % 2 ^ 32 + 1) % 2 ^ 32) (v + 1 + 1 + 1),
          ⟨0, (k % 2 ^ 32 + 1) % 2 ^ 32⟩ :: ⟨0, k % 2 ^ 32⟩ :: iss⟩ : sys Nat) := by
      have hstep := Step.create
        (⟨wdes ((k % 2 ^ 32 + 1) % 2 ^ 32) (v + 1 + 1), ⟨0, k % 2 ^ 32⟩ :: iss⟩ : sys Nat)
      rw [show (⟨wdes ((k % 2 ^ 32 + 1) % 2 ^ 32) (v + 1 + 1),
          ⟨0, k % 2 ^ 32⟩ :: iss⟩ : sys Nat).w.create_entity =
          (⟨0, (k % 2 ^ 32 + 1) % 2 ^ 32⟩,
            wcyc ((k % 2 ^ 32 + 1) % 2 ^ 32) (v + 1 + 1 + 1)) from
        cyc_create ((k % 2 ^ 32 + 1) % 2 ^ 32) (v + 1 + 1)] at hstep
      exact hstep
    have hmod : (k % 2 ^ 32 + 1) % 2 ^ 32 = (k + 1) % 2 ^ 32 := by omega
    refine ⟨v + 1 + 1 + 1, ⟨0, k % 2 ^ 32⟩ :: iss, ?_, ?_⟩
    · rw [← hmod]
      exact Relation.ReflTransGen.tail (Relation.ReflTransGen.tail hre hd) hc
    · exact List.mem_cons_of_mem _ hmem

/-- C2's unguarded sync claim is false for the wrapping program: a store
is reachable through the public interface in which a stale issued handle
passes the `alive()` check — its slot's `uint32` generation counter has
wrapped back to the handle's generation after `2 ^ 32` destroys — while
the slot sits on the free list with its location invalidated, so no table
row holds the handle and `loc_sync` fails. -/
theorem C2_generation_wrap_counterexample :
    ∃ s : sys Nat, Reach s ∧ ∃ e ∈ s.issued, s.w.alive e = true ∧
      s.w.get_location e = ⟨none, 0⟩ ∧ ¬ loc_sync s := by
  obtain ⟨v, iss, hre, hmem⟩ := wrap_cycle_reach (2 ^ 32 - 1)
  have hmod : (2 ^ 32 - 1) % 2 ^ 32 = 2 ^ 32 - 1 := by omega
  rw [hmod] at hre hmem
  have hwrap : (2 ^ 32 - 1 + 1) % 2 ^ 32 = 0 := by omega
  have hd : Step (⟨wcyc (2 ^ 32 - 1) v, ⟨0, 2 ^ 32 - 1⟩ :: iss⟩ : sys Nat)
      (⟨wdes 0 (v + 1 + 1), ⟨0, 2 ^ 32 - 1⟩ :: iss⟩ : sys Nat) := by
    have hstep := Step.destroy (⟨wcyc (2 ^ 32 - 1) v, ⟨0, 2 ^ 32 - 1⟩ :: iss⟩ : sys Nat)
      ⟨0, 2 ^ 32 - 1⟩ (List.mem_cons_self _ _)
    rw [show (wcyc (2 ^ 32 - 1) v).destroy_entity ⟨0, 2 ^ 32 - 1⟩ =
        wdes 0 (v + 1 + 1) from by rw [cyc_destroy, hwrap]] at hstep
    exact hstep
  have halive : (wdes 0 (v + 1 + 1)).alive ⟨0, 0⟩ = true := by
    simp [world.alive, entity_manager.alive, ent.valid, wdes]
  have hgl : (wdes 0 (v + 1 + 1)).get_location ⟨0, 0⟩ = ⟨none, 0⟩ := by
    unfold world.get_location
    split_ifs <;> rfl
  refine ⟨⟨wdes 0 (v + 1 + 1), ⟨0, 2 ^ 32 - 1⟩ :: iss⟩,
    Relation.ReflTransGen.tail hre hd, ⟨0, 0⟩, hmem, halive, hgl, ?_⟩
  intro hls
  obtain ⟨tid, r, hgl2, -, -, -⟩ := hls ⟨0, 0⟩ hmem halive
  rw [hgl] at hgl2
  exact Option.noConfusion (congrArg location.tid hgl2)

/-- C5's unguarded recycling claim is false for the wrapping program: a
store is reachable through the public interface holding an alive entity at
generation `2 ^ 32 - 1`; destroying it wraps the slot's `uint32` counter
to `0` and the create call that next recycles the slot returns a handle
with the same index and generation `0` — not a strictly greater
generation. -/
theorem C5_generation_wrap_counterexample :
    ∃ s : sys Nat, Reach s ∧ ∃ e ∈ s.issued, s.w.alive e = true ∧
      ((s.w.destroy_entity e).create_entity).1.index = e.index ∧
      ((s.w.destroy_entity e).create_entity).1.generation = 0 ∧
      ¬ e.generation < ((s.w.destroy_entity e).create_entity).1.generation := by
  obtain ⟨v, iss, hre, hmem⟩ := wrap_cycle_reach (2 ^ 32 - 1)
  have hmod : (2 ^ 32 - 1) % 2 ^ 32 = 2 ^ 32 - 1 := by omega
  rw [hmod] at hre hmem
  have hwrap : (2 ^ 32 - 1 + 1) % 2 ^ 32 = 0 := by omega
  have hdc : ((wcyc (2 ^ 32 - 1) v).destroy_entity ⟨0, 2 ^ 32 - 1⟩).create_entity =
      (⟨0, 0⟩, wcyc 0 (v + 1 + 1 + 1)) := by
    rw [show (wcyc (2 ^ 32 - 1) v).destroy_entity ⟨0, 2 ^ 32 - 1⟩ =
        wdes 0 (v + 1 + 1) from by rw [cyc_destroy, hwrap], cyc_create]
  have halive : (wcyc (2 ^ 32 - 1) v).alive ⟨0, 2 ^ 32 - 1⟩ = true := by
    simp [world.alive, entity_manager.alive, ent.valid, wcyc]
  refine ⟨⟨wcyc (2 ^ 32 - 1) v, ⟨0, 2 ^ 32 - 1⟩ :: iss⟩, hre,
    ⟨0, 2 ^ 32 - 1⟩, List.mem_cons_self _ _, halive, ?_, ?_, ?_⟩
  · rw [hdc]
  · rw [hdc]
  · rw [hdc]
    simp

end fecs

/-! ## Scanline slice partition
(`optimized_renderer_core::compute_slice_ranges`, optimized_renderer.cpp
lines 157-184).

`kWorkerCount = 5`, `kTotalSlices = 6` (optimized_renderer.h lines 304-305).
All `int` arithmetic is modelled on `Int`; every intermediate value in the
loop is nonnegative for `H > 0`, so C++ truncating division agrees with
Lean's division on these operands. -/

def kWorkerCount : Nat := 5

def kTotalSlices : Nat := kWorkerCount + 1

/-- Body of one iteration of the `for (s = 0; s < total; ++s)` loop:
given the running start row `y`, produce the slice `(y0, y1)` stored into
`m_ranges[s]`. -/
def slice_range_step (h base rem total s y : Int) : Int × Int :=
  let slice_h := base + (if s < rem then (1 : Int) else 0)
  let y0 := y
  let y1 := y + slice_h - 1
  let y1f :=
    if s = total - 1 then h - 1
    else
      let aligned_end := ((y1 + 1 + (4 - 1)) / 4) * 4 - 1
      if aligned_end < h - 1 then aligned_end else y1
  (y0, y1f)

/-- The loop of `compute_slice_ranges`, with the next iteration starting at
`y1 + 1`; `k` counts the remaining iterations. -/
def slice_ranges_aux (h base rem total : Int) : Nat → Int → Int → List (Int × Int)
  | 0, _, _ => []
  | k + 1, s, y =>
    let r := slice_range_step h base rem total s y
    r :: slice_ranges_aux h base rem total k (s + 1) (r.2 + 1)

/-- `compute_slice_ranges(H)`: the six `worker_range` entries written into
`m_ranges`, in order (5 worker slices followed by the calling thread's). -/
def compute_slice_ranges (H : Nat) : List (Int × Int) :=
  let h : Int := (H : Int)
  slice_ranges_aux h (h / (kTotalSlices : Int)) (h % (kTotalSlices : Int))
    (kTotalSlices : Int) kTotalSlices 0 0

/-- A row `r` belongs to some computed slice (`worker_loop` executes a slice
only when `y0 <= y1`, so an inverted pair covers nothing; a row inside a
well-formed pair is exactly `y0 ≤ r ≤ y1`). -/
def slice_covers (ranges : List (Int × Int)) (r : Int) : Bool :=
  ranges.any (fun p => decide (p.1 ≤ r) && decide (r ≤ p.2))

/-- C1 (code bug): at `H = 6` the computed slices are
`[0,3], [4,4], [5,5], [6,6], [7,7]` and an empty `[8,5]`: rows `6` and `7`
are covered although the valid row interval is `[0,5]`.  The row-alignment
rounding consumes rows faster than the `base + carry` schedule hands them
out, and nothing clamps the non-final slices to `h - 1`, so the partition
overshoots the framebuffer.  `draw_world_slice` clamps a triangle's bounding
box only to the slice and to the width, so these rows would be written out
of bounds. -/
theorem C1_slice_ranges_overshoot_at_H6 :
    compute_slice_ranges 6 = [(0, 3), (4, 4), (5, 5), (6, 6), (7, 7), (8, 5)] ∧
    slice_covers (compute_slice_ranges 6) 6 = true ∧
    slice_covers (compute_slice_ranges 6) 7 = true ∧
    ¬((6 : Int) ≤ 6 - 1) := by
  refine ⟨by decide, by decide, by decide, by decide⟩

/-! ## Scalar rasterizer (`optimized_renderer_core::draw_world_slice`,
optimized_renderer.cpp lines 318-538, non-SIMD path).

Pixel coordinates and loop counters are C++ `int`s, modelled on `Int`;
floating-point quantities are modelled on `ℚ` (every operation in this path
is `+ - * / min max` comparison, exactly representable over the rationals).
`vec4::normalise` needs a square root, which leaves `ℚ`; it is abstracted
as an arbitrary function `nrmize`, applied exactly where the C++ calls
`normalise`.  The world/view-projection matrix products applied before and
inside `make_svtx` are taken as inputs (`hp` is the clip-space position
`p * position`, `nw` the world-space normal `world * nrm_os`). -/

structure vec4Q where
  x : ℚ
  y : ℚ
  z : ℚ
  w : ℚ
deriving DecidableEq, Repr

structure colourQ where
  r : ℚ
  g : ℚ
  b : ℚ
deriving DecidableEq, Repr

/-- `vec4::dot` (scalar path): three-component dot product. -/
def dot3 (a b : vec4Q) : ℚ := a.x * b.x + a.y * b.y + a.z * b.z

/-- `vec4::operator+` (fmath.h): adds the three spatial lanes and zeroes
`w`. -/
def vaddQ (a b : vec4Q) : vec4Q := ⟨a.x + b.x, a.y + b.y, a.z + b.z, 0⟩

/-- `clamp01` (optimized_renderer.cpp lines 43-46). -/
def clamp01 (v : ℚ) : ℚ := if v < 0 then 0 else if v > 1 then 1 else v

/-- `pack_rgba8_from_colour` (optimized_renderer.cpp lines 48-59): each
channel clamped to `[0,1]`, scaled by 255 and truncated to `uint8`
(truncation of a nonnegative value is the floor), packed `0xAABBGGRR` with
`A = 255`. -/
def pack_rgba8_from_colour (c : colourQ) : Nat :=
  let r : Nat := (⌊clamp01 c.r * 255⌋).toNat
  let g : Nat := (⌊clamp01 c.g * 255⌋).toNat
  let b : Nat := (⌊clamp01 c.b * 255⌋).toNat
  (255 <<< 24) ||| (b <<< 16) ||| (g <<< 8) ||| r

/-- `edge_fn` (optimized_renderer.cpp lines 38-41). -/
def edge_fn (ax ay bx b_y px py : ℚ) : ℚ :=
  (px - ax) * (b_y - ay) - (py - ay) * (bx - ax)

/-- `SVtx` (optimized_renderer.h lines 188-193). -/
structure svtx where
  x : ℚ
  y : ℚ
  z : ℚ
  w : ℚ
  n : vec4Q
  c : colourQ
deriving DecidableEq, Repr

/-- The colour and depth buffers, addressed by (row, column). -/
structure sbuf where
  zb : Int → Int → ℚ
  cb : Int → Int → Nat

/-- `*zptr = z; *cptr = rgba;` at pixel `(x, y)`. -/
def sbuf.write (buf : sbuf) (y x : Int) (z : ℚ) (rgba : Nat) : sbuf :=
  { zb := fun y' x' => if y' = y ∧ x' = x then z else buf.zb y' x',
    cb := fun y' x' => if y' = y ∧ x' = x then rgba else buf.cb y' x' }

section rasterizer

variable (nrmize : vec4Q → vec4Q)

/-- `make_svtx` (optimized_renderer.h lines 195-245, scalar path): `hp` is
the clip-space position, `nw` the world-space normal `world * nrm_os`. -/
def make_svtx (hp : vec4Q) (nw : vec4Q) (fw fh : ℚ) (c : colourQ) : svtx :=
  let ww : ℚ := if hp.w ≠ 0 then hp.w else 1
  let ndcx := hp.x / ww
  let ndcy := hp.y / ww
  let ndcz := hp.z / ww
  { x := (ndcx + 1) * (1 / 2) * fw,
    y := fh - (ndcy + 1) * (1 / 2) * fh,
    z := 1 - ndcz,
    w := hp.w,
    n := nrmize nw,
    c := c }

/-- The scalar inner `for (x = minx; x <= maxx; ++x)` loop of
`draw_world_slice` (optimized_renderer.cpp lines 508-528): test the three
incremental edge values, depth-test, write, then step `w0 w1 w2 z` by the
per-column deltas. -/
def raster_row (e0a e1a e2a dzdx : ℚ) (rgba : Nat) (y : Int) :
    Nat → Int → ℚ → ℚ → ℚ → ℚ → sbuf → sbuf
  | 0, _, _, _, _, _, buf => buf
  | n + 1, x, w0, w1, w2, z, buf =>
    let buf1 :=
      if 0 ≤ w0 ∧ 0 ≤ w1 ∧ 0 ≤ w2 then
        if buf.zb y x < z then buf.write y x z rgba else buf
      else buf
    raster_row e0a e1a e2a dzdx rgba y n (x + 1) (w0 + e0a) (w1 + e1a) (w2 + e2a)
      (z + dzdx) buf1

/-- The `for (y = miny; y <= maxy; ++y)` loop: run one row, then step the
row accumulators by the per-row deltas. -/
def raster_rows (e0a e0b e1a e1b e2a e2b dzdx dzdy : ℚ) (rgba : Nat) (minx : Int)
    (xcount : Nat) : Nat → Int → ℚ → ℚ → ℚ → ℚ → sbuf → sbuf
  | 0, _, _, _, _, _, buf => buf
  | n + 1, y, w0r, w1r, w2r, zr, buf =>
    let buf1 := raster_row e0a e1a e2a dzdx rgba y xcount minx w0r w1r w2r zr buf
    raster_rows e0a e0b e1a e1b e2a e2b dzdx dzdy rgba minx xcount n (y + 1)
      (w0r + e0b) (w1r + e1b) (w2r + e2b) (zr + dzdy) buf1

/-- The per-triangle body of `draw_world_slice` (optimized_renderer.cpp
lines 373-536, scalar path) from the area test onward: degenerate-area
reject, bounding box with floor/ceil, slice/screen clamps, once-per-triangle
lighting and packing, edge coefficients, and the incremental row loop. -/
def draw_tri (v0 v1 v2 : svtx) (col : colourQ) (ka kd : ℚ) (light : vec4Q)
    (W y0 y1 : Int) (buf : sbuf) : sbuf :=
  let area := edge_fn v0.x v0.y v1.x v1.y v2.x v2.y
  if area = 0 then buf
  else
    let sign : ℚ := if area < 0 then -1 else 1
    let inv_area := 1 / (area * sign)
    let minx_f := min v0.x (min v1.x v2.x)
    let maxx_f := max v0.x (max v1.x v2.x)
    let miny_f := min v0.y (min v1.y v2.y)
    let maxy_f := max v0.y (max v1.y v2.y)
    let minx0 : Int := ⌊minx_f⌋
    let maxx0 : Int := ⌈maxx_f⌉
    let miny0 : Int := ⌊miny_f⌋
    let maxy0 : Int := ⌈maxy_f⌉
    if maxx0 < 0 ∨ maxy0 < y0 ∨ minx0 ≥ W ∨ miny0 > y1 then buf
    else
      let minx := if minx0 < 0 then 0 else minx0
      let maxx := if maxx0 ≥ W then W - 1 else maxx0
      let miny := if miny0 < y0 then y0 else miny0
      let maxy := if maxy0 > y1 then y1 else maxy0
      if minx > maxx ∨ miny > maxy then buf
      else
        let nrm := nrmize (vaddQ (vaddQ v0.n v1.n) v2.n)
        let ndotl0 := dot3 nrm light
        let ndotl := if ndotl0 < 0 then 0 else ndotl0
        let intensity := ka + kd * ndotl
        let lit : colourQ := ⟨col.r * intensity, col.g * intensity, col.b * intensity⟩
        let rgba := pack_rgba8_from_colour lit
        let e0_a := (v2.y - v1.y) * sign
        let e0_b := (v1.x - v2.x) * sign
        let e0_c := (v2.x * v1.y - v2.y * v1.x) * sign
        let e1_a := (v0.y - v2.y) * sign
        let e1_b := (v2.x - v0.x) * sign
        let e1_c := (v0.x * v2.y - v0.y * v2.x) * sign
        let e2_a := (v1.y - v0.y) * sign
        let e2_b := (v0.x - v1.x) * sign
        let e2_c := (v1.x * v0.y - v1.y * v0.x) * sign
        let start_x : ℚ := (minx : ℚ) + 1 / 2
        let start_y : ℚ := (miny : ℚ) + 1 / 2
        let w0_row := e0_a * start_x + e0_b * start_y + e0_c
        let w1_row := e1_a * start_x + e1_b * start_y + e1_c
        let w2_row := e2_a * start_x + e2_b * start_y + e2_c
        let dzdx := (e0_a * v0.z + e1_a * v1.z + e2_a * v2.z) * inv_area
        let dzdy := (e0_b * v0.z + e1_b * v1.z + e2_b * v2.z) * inv_area
        let z_row := (w0_row * v0.z + w1_row * v1.z + w2_row * v2.z) * inv_area
        raster_rows e0_a e0_b e1_a e1_b e2_a e2_b dzdx dzdy rgba minx
          (maxx - minx + 1).toNat (maxy - miny + 1).toNat miny w0_row w1_row w2_row
          z_row buf

/-- The once-per-triangle packed colour: material colour scaled by
`ka + kd * max(0, dot(n, light))` with `n` the normalised sum of the three
(unit) vertex normals — the uniformly weighted average of the vertex
normals has the same direction as their sum. -/
def tri_rgba (v0 v1 v2 : svtx) (col : colourQ) (ka kd : ℚ) (light : vec4Q) : Nat :=
  let intensity := ka + kd * max 0 (dot3 (nrmize (vaddQ (vaddQ v0.n v1.n) v2.n)) light)
  pack_rgba8_from_colour ⟨col.r * intensity, col.g * intensity, col.b * intensity⟩

/-- The pixel `(x', y')` is drawn by the triangle: inside the clamped
bounding box and on the nonnegative side of all three (sign-folded)
edges, sampled at the pixel centre. -/
def tri_covers (v0 v1 v2 : svtx) (W y0 y1 : Int) (y' x' : Int) : Prop :=
  let area := edge_fn v0.x v0.y v1.x v1.y v2.x v2.y
  let sign : ℚ := if area < 0 then -1 else 1
  area ≠ 0 ∧
  max ⌊min v0.x (min v1.x v2.x)⌋ 0 ≤ x' ∧
  x' ≤ min ⌈max v0.x (max v1.x v2.x)⌉ (W - 1) ∧
  max ⌊min v0.y (min v1.y v2.y)⌋ y0 ≤ y' ∧
  y' ≤ min ⌈max v0.y (max v1.y v2.y)⌉ y1 ∧
  0 ≤ (v2.y - v1.y) * sign * ((x' : ℚ) + 1 / 2) +
      (v1.x - v2.x) * sign * ((y' : ℚ) + 1 / 2) + (v2.x * v1.y - v2.y * v1.x) * sign ∧
  0 ≤ (v0.y - v2.y) * sign * ((x' : ℚ) + 1 / 2) +
      (v2.x - v0.x) * sign * ((y' : ℚ) + 1 / 2) + (v0.x * v2.y - v0.y * v2.x) * sign ∧
  0 ≤ (v1.y - v0.y) * sign * ((x' : ℚ) + 1 / 2) +
      (v0.x - v1.x) * sign * ((y' : ℚ) + 1 / 2) + (v1.x * v0.y - v1.y * v0.x) * sign

end rasterizer

theorem raster_row_cb_cases (e0a e1a e2a dzdx : ℚ) (rgba : Nat) (y : Int) :
    ∀ (n : Nat) (x : Int) (w0 w1 w2 z : ℚ) (buf : sbuf) (y' x' : Int),
      (raster_row e0a e1a e2a dzdx rgba y n x w0 w1 w2 z buf).cb y' x' = buf.cb y' x' ∨
      (raster_row e0a e1a e2a dzdx rgba y n x w0 w1 w2 z buf).cb y' x' = rgba := by
  intro n
  induction n with
  | zero =>
    intro x w0 w1 w2 z buf y' x'
    exact Or.inl rfl
  | succ n ih =>
    intro x w0 w1 w2 z buf y' x'
    simp only [raster_row]
    set buf1 := (if 0 ≤ w0 ∧ 0 ≤ w1 ∧ 0 ≤ w2 then
        if buf.zb y x < z then buf.write y x z rgba else buf
      else buf) with hbuf1
    rcases ih (x + 1) (w0 + e0a) (w1 + e1a) (w2 + e2a) (z + dzdx) buf1 y' x' with h | h
    · rw [h, hbuf1]
      split_ifs with h1 h2
      · dsimp only [sbuf.write]
        split_ifs with h3
        · exact Or.inr rfl
        · exact Or.inl rfl
      · exact Or.inl rfl
      · exact Or.inl rfl
    · exact Or.inr h

theorem raster_rows_cb_cases (e0a e0b e1a e1b e2a e2b dzdx dzdy : ℚ) (rgba : Nat)
    (minx : Int) (xcount : Nat) :
    ∀ (n : Nat) (y : Int) (w0r w1r w2r zr : ℚ) (buf : sbuf) (y' x' : Int),
      (raster_rows e0a e0b e1a e1b e2a e2b dzdx dzdy rgba minx xcount n y
          w0r w1r w2r zr buf).cb y' x' = buf.cb y' x' ∨
      (raster_rows e0a e0b e1a e1b e2a e2b dzdx dzdy rgba minx xcount n y
          w0r w1r w2r zr buf).cb y' x' = rgba := by
  intro n
  induction n with
  | zero =>
    intro y w0r w1r w2r zr buf y' x'
    exact Or.inl rfl
  | succ n ih =>
    intro y w0r w1r w2r zr buf y' x'
    simp only [raster_rows]
    rcases ih (y + 1) (w0r + e0b) (w1r + e1b) (w2r + e2b) (zr + dzdy)
        (raster_row e0a e1a e2a dzdx rgba y xcount minx w0r w1r w2r zr buf) y' x'
      with h | h
    · rw [h]
      exact raster_row_cb_cases e0a e1a e2a dzdx rgba y xcount minx w0r w1r w2r zr
        buf y' x'
    · exact Or.inr h

/-- C9 (confirmed): for every triangle the lighting intensity is computed
once per triangle — `ambient + diffuse * max(0, dot(n, light_dir))` with
`n` the normalised (uniformly weighted) average of the three unit vertex
normals, which has the direction of their sum — and every pixel the
triangle writes carries exactly the material colour scaled by that single
intensity; every other pixel keeps its previous colour. -/
theorem C9_flat_lighting_once_per_triangle (nrmize : vec4Q → vec4Q)
    (v0 v1 v2 : svtx) (col : colourQ) (ka kd : ℚ) (light : vec4Q)
    (W y0 y1 : Int) (buf : sbuf) (y' x' : Int) :
    (draw_tri nrmize v0 v1 v2 col ka kd light W y0 y1 buf).cb y' x' = buf.cb y' x' ∨
    (draw_tri nrmize v0 v1 v2 col ka kd light W y0 y1 buf).cb y' x' =
      tri_rgba nrmize v0 v1 v2 col ka kd light := by
  have hmax : (if dot3 (nrmize (vaddQ (vaddQ v0.n v1.n) v2.n)) light < 0 then (0 : ℚ)
      else dot3 (nrmize (vaddQ (vaddQ v0.n v1.n) v2.n)) light) =
      max 0 (dot3 (nrmize (vaddQ (vaddQ v0.n v1.n) v2.n)) light) := by
    rcases lt_or_le (dot3 (nrmize (vaddQ (vaddQ v0.n v1.n) v2.n)) light) 0 with h | h
    · rw [if_pos h, max_eq_left (le_of_lt h)]
    · rw [if_neg (not_lt.mpr h), max_eq_right h]
  simp only [draw_tri]
  generalize hS : (if edge_fn v0.x v0.y v1.x v1.y v2.x v2.y < 0 then (-1 : ℚ) else 1) = sgn
  generalize hI : (if dot3 (nrmize (vaddQ (vaddQ v0.n v1.n) v2.n)) light < 0 then (0 : ℚ)
    else dot3 (nrmize (vaddQ (vaddQ v0.n v1.n) v2.n)) light) = ndl
  generalize (if (⌊min v0.x (min v1.x v2.x)⌋ : Int) < 0 then (0 : Int)
    else ⌊min v0.x (min v1.x v2.x)⌋) = mnx
  generalize (if (⌈max v0.x (max v1.x v2.x)⌉ : Int) ≥ W then W - 1
    else ⌈max v0.x (max v1.x v2.x)⌉) = mxx
  generalize (if (⌊min v0.y (min v1.y v2.y)⌋ : Int) < y0 then y0
    else ⌊min v0.y (min v1.y v2.y)⌋) = mny
  generalize (if (⌈max v0.y (max v1.y v2.y)⌉ : Int) > y1 then y1
    else ⌈max v0.y (max v1.y v2.y)⌉) = mxy
  split_ifs with h1 h2 h3
  · exact Or.inl rfl
  · exact Or.inl rfl
  · exact Or.inl rfl
  · exact Or.imp (fun hh => hh)
      (fun hh => by rw [hh]; simp only [tri_rgba]; rw [← hmax, hI])
      (raster_rows_cb_cases _ _ _ _ _ _ _ _ _ _ _ _ _ _ _ _ _ _ _ _)

/-- The joint (depth, colour) state of one pixel. -/
def sbuf.px (buf : sbuf) (y x : Int) : ℚ × Nat := (buf.zb y x, buf.cb y x)

/-- Exact characterisation of one inner row loop: pixel `(x', y')` is
written iff it lies in the traversed span, all three incrementally stepped
edge values are nonnegative there, and the incrementally stepped depth
beats the stored depth; the written depth is the stepped depth and the
written colour the per-triangle `rgba`. -/
theorem raster_row_px (e0a e1a e2a dzdx : ℚ) (rgba : Nat) (y : Int) :
    ∀ (n : Nat) (x : Int) (w0 w1 w2 z : ℚ) (buf : sbuf) (y' x' : Int),
      (raster_row e0a e1a e2a dzdx rgba y n x w0 w1 w2 z buf).px y' x' =
        if y' = y ∧ x ≤ x' ∧ x' < x + (n : Int) ∧
            0 ≤ w0 + ((x' - x : Int) : ℚ) * e0a ∧
            0 ≤ w1 + ((x' - x : Int) : ℚ) * e1a ∧
            0 ≤ w2 + ((x' - x : Int) : ℚ) * e2a ∧
            buf.zb y' x' < z + ((x' - x : Int) : ℚ) * dzdx
        then (z + ((x' - x : Int) : ℚ) * dzdx, rgba) else buf.px y' x' := by
  intro n
  induction n with
  | zero =>
    intro x w0 w1 w2 z buf y' x'
    split
    · rename_i hcond
      exfalso
      obtain ⟨-, h2, h3, -⟩ := hcond
      omega
    · rfl
  | succ n ih =>
    intro x w0 w1 w2 z buf y' x'
    simp only [raster_row]
    set buf1 := (if 0 ≤ w0 ∧ 0 ≤ w1 ∧ 0 ≤ w2 then
        if buf.zb y x < z then buf.write y x z rgba else buf
      else buf) with hbuf1
    have hb1 : ∀ (yy xx : Int), buf1.px yy xx =
        if yy = y ∧ xx = x ∧ 0 ≤ w0 ∧ 0 ≤ w1 ∧ 0 ≤ w2 ∧ buf.zb y x < z
        then (z, rgba) else buf.px yy xx := by
      intro yy xx
      rw [hbuf1]
      by_cases hA : 0 ≤ w0 ∧ 0 ≤ w1 ∧ 0 ≤ w2
      · rw [if_pos hA]
        by_cases hB : buf.zb y x < z
        · rw [if_pos hB]
          by_cases hP : yy = y ∧ xx = x
          · rw [if_pos ⟨hP.1, hP.2, hA.1, hA.2.1, hA.2.2, hB⟩]
            dsimp only [sbuf.write, sbuf.px]
            rw [if_pos ⟨hP.1, hP.2⟩, if_pos ⟨hP.1, hP.2⟩]
          · rw [if_neg (fun hh => hP ⟨hh.1, hh.2.1⟩)]
            dsimp only [sbuf.write, sbuf.px]
            rw [if_neg hP, if_neg hP]
        · rw [if_neg hB, if_neg (fun hh => hB hh.2.2.2.2.2)]
      · rw [if_neg hA, if_neg (fun hh => hA ⟨hh.2.2.1, hh.2.2.2.1, hh.2.2.2.2.1⟩)]
    have hb1z : ∀ (yy xx : Int), buf1.zb yy xx =
        if yy = y ∧ xx = x ∧ 0 ≤ w0 ∧ 0 ≤ w1 ∧ 0 ≤ w2 ∧ buf.zb y x < z
        then z else buf.zb yy xx := by
      intro yy xx
      have hc := congrArg Prod.fst (hb1 yy xx)
      simpa only [sbuf.px, apply_ite Prod.fst] using hc
    rw [ih (x + 1) (w0 + e0a) (w1 + e1a) (w2 + e2a) (z + dzdx) buf1 y' x']
    by_cases hy : y' = y
    · subst hy
      by_cases hx : x' = x
      · subst hx
        rw [if_neg (fun hh => by have h2 := hh.2.1; omega)]
        rw [hb1 y' x']
        simp only [sub_self, Int.cast_zero, zero_mul, add_zero]
        refine if_congr ?_ rfl rfl
        constructor
        · rintro ⟨-, -, h3, h4, h5, h6⟩
          exact ⟨trivial, le_refl x', by omega, h3, h4, h5, h6⟩
        · rintro ⟨-, -, -, h4, h5, h6, h7⟩
          exact ⟨trivial, trivial, h4, h5, h6, h7⟩
      · by_cases hlt : x' < x
        · rw [if_neg (fun hh => by have h2 := hh.2.1; omega),
            if_neg (fun hh => by have h2 := hh.2.1; omega)]
          rw [hb1 y' x']
          exact if_neg (fun hh => hx hh.2.1)
        · have he0 : w0 + e0a + ((x' - (x + 1) : Int) : ℚ) * e0a =
              w0 + ((x' - x : Int) : ℚ) * e0a := by push_cast; ring
          have he1 : w1 + e1a + ((x' - (x + 1) : Int) : ℚ) * e1a =
              w1 + ((x' - x : Int) : ℚ) * e1a := by push_cast; ring
          have he2 : w2 + e2a + ((x' - (x + 1) : Int) : ℚ) * e2a =
              w2 + ((x' - x : Int) : ℚ) * e2a := by push_cast; ring
          have hez : z + dzdx + ((x' - (x + 1) : Int) : ℚ) * dzdx =
              z + ((x' - x : Int) : ℚ) * dzdx := by push_cast; ring
          have hbz : buf1.zb y' x' = buf.zb y' x' := by
            rw [hb1z y' x']
            exact if_neg (fun hh => hx hh.2.1)
          have hbp : buf1.px y' x' = buf.px y' x' := by
            rw [hb1 y' x']
            exact if_neg (fun hh => hx hh.2.1)
          rw [he0, he1, he2, hez, hbz, hbp]
          refine if_congr ?_ rfl rfl
          constructor
          · rintro ⟨h1, h2, h3, hrest⟩
            exact ⟨h1, by omega, by omega, hrest⟩
          · rintro ⟨h1, h2, h3, hrest⟩
            exact ⟨h1, by omega, by omega, hrest⟩
    · rw [if_neg (fun hh => hy hh.1), if_neg (fun hh => hy hh.1)]
      rw [hb1 y' x']
      exact if_neg (fun hh => hy hh.1)

/-- Exact characterisation of the row loop: a pixel is written iff it lies
in the traversed rectangle, the incrementally stepped edge values are
nonnegative there, and the stepped depth beats the stored one. -/
theorem raster_rows_px (e0a e0b e1a e1b e2a e2b dzdx dzdy : ℚ) (rgba : Nat)
    (minx : Int) (xcount : Nat) :
    ∀ (n : Nat) (y : Int) (w0r w1r w2r zr : ℚ) (buf : sbuf) (y' x' : Int),
      (raster_rows e0a e0b e1a e1b e2a e2b dzdx dzdy rgba minx xcount n y
          w0r w1r w2r zr buf).px y' x' =
        if y ≤ y' ∧ y' < y + (n : Int) ∧ minx ≤ x' ∧ x' < minx + (xcount : Int) ∧
            0 ≤ w0r + ((y' - y : Int) : ℚ) * e0b + ((x' - minx : Int) : ℚ) * e0a ∧
            0 ≤ w1r + ((y' - y : Int) : ℚ) * e1b + ((x' - minx : Int) : ℚ) * e1a ∧
            0 ≤ w2r + ((y' - y : Int) : ℚ) * e2b + ((x' - minx : Int) : ℚ) * e2a ∧
            buf.zb y' x' <
              zr + ((y' - y : Int) : ℚ) * dzdy + ((x' - minx : Int) : ℚ) * dzdx
        then (zr + ((y' - y : Int) : ℚ) * dzdy + ((x' - minx : Int) : ℚ) * dzdx, rgba)
        else buf.px y' x' := by
  intro n
  induction n with
  | zero =>
    intro y w0r w1r w2r zr buf y' x'
    split
    · rename_i hcond
      exfalso
      obtain ⟨h1, h2, -⟩ := hcond
      omega
    · rfl
  | succ n ih =>
    intro y w0r w1r w2r zr buf y' x'
    simp only [raster_rows]
    set buf1 := raster_row e0a e1a e2a dzdx rgba y xcount minx w0r w1r w2r zr buf
      with hbuf1
    have hb1 : ∀ (yy xx : Int), buf1.px yy xx =
        if yy = y ∧ minx ≤ xx ∧ xx < minx + (xcount : Int) ∧
            0 ≤ w0r + ((xx - minx : Int) : ℚ) * e0a ∧
            0 ≤ w1r + ((xx - minx : Int) : ℚ) * e1a ∧
            0 ≤ w2r + ((xx - minx : Int) : ℚ) * e2a ∧
            buf.zb yy xx < zr + ((xx - minx : Int) : ℚ) * dzdx
        then (zr + ((xx - minx : Int) : ℚ) * dzdx, rgba) else buf.px yy xx := by
      intro yy xx
      rw [hbuf1]
      exact raster_row_px e0a e1a e2a dzdx rgba y xcount minx w0r w1r w2r zr buf yy xx
    have hb1z : ∀ (yy xx : Int), buf1.zb yy xx =
        if yy = y ∧ minx ≤ xx ∧ xx < minx + (xcount : Int) ∧
            0 ≤ w0r + ((xx - minx : Int) : ℚ) * e0a ∧
            0 ≤ w1r + ((xx - minx : Int) : ℚ) * e1a ∧
            0 ≤ w2r + ((xx - minx : Int) : ℚ) * e2a ∧
            buf.zb yy xx < zr + ((xx - minx : Int) : ℚ) * dzdx
        then zr + ((xx - minx : Int) : ℚ) * dzdx else buf.zb yy xx := by
      intro yy xx
      have hc := congrArg Prod.fst (hb1 yy xx)
      simpa only [sbuf.px, apply_ite Prod.fst] using hc
    rw [ih (y + 1) (w0r + e0b) (w1r + e1b) (w2r + e2b) (zr + dzdy) buf1 y' x']
    by_cases hy : y' = y
    · subst hy
      rw [if_neg (fun hh => by have h2 := hh.1; omega)]
      rw [hb1 y' x']
      simp only [sub_self, Int.cast_zero, zero_mul, add_zero]
      refine if_congr ?_ rfl rfl
      constructor
      · rintro ⟨-, h2, h3, h4, h5, h6, h7⟩
        exact ⟨le_refl y', by omega, h2, h3, h4, h5, h6, h7⟩
      · rintro ⟨h1, h2, h3, h4, h5, h6, h7, h8⟩
        exact ⟨trivial, h3, h4, h5, h6, h7, h8⟩
    · by_cases hlt : y' < y
      · rw [if_neg (fun hh => by have h2 := hh.1; omega),
          if_neg (fun hh => by have h2 := hh.1; omega)]
        rw [hb1 y' x']
        exact if_neg (fun hh => hy hh.1)
      · have hsh : ∀ (w d : ℚ), w + d + ((y' - (y + 1) : Int) : ℚ) * d =
            w + ((y' - y : Int) : ℚ) * d := by
          intro w d
          push_cast
          ring
        have hbz : buf1.zb y' x' = buf.zb y' x' := by
          rw [hb1z y' x']
          exact if_neg (fun hh => hy hh.1)
        have hbp : buf1.px y' x' = buf.px y' x' := by
          rw [hb1 y' x']
          exact if_neg (fun hh => hy hh.1)
        rw [hsh w0r e0b, hsh w1r e1b, hsh w2r e2b, hsh zr dzdy, hbz, hbp]
        refine if_congr ?_ rfl rfl
        constructor
        · rintro ⟨h1, h2, hrest⟩
          exact ⟨by omega, by omega, hrest⟩
        · rintro ⟨h1, h2, hrest⟩
          exact ⟨by omega, by omega, hrest⟩

theorem rows_px_const (e0a e0b e1a e1b e2a e2b dz1 dz2 : ℚ) (rgba : Nat)
    (minx : Int) (xcount n : Nat) (y : Int) (w0r w1r w2r zr : ℚ) (buf : sbuf)
    (y' x' : Int) (zc : ℚ) (hz1 : dz1 = 0) (hz2 : dz2 = 0) (hzr : zr = zc) :
    (raster_rows e0a e0b e1a e1b e2a e2b dz1 dz2 rgba minx xcount n y
        w0r w1r w2r zr buf).px y' x' =
      if y ≤ y' ∧ y' < y + (n : Int) ∧ minx ≤ x' ∧ x' < minx + (xcount : Int) ∧
          0 ≤ w0r + ((y' - y : Int) : ℚ) * e0b + ((x' - minx : Int) : ℚ) * e0a ∧
          0 ≤ w1r + ((y' - y : Int) : ℚ) * e1b + ((x' - minx : Int) : ℚ) * e1a ∧
          0 ≤ w2r + ((y' - y : Int) : ℚ) * e2b + ((x' - minx : Int) : ℚ) * e2a ∧
          buf.zb y' x' < zc
      then (zc, rgba) else buf.px y' x' := by
  subst hz1
  subst hz2
  subst hzr
  rw [raster_rows_px]
  simp only [mul_zero, add_zero]

theorem if_lt_eq_max (a b : Int) : (if a < b then b else a) = max a b := by
  rcases lt_or_le a b with h | h
  · rw [if_pos h, max_eq_right (le_of_lt h)]
  · rw [if_neg (not_lt.mpr h), max_eq_left h]

theorem if_ge_eq_min (a W : Int) : (if a ≥ W then W - 1 else a) = min a (W - 1) := by
  rcases le_or_lt W a with h | h
  · rw [if_pos h, min_eq_right (by omega)]
  · rw [if_neg (not_le.mpr h), min_eq_left (by omega)]

theorem if_gt_eq_min (a b : Int) : (if a > b then b else a) = min a b := by
  rcases lt_or_le b a with h | h
  · rw [if_pos h, min_eq_right (le_of_lt h)]
  · rw [if_neg (not_lt.mpr h), min_eq_left h]

instance tri_covers_dec (v0 v1 v2 : svtx) (W y0 y1 y' x' : Int) :
    Decidable (tri_covers v0 v1 v2 W y0 y1 y' x') := by
  unfold tri_covers
  infer_instance

/-- Exact characterisation of `draw_tri` for a triangle of constant screen
depth `zc`: a pixel is overwritten with depth `zc` and the once-per-triangle
colour exactly when the triangle covers it and `zc` beats the stored depth;
every other pixel keeps its previous depth and colour. -/
theorem draw_tri_px_const (nr : vec4Q → vec4Q) (v0 v1 v2 : svtx) (col : colourQ)
    (ka kd : ℚ) (light : vec4Q) (W y0 y1 : Int) (buf : sbuf) (zc : ℚ)
    (h0 : v0.z = zc) (h1 : v1.z = zc) (h2 : v2.z = zc) (y' x' : Int) :
    (draw_tri nr v0 v1 v2 col ka kd light W y0 y1 buf).px y' x' =
      if tri_covers v0 v1 v2 W y0 y1 y' x' ∧ buf.zb y' x' < zc
      then (zc, tri_rgba nr v0 v1 v2 col ka kd light) else buf.px y' x' := by
  have hmax : (if dot3 (nr (vaddQ (vaddQ v0.n v1.n) v2.n)) light < 0 then (0 : ℚ)
      else dot3 (nr (vaddQ (vaddQ v0.n v1.n) v2.n)) light) =
      max 0 (dot3 (nr (vaddQ (vaddQ v0.n v1.n) v2.n)) light) := by
    rcases lt_or_le (dot3 (nr (vaddQ (vaddQ v0.n v1.n) v2.n)) light) 0 with h | h
    · rw [if_pos h, max_eq_left (le_of_lt h)]
    · rw [if_neg (not_lt.mpr h), max_eq_right h]
  simp only [draw_tri]
  rw [if_lt_eq_max ⌊min v0.x (min v1.x v2.x)⌋ 0,
    if_ge_eq_min ⌈max v0.x (max v1.x v2.x)⌉ W,
    if_lt_eq_max ⌊min v0.y (min v1.y v2.y)⌋ y0,
    if_gt_eq_min ⌈max v0.y (max v1.y v2.y)⌉ y1]
  rw [h0, h1, h2]
  generalize hS : (if edge_fn v0.x v0.y v1.x v1.y v2.x v2.y < 0 then (-1 : ℚ) else 1) = sgn
  generalize hI : (if dot3 (nr (vaddQ (vaddQ v0.n v1.n) v2.n)) light < 0 then (0 : ℚ)
    else dot3 (nr (vaddQ (vaddQ v0.n v1.n) v2.n)) light) = ndl
  have hsq : sgn * sgn = 1 := by
    rw [← hS]
    split_ifs <;> ring
  by_cases hG0 : edge_fn v0.x v0.y v1.x v1.y v2.x v2.y = 0
  · rw [if_pos hG0]
    refine (if_neg ?_).symm
    rintro ⟨hcov, -⟩
    obtain ⟨hc1, -⟩ := hcov
    exact hc1 hG0
  · rw [if_neg hG0]
    by_cases hG1 : ⌈max v0.x (max v1.x v2.x)⌉ < 0 ∨ ⌈max v0.y (max v1.y v2.y)⌉ < y0 ∨
        ⌊min v0.x (min v1.x v2.x)⌋ ≥ W ∨ ⌊min v0.y (min v1.y v2.y)⌋ > y1
    · rw [if_pos hG1]
      refine (if_neg ?_).symm
      rintro ⟨hcov, -⟩
      obtain ⟨-, hx1, hx2, hy1, hy2, -⟩ := hcov
      have hx1a := le_trans (le_max_left _ _) hx1
      have hx1b := le_trans (le_max_right _ _) hx1
      have hx2a := le_trans hx2 (min_le_left _ _)
      have hx2b := le_trans hx2 (min_le_right _ _)
      have hy1a := le_trans (le_max_left _ _) hy1
      have hy1b := le_trans (le_max_right _ _) hy1
      have hy2a := le_trans hy2 (min_le_left _ _)
      have hy2b := le_trans hy2 (min_le_right _ _)
      rcases hG1 with h | h | h | h <;> omega
    · rw [if_neg hG1]
      by_cases hG2 : max ⌊min v0.x (min v1.x v2.x)⌋ 0 >
            min ⌈max v0.x (max v1.x v2.x)⌉ (W - 1) ∨
          max ⌊min v0.y (min v1.y v2.y)⌋ y0 > min ⌈max v0.y (max v1.y v2.y)⌉ y1
      · rw [if_pos hG2]
        refine (if_neg ?_).symm
        rintro ⟨hcov, -⟩
        obtain ⟨-, hx1, hx2, hy1, hy2, -⟩ := hcov
        rcases hG2 with h | h <;> omega
      · rw [if_neg hG2]
        have hne : edge_fn v0.x v0.y v1.x v1.y v2.x v2.y * sgn ≠ 0 := by
          intro hh
          apply hG0
          have h3 := congrArg (fun t => t * sgn) hh
          simp only at h3
          rw [mul_assoc, hsq, mul_one, zero_mul] at h3
          exact h3
        have hEQ : ∀ (A B C : ℚ) (mx my xx yy : Int),
            A * ((mx : ℚ) + 1 / 2) + B * ((my : ℚ) + 1 / 2) + C +
              ((yy - my : Int) : ℚ) * B + ((xx - mx : Int) : ℚ) * A =
            A * ((xx : ℚ) + 1 / 2) + B * ((yy : ℚ) + 1 / 2) + C := by
          intro A B C mx my xx yy
          push_cast
          ring
        rw [rows_px_const _ _ _ _ _ _ _ _ _ _ _ _ _ _ _ _ _ _ _ _ zc]
        · rw [hEQ, hEQ, hEQ]
          simp only [tri_rgba]
          rw [← hmax, hI]
          push_neg at hG2
          obtain ⟨hgx, hgy⟩ := hG2
          refine if_congr ?_ rfl rfl
          simp only [tri_covers]
          rw [hS]
          constructor
          · rintro ⟨hy1, hy2, hx1, hx2, hw0, hw1, hw2, hzb⟩
            exact ⟨⟨hG0, hx1, by omega, hy1, by omega, hw0, hw1, hw2⟩, hzb⟩
          · rintro ⟨⟨-, hx1, hx2, hy1, hy2, hw0, hw1, hw2⟩, hzb⟩
            exact ⟨hy1, by omega, hx1, by omega, hw0, hw1, hw2, hzb⟩
        · ring
        · ring
        · simp only [edge_fn] at hne ⊢
          field_simp
          ring

/-- C8 (confirmed): two opaque triangles at distinct constant buffer-space
depths `s2 < s1` (`s1` nearer under the greater-passes test; the last
conjunct records that `make_svtx` stores depth as `1 - ndc.z`) rasterize to
identical colour and depth buffers in either submission order, and at every
pixel covered by both where the nearer depth beats the initial buffer the
final contents are the nearer triangle's depth and colour. -/
theorem C8_depth_test_order_independent (nr : vec4Q → vec4Q)
    (a0 a1 a2 b0 b1 b2 : svtx) (colA colB : colourQ) (kaA kdA kaB kdB : ℚ)
    (light : vec4Q) (W y0 y1 : Int) (buf : sbuf) (s1 s2 : ℚ)
    (hA0 : a0.z = s1) (hA1 : a1.z = s1) (hA2 : a2.z = s1)
    (hB0 : b0.z = s2) (hB1 : b1.z = s2) (hB2 : b2.z = s2)
    (h12 : s2 < s1) :
    (∀ y' x' : Int,
      (draw_tri nr b0 b1 b2 colB kaB kdB light W y0 y1
          (draw_tri nr a0 a1 a2 colA kaA kdA light W y0 y1 buf)).px y' x' =
      (draw_tri nr a0 a1 a2 colA kaA kdA light W y0 y1
          (draw_tri nr b0 b1 b2 colB kaB kdB light W y0 y1 buf)).px y' x') ∧
    (∀ y' x' : Int, tri_covers a0 a1 a2 W y0 y1 y' x' →
      tri_covers b0 b1 b2 W y0 y1 y' x' →
      buf.zb y' x' < s1 →
      (draw_tri nr b0 b1 b2 colB kaB kdB light W y0 y1
          (draw_tri nr a0 a1 a2 colA kaA kdA light W y0 y1 buf)).px y' x' =
        (s1, tri_rgba nr a0 a1 a2 colA kaA kdA light) ∧
      (draw_tri nr a0 a1 a2 colA kaA kdA light W y0 y1
          (draw_tri nr b0 b1 b2 colB kaB kdB light W y0 y1 buf)).px y' x' =
        (s1, tri_rgba nr a0 a1 a2 colA kaA kdA light)) ∧
    (∀ (hp nw : vec4Q) (fw fh : ℚ) (c : colourQ), hp.w ≠ 0 →
      (make_svtx nr hp nw fw fh c).z = 1 - hp.z / hp.w) := by
  have hAspec := fun (b : sbuf) (y' x' : Int) =>
    draw_tri_px_const nr a0 a1 a2 colA kaA kdA light W y0 y1 b s1 hA0 hA1 hA2 y' x'
  have hBspec := fun (b : sbuf) (y' x' : Int) =>
    draw_tri_px_const nr b0 b1 b2 colB kaB kdB light W y0 y1 b s2 hB0 hB1 hB2 y' x'
  have hAzb : ∀ (b : sbuf) (y' x' : Int),
      (draw_tri nr a0 a1 a2 colA kaA kdA light W y0 y1 b).zb y' x' =
      if tri_covers a0 a1 a2 W y0 y1 y' x' ∧ b.zb y' x' < s1 then s1
      else b.zb y' x' := by
    intro b y' x'
    have hc := congrArg Prod.fst (hAspec b y' x')
    simpa only [sbuf.px, apply_ite Prod.fst] using hc
  have hBzb : ∀ (b : sbuf) (y' x' : Int),
      (draw_tri nr b0 b1 b2 colB kaB kdB light W y0 y1 b).zb y' x' =
      if tri_covers b0 b1 b2 W y0 y1 y' x' ∧ b.zb y' x' < s2 then s2
      else b.zb y' x' := by
    intro b y' x'
    have hc := congrArg Prod.fst (hBspec b y' x')
    simpa only [sbuf.px, apply_ite Prod.fst] using hc
  have hns : ¬ s1 < s2 := not_lt.mpr (le_of_lt h12)
  refine ⟨?_, ?_, ?_⟩
  · intro y' x'
    rw [hBspec (draw_tri nr a0 a1 a2 colA kaA kdA light W y0 y1 buf) y' x',
      hAspec (draw_tri nr b0 b1 b2 colB kaB kdB light W y0 y1 buf) y' x',
      hAzb buf y' x', hBzb buf y' x', hAspec buf y' x', hBspec buf y' x']
    by_cases hP1 : tri_covers a0 a1 a2 W y0 y1 y' x' <;>
      by_cases hP2 : tri_covers b0 b1 b2 W y0 y1 y' x' <;>
      by_cases hz1 : buf.zb y' x' < s1 <;>
      by_cases hz2 : buf.zb y' x' < s2
    all_goals try exact absurd (lt_trans hz2 h12) hz1
    all_goals simp [hP1, hP2, hz1, hz2, hns, h12]
  · intro y' x' hc1 hc2 hz
    constructor
    · rw [hBspec (draw_tri nr a0 a1 a2 colA kaA kdA light W y0 y1 buf) y' x',
        hAzb buf y' x', hAspec buf y' x']
      simp [hc1, hc2, hz, hns]
    · rw [hAspec (draw_tri nr b0 b1 b2 colB kaB kdB light W y0 y1 buf) y' x',
        hBzb buf y' x', hBspec buf y' x']
      by_cases hz2 : buf.zb y' x' < s2 <;> simp [hc1, hc2, hz, hz2, h12, hns]
  · intro hp nw fw fh c hw
    simp only [make_svtx]
    rw [if_pos hw]

/-- Two overlapping axis-box triangles at constant depths `1/2` (nearer in
buffer space) and `1/4`, red and green, over cleared buffers. -/
def demo_t1a : svtx := { x := 2, y := 2, z := 1 / 2, w := 1, n := ⟨0, 0, 1, 0⟩,
                         c := ⟨1, 0, 0⟩ }

def demo_t1b : svtx := { x := 8, y := 2, z := 1 / 2, w := 1, n := ⟨0, 0, 1, 0⟩,
                         c := ⟨1, 0, 0⟩ }

def demo_t1c : svtx := { x := 2, y := 8, z := 1 / 2, w := 1, n := ⟨0, 0, 1, 0⟩,
                         c := ⟨1, 0, 0⟩ }

def demo_t2a : svtx := { x := 3, y := 3, z := 1 / 4, w := 1, n := ⟨0, 0, 1, 0⟩,
                         c := ⟨0, 1, 0⟩ }

def demo_t2b : svtx := { x := 9, y := 3, z := 1 / 4, w := 1, n := ⟨0, 0, 1, 0⟩,
                         c := ⟨0, 1, 0⟩ }

def demo_t2c : svtx := { x := 3, y := 9, z := 1 / 4, w := 1, n := ⟨0, 0, 1, 0⟩,
                         c := ⟨0, 1, 0⟩ }

def demo_buf : sbuf := ⟨fun _ _ => 0, fun _ _ => 0⟩

/-- Witness for C8: the two concrete triangles above, drawn into a 16-wide
slice of rows `[0, 15]`. -/
theorem C8_depth_test_order_independent_witness :
    (∀ y' x' : Int,
      (draw_tri (fun v => v) demo_t2a demo_t2b demo_t2c ⟨0, 1, 0⟩ (1 / 10) (7 / 10)
          ⟨0, 0, 1, 0⟩ 16 0 15
          (draw_tri (fun v => v) demo_t1a demo_t1b demo_t1c ⟨1, 0, 0⟩ (1 / 10) (7 / 10)
            ⟨0, 0, 1, 0⟩ 16 0 15 demo_buf)).px y' x' =
      (draw_tri (fun v => v) demo_t1a demo_t1b demo_t1c ⟨1, 0, 0⟩ (1 / 10) (7 / 10)
          ⟨0, 0, 1, 0⟩ 16 0 15
          (draw_tri (fun v => v) demo_t2a demo_t2b demo_t2c ⟨0, 1, 0⟩ (1 / 10) (7 / 10)
            ⟨0, 0, 1, 0⟩ 16 0 15 demo_buf)).px y' x') ∧
    (∀ y' x' : Int, tri_covers demo_t1a demo_t1b demo_t1c 16 0 15 y' x' →
      tri_covers demo_t2a demo_t2b demo_t2c 16 0 15 y' x' →
      demo_buf.zb y' x' < 1 / 2 →
      (draw_tri (fun v => v) demo_t2a demo_t2b demo_t2c ⟨0, 1, 0⟩ (1 / 10) (7 / 10)
          ⟨0, 0, 1, 0⟩ 16 0 15
          (draw_tri (fun v => v) demo_t1a demo_t1b demo_t1c ⟨1, 0, 0⟩ (1 / 10) (7 / 10)
            ⟨0, 0, 1, 0⟩ 16 0 15 demo_buf)).px y' x' =
        (1 / 2, tri_rgba (fun v => v) demo_t1a demo_t1b demo_t1c ⟨1, 0, 0⟩ (1 / 10)
          (7 / 10) ⟨0, 0, 1, 0⟩) ∧
      (draw_tri (fun v => v) demo_t1a demo_t1b demo_t1c ⟨1, 0, 0⟩ (1 / 10) (7 / 10)
          ⟨0, 0, 1, 0⟩ 16 0 15
          (draw_tri (fun v => v) demo_t2a demo_t2b demo_t2c ⟨0, 1, 0⟩ (1 / 10) (7 / 10)
            ⟨0, 0, 1, 0⟩ 16 0 15 demo_buf)).px y' x' =
        (1 / 2, tri_rgba (fun v => v) demo_t1a demo_t1b demo_t1c ⟨1, 0, 0⟩ (1 / 10)
          (7 / 10) ⟨0, 0, 1, 0⟩)) ∧
    (∀ (hp nw : vec4Q) (fw fh : ℚ) (c : colourQ), hp.w ≠ 0 →
      (make_svtx (fun v => v) hp nw fw fh c).z = 1 - hp.z / hp.w) :=
  C8_depth_test_order_independent (fun v => v) demo_t1a demo_t1b demo_t1c demo_t2a
    demo_t2b demo_t2c ⟨1, 0, 0⟩ ⟨0, 1, 0⟩ (1 / 10) (7 / 10) (1 / 10) (7 / 10)
    ⟨0, 0, 1, 0⟩ 16 0 15 demo_buf (1 / 2) (1 / 4) rfl rfl rfl rfl rfl rfl (by norm_num)
